import Mathlib

/-
Verification of the healthcare backend encryption / key-rotation /
connection-manager core.

The development shallowly embeds the Python sources:
  * app/utils/encryption.py      (EncryptionService, audit logging, bulk ops)
  * app/api/encryption.py        (rotate_encryption_key and the background
                                  key-deployment task)
  * app/core/websocket_manager.py (ConnectionManager)

Byte strings are `List Nat` with every element `< 256`; text is a list of
Unicode scalar values (`List Nat`).  The Fernet cipher used by
`EncryptionService` (cryptography.fernet.Fernet) is implemented concretely:
base64url framing, PKCS7 padding, AES-128-CBC and HMAC-SHA-256, following
the public Fernet specification, so that the round-trip behaviour of
`encrypt_field` / `decrypt_field` is provable rather than assumed.
-/

namespace HC

/-! ### Basic byte / xor lemmas -/

theorem xor_left_comm (a b c : Nat) : a ^^^ (b ^^^ c) = b ^^^ (a ^^^ c) := by
  rw [← Nat.xor_assoc, Nat.xor_comm a b, Nat.xor_assoc]

theorem xor_xor_cancel_left (a b : Nat) : a ^^^ (a ^^^ b) = b := by
  rw [← Nat.xor_assoc, Nat.xor_self, Nat.zero_xor]

theorem xor_lt_256 {a b : Nat} (ha : a < 256) (hb : b < 256) : a ^^^ b < 256 :=
  Nat.xor_lt_two_pow (n := 8) ha hb

/-- All elements of a byte string are bytes. -/
def Bytes (l : List Nat) : Prop := ∀ x ∈ l, x < 256

theorem bytes_append {l₁ l₂ : List Nat} (h₁ : Bytes l₁) (h₂ : Bytes l₂) :
    Bytes (l₁ ++ l₂) := by
  intro x hx
  rcases List.mem_append.mp hx with h | h
  · exact h₁ x h
  · exact h₂ x h

theorem bytes_take {l : List Nat} (n : Nat) (h : Bytes l) : Bytes (l.take n) :=
  fun x hx => h x (List.mem_of_mem_take hx)

theorem bytes_drop {l : List Nat} (n : Nat) (h : Bytes l) : Bytes (l.drop n) :=
  fun x hx => h x (List.mem_of_mem_drop hx)

/-! ### UTF-8

`str.encode()` / `bytes.decode()` in `encrypt_field` / `decrypt_field`.
A Python `str` is a sequence of Unicode scalar values. -/

/-- Unicode scalar value (what a Python `str` element ranges over). -/
def ValidCodepoint (c : Nat) : Prop := c < 1114112 ∧ (c < 55296 ∨ 57344 ≤ c)

/-- A valid text value. -/
def ValidText (s : List Nat) : Prop := ∀ c ∈ s, ValidCodepoint c

/-- UTF-8 encoding of one scalar value. -/
def utf8EncodeChar (c : Nat) : List Nat :=
  if c < 128 then [c]
  else if c < 2048 then [192 + c / 64, 128 + c % 64]
  else if c < 65536 then [224 + c / 4096, 128 + c / 64 % 64, 128 + c % 64]
  else [240 + c / 262144, 128 + c / 4096 % 64, 128 + c / 64 % 64, 128 + c % 64]

/-- UTF-8 encoding of a text value (`str.encode()`). -/
def utf8Encode (s : List Nat) : List Nat := (s.map utf8EncodeChar).flatten

/-- Is a UTF-8 continuation byte. -/
def isCont (b : Nat) : Bool := 128 ≤ b && b < 192

/-- Decode one UTF-8 sequence from the front of a byte string: the scalar
value and the remaining bytes.  Rejects bad leads, bad continuations,
overlong forms, surrogates and out-of-range values (missing continuation
bytes surface as the out-of-band default `256`, which fails `isCont`). -/
def utf8Step : List Nat → Option (Nat × List Nat)
  | [] => none
  | b :: rest =>
    let b1 := rest.getD 0 256
    let b2 := rest.getD 1 256
    let b3 := rest.getD 2 256
    if b < 128 then some (b, rest)
    else if b < 194 then none
    else if b < 224 then
      if isCont b1 then some ((b - 192) * 64 + (b1 - 128), rest.drop 1) else none
    else if b < 240 then
      if isCont b1 && isCont b2 then
        let c := (b - 224) * 4096 + (b1 - 128) * 64 + (b2 - 128)
        if 2048 ≤ c ∧ (c < 55296 ∨ 57344 ≤ c) then some (c, rest.drop 2) else none
      else none
    else if b < 245 then
      if isCont b1 && isCont b2 && isCont b3 then
        let c := (b - 240) * 262144 + (b1 - 128) * 4096 + (b2 - 128) * 64 + (b3 - 128)
        if 65536 ≤ c ∧ c < 1114112 then some (c, rest.drop 3) else none
      else none
    else none

/-- Fuel-indexed strict UTF-8 decoding loop. -/
def utf8DecodeF : Nat → List Nat → Option (List Nat)
  | _, [] => some []
  | 0, _ :: _ => none
  | fuel + 1, b :: rest =>
    match utf8Step (b :: rest) with
    | none => none
    | some (c, r) => (utf8DecodeF fuel r).map (c :: ·)

/-- Strict UTF-8 decoding (`bytes.decode()`). -/
def utf8Decode (l : List Nat) : Option (List Nat) := utf8DecodeF l.length l

theorem utf8EncodeChar_bytes (c : Nat) (h : ValidCodepoint c) :
    Bytes (utf8EncodeChar c) := by
  obtain ⟨h1, _⟩ := h
  intro x hx
  unfold utf8EncodeChar at hx
  split at hx
  · simp only [List.mem_singleton] at hx; omega
  · split at hx
    · simp only [List.mem_cons, List.mem_singleton, List.not_mem_nil, or_false] at hx
      rcases hx with h | h <;> omega
    · split at hx
      · simp only [List.mem_cons, List.mem_singleton, List.not_mem_nil, or_false] at hx
        rcases hx with h | h | h <;> omega
      · simp only [List.mem_cons, List.mem_singleton, List.not_mem_nil, or_false] at hx
        rcases hx with h | h | h | h <;> omega

theorem utf8Encode_bytes (s : List Nat) (h : ValidText s) : Bytes (utf8Encode s) := by
  induction s with
  | nil => intro x hx; simp [utf8Encode] at hx
  | cons c cs ih =>
    intro x hx
    simp only [utf8Encode, List.map_cons, List.flatten_cons, List.mem_append] at hx
    rcases hx with hx | hx
    · exact utf8EncodeChar_bytes c (h c (by simp)) x hx
    · exact ih (fun d hd => h d (by simp [hd])) x hx

theorem isCont_true {b : Nat} (h1 : 128 ≤ b) (h2 : b < 192) : isCont b = true := by
  unfold isCont
  simp only [Bool.and_eq_true, decide_eq_true_eq]
  omega

theorem utf8EncodeChar_length_pos (c : Nat) : 0 < (utf8EncodeChar c).length := by
  unfold utf8EncodeChar
  split
  · simp
  · split
    · simp
    · split <;> simp

theorem utf8Step_encodeChar (c : Nat) (h : ValidCodepoint c) (rest : List Nat) :
    utf8Step (utf8EncodeChar c ++ rest) = some (c, rest) := by
  obtain ⟨h1, h2⟩ := h
  unfold utf8EncodeChar
  by_cases hc1 : c < 128
  · simp only [if_pos hc1, List.cons_append, List.nil_append]
    show (if c < 128 then some (c, rest) else _) = some (c, rest)
    rw [if_pos hc1]
  · by_cases hc2 : c < 2048
    · simp only [if_neg hc1, if_pos hc2, List.cons_append, List.nil_append]
      simp only [utf8Step, List.getD_cons_zero]
      rw [if_neg (by omega), if_neg (by omega), if_pos (by omega),
        if_pos (isCont_true (by omega) (by omega))]
      simp only [List.drop_succ_cons, List.drop_zero]
      have : (192 + c / 64 - 192) * 64 + (128 + c % 64 - 128) = c := by omega
      rw [this]
    · by_cases hc3 : c < 65536
      · simp only [if_neg hc1, if_neg hc2, if_pos hc3, List.cons_append, List.nil_append]
        simp only [utf8Step, List.getD_cons_zero, List.getD_cons_succ]
        rw [if_neg (by omega), if_neg (by omega), if_neg (by omega), if_pos (by omega),
          if_pos (by rw [isCont_true (b := 128 + c / 64 % 64) (by omega) (by omega),
            isCont_true (by omega) (by omega)]; rfl)]
        simp only [List.drop_succ_cons, List.drop_zero]
        have : (224 + c / 4096 - 224) * 4096 + (128 + c / 64 % 64 - 128) * 64 +
            (128 + c % 64 - 128) = c := by omega
        rw [this, if_pos (by omega)]
      · simp only [if_neg hc1, if_neg hc2, if_neg hc3, List.cons_append, List.nil_append]
        simp only [utf8Step, List.getD_cons_zero, List.getD_cons_succ]
        rw [if_neg (by omega), if_neg (by omega), if_neg (by omega), if_neg (by omega),
          if_pos (by omega),
          if_pos (by rw [isCont_true (b := 128 + c / 4096 % 64) (by omega) (by omega),
            isCont_true (b := 128 + c / 64 % 64) (by omega) (by omega),
            isCont_true (by omega) (by omega)]; rfl)]
        simp only [List.drop_succ_cons, List.drop_zero]
        have : (240 + c / 262144 - 240) * 262144 + (128 + c / 4096 % 64 - 128) * 4096 +
            (128 + c / 64 % 64 - 128) * 64 + (128 + c % 64 - 128) = c := by omega
        rw [this, if_pos (by omega)]

theorem utf8DecodeF_encode (s : List Nat) (h : ValidText s) :
    ∀ fuel, (utf8Encode s).length ≤ fuel → utf8DecodeF fuel (utf8Encode s) = some s := by
  induction s with
  | nil => intro fuel _; cases fuel <;> rfl
  | cons c cs ih =>
    intro fuel hfuel
    have henc : utf8Encode (c :: cs) = utf8EncodeChar c ++ utf8Encode cs := by
      simp [utf8Encode]
    rw [henc] at hfuel ⊢
    have hposc := utf8EncodeChar_length_pos c
    have hlen : 0 < (utf8EncodeChar c ++ utf8Encode cs).length := by
      simp only [List.length_append]; omega
    obtain ⟨f, rfl⟩ : ∃ f, fuel = f + 1 := by
      cases fuel with
      | zero => omega
      | succ f => exact ⟨f, rfl⟩
    obtain ⟨b, t, hbt⟩ : ∃ b t, utf8EncodeChar c ++ utf8Encode cs = b :: t := by
      cases hx : utf8EncodeChar c ++ utf8Encode cs with
      | nil => rw [hx] at hlen; simp at hlen
      | cons b t => exact ⟨b, t, rfl⟩
    rw [hbt]
    have hstep : utf8Step (b :: t) = some (c, utf8Encode cs) := by
      rw [← hbt]; exact utf8Step_encodeChar c (h c (by simp)) _
    unfold utf8DecodeF
    rw [hstep]
    show Option.map (fun x => c :: x) (utf8DecodeF f (utf8Encode cs)) = some (c :: cs)
    have hrec : utf8DecodeF f (utf8Encode cs) = some cs := by
      apply ih (fun d hd => h d (by simp [hd]))
      have h1 : (utf8EncodeChar c ++ utf8Encode cs).length =
          (utf8EncodeChar c).length + (utf8Encode cs).length := by
        simp [List.length_append]
      omega
    rw [hrec]
    rfl

/-- UTF-8 round trip: decoding an encoded text recovers the text. -/
theorem utf8Decode_encode (s : List Nat) (h : ValidText s) :
    utf8Decode (utf8Encode s) = some s :=
  utf8DecodeF_encode s h _ (Nat.le_refl _)

/-! ### base64url (`base64.urlsafe_b64encode` / `urlsafe_b64decode`) -/

/-- The base64url alphabet, as ASCII codes, indexed by 6-bit value. -/
def b64Char (n : Nat) : Nat :=
  if n < 26 then 65 + n
  else if n < 52 then 97 + (n - 26)
  else if n < 62 then 48 + (n - 52)
  else if n = 62 then 45
  else 95

/-- Inverse of the base64url alphabet. -/
def b64Inv (c : Nat) : Option Nat :=
  if 65 ≤ c ∧ c ≤ 90 then some (c - 65)
  else if 97 ≤ c ∧ c ≤ 122 then some (26 + (c - 97))
  else if 48 ≤ c ∧ c ≤ 57 then some (52 + (c - 48))
  else if c = 45 then some 62
  else if c = 95 then some 63
  else none

/-- base64url encoding with `=` (ASCII 61) padding. -/
def b64Encode : List Nat → List Nat
  | [] => []
  | [a] => [b64Char (a / 4), b64Char (a % 4 * 16), 61, 61]
  | [a, b] => [b64Char (a / 4), b64Char (a % 4 * 16 + b / 16), b64Char (b % 16 * 4), 61]
  | a :: b :: c :: rest =>
    b64Char (a / 4) :: b64Char (a % 4 * 16 + b / 16) :: b64Char (b % 16 * 4 + c / 64) ::
      b64Char (c % 64) :: b64Encode rest

/-- base64url decoding.  Requires the input length to be a multiple of four
with `=` padding only at the very end (shorter or ragged inputs fail, as
`binascii` rejects incorrectly padded data).  Like `binascii`, leftover bits
in the final group are ignored rather than rejected. -/
def b64Decode : List Nat → Option (List Nat)
  | [] => some []
  | c1 :: c2 :: c3 :: c4 :: rest =>
    (b64Inv c1).bind fun v1 =>
    (b64Inv c2).bind fun v2 =>
    if c3 = 61 then
      if c4 = 61 ∧ rest = [] then some [v1 * 4 + v2 / 16] else none
    else
      (b64Inv c3).bind fun v3 =>
      if c4 = 61 then
        if rest = [] then some [v1 * 4 + v2 / 16, v2 % 16 * 16 + v3 / 4] else none
      else
        (b64Inv c4).bind fun v4 =>
        (b64Decode rest).map
          ((v1 * 4 + v2 / 16) :: (v2 % 16 * 16 + v3 / 4) :: (v3 % 4 * 64 + v4) :: ·)
  | _ => none

theorem b64Inv_b64Char (n : Nat) (h : n < 64) : b64Inv (b64Char n) = some n := by
  have : ∀ m : Fin 64, b64Inv (b64Char m.val) = some m.val := by decide
  exact this ⟨n, h⟩

theorem b64Char_ne_61 (n : Nat) (h : n < 64) : b64Char n ≠ 61 := by
  have : ∀ m : Fin 64, b64Char m.val ≠ 61 := by decide
  exact this ⟨n, h⟩

/-- base64url round trip on byte strings. -/
theorem b64Decode_encode (l : List Nat) (h : Bytes l) :
    b64Decode (b64Encode l) = some l := by
  induction l using b64Encode.induct with
  | case1 => rfl
  | case2 a =>
    have ha : a < 256 := h a (by simp)
    unfold b64Encode b64Decode
    rw [b64Inv_b64Char (a / 4) (by omega), b64Inv_b64Char (a % 4 * 16) (by omega)]
    simp only [Option.some_bind]
    rw [if_pos trivial, if_pos (⟨trivial, trivial⟩ : True ∧ True)]
    have e1 : a / 4 * 4 + a % 4 * 16 / 16 = a := by omega
    rw [e1]
  | case3 a b =>
    have ha : a < 256 := h a (by simp)
    have hb : b < 256 := h b (by simp)
    unfold b64Encode b64Decode
    rw [b64Inv_b64Char (a / 4) (by omega),
      b64Inv_b64Char (a % 4 * 16 + b / 16) (by omega)]
    simp only [Option.some_bind]
    rw [if_neg (b64Char_ne_61 (b % 16 * 4) (by omega)),
      b64Inv_b64Char (b % 16 * 4) (by omega)]
    simp only [Option.some_bind]
    rw [if_pos trivial, if_pos trivial]
    have e1 : a / 4 * 4 + (a % 4 * 16 + b / 16) / 16 = a := by omega
    have e2 : (a % 4 * 16 + b / 16) % 16 * 16 + b % 16 * 4 / 4 = b := by omega
    rw [e1, e2]
  | case4 a b c rest ih =>
    have ha : a < 256 := h a (by simp)
    have hb : b < 256 := h b (by simp)
    have hc : c < 256 := h c (by simp)
    have hrest : Bytes rest := fun x hx => h x (by simp [hx])
    unfold b64Encode b64Decode
    rw [b64Inv_b64Char (a / 4) (by omega),
      b64Inv_b64Char (a % 4 * 16 + b / 16) (by omega)]
    simp only [Option.some_bind]
    rw [if_neg (b64Char_ne_61 (b % 16 * 4 + c / 64) (by omega)),
      b64Inv_b64Char (b % 16 * 4 + c / 64) (by omega)]
    simp only [Option.some_bind]
    rw [if_neg (b64Char_ne_61 (c % 64) (by omega)),
      b64Inv_b64Char (c % 64) (by omega)]
    simp only [Option.some_bind]
    rw [ih hrest]
    have e1 : a / 4 * 4 + (a % 4 * 16 + b / 16) / 16 = a := by omega
    have e2 : (a % 4 * 16 + b / 16) % 16 * 16 + (b % 16 * 4 + c / 64) / 4 = b := by omega
    have e3 : (b % 16 * 4 + c / 64) % 4 * 64 + c % 64 = c := by omega
    rw [e1, e2, e3]
    rfl

/-! ### Big-endian byte serialisation and exact chunking -/

/-- Big-endian encoding of `v` into `n` bytes (`struct.pack` with a fixed
width); higher bits beyond `n` bytes are dropped. -/
def beBytes : Nat → Nat → List Nat
  | 0, _ => []
  | n + 1, v => beBytes n (v / 256) ++ [v % 256]

theorem beBytes_length (n v : Nat) : (beBytes n v).length = n := by
  induction n generalizing v with
  | zero => rfl
  | succ m ih => simp [beBytes, ih]

theorem beBytes_bytes (n v : Nat) : Bytes (beBytes n v) := by
  induction n generalizing v with
  | zero => intro x hx; simp [beBytes] at hx
  | succ m ih =>
    intro x hx
    simp only [beBytes, List.mem_append, List.mem_singleton] at hx
    rcases hx with hx | hx
    · exact ih _ x hx
    · omega

/-- Fuel-indexed splitting into chunks of `n` elements. -/
def chunkF (n : Nat) : Nat → List Nat → List (List Nat)
  | 0, _ => []
  | _, [] => []
  | fuel + 1, l => l.take n :: chunkF n fuel (l.drop n)

/-- Split a list into chunks of `n` elements (the final chunk may be
shorter when `n` does not divide the length). -/
def chunk (n : Nat) (l : List Nat) : List (List Nat) := chunkF n l.length l

theorem chunkF_flatten (n : Nat) (hn : 0 < n) :
    ∀ fuel l, l.length ≤ fuel → (chunkF n fuel l).flatten = l := by
  intro fuel
  induction fuel with
  | zero =>
    intro l hl
    have : l = [] := List.eq_nil_of_length_eq_zero (by omega)
    simp [this, chunkF]
  | succ f ih =>
    intro l hl
    cases l with
    | nil => rfl
    | cons x xs =>
      show ((x :: xs).take n :: chunkF n f ((x :: xs).drop n)).flatten = x :: xs
      have hdl : ((x :: xs).drop n).length ≤ f := by
        simp only [List.length_drop, List.length_cons]
        simp only [List.length_cons] at hl
        omega
      rw [List.flatten_cons, ih ((x :: xs).drop n) hdl, List.take_append_drop]

/-- Chunking then flattening is the identity. -/
theorem chunk_flatten (n : Nat) (hn : 0 < n) (l : List Nat) :
    (chunk n l).flatten = l :=
  chunkF_flatten n hn _ l (Nat.le_refl _)

theorem chunkF_length_mem (n : Nat) (hn : 0 < n) :
    ∀ fuel l c, l.length ≤ fuel → n ∣ l.length → c ∈ chunkF n fuel l →
      c.length = n := by
  intro fuel
  induction fuel with
  | zero => intro l c _ _ hc; simp [chunkF] at hc
  | succ f ih =>
    intro l c hl hdvd hc
    cases l with
    | nil => simp [chunkF] at hc
    | cons x xs =>
      have hlen : n ≤ (x :: xs).length := by
        rcases hdvd with ⟨k, hk⟩
        rcases Nat.eq_zero_or_pos k with hk0 | hk0
        · rw [hk0, Nat.mul_zero] at hk; simp at hk
        · rw [hk]
          calc n = n * 1 := (Nat.mul_one n).symm
            _ ≤ n * k := Nat.mul_le_mul_left n hk0
      rw [show chunkF n (f + 1) (x :: xs) =
        (x :: xs).take n :: chunkF n f ((x :: xs).drop n) from rfl] at hc
      rcases List.mem_cons.mp hc with hc | hc
      · subst hc
        rw [List.length_take]
        exact Nat.min_eq_left hlen
      · refine ih ((x :: xs).drop n) c ?_ ?_ hc
        · simp only [List.length_drop, List.length_cons]
          simp only [List.length_cons] at hl
          omega
        · rcases hdvd with ⟨k, hk⟩
          cases k with
          | zero => rw [Nat.mul_zero] at hk; simp at hk
          | succ k2 =>
            refine ⟨k2, ?_⟩
            rw [List.length_drop, hk, Nat.mul_succ]
            omega

theorem chunk_length_mem (n : Nat) (hn : 0 < n) (l : List Nat) (c : List Nat)
    (hdvd : n ∣ l.length) (hc : c ∈ chunk n l) : c.length = n :=
  chunkF_length_mem n hn _ l c (Nat.le_refl _) hdvd hc

theorem chunkF_mem_bytes :
    ∀ fuel (n : Nat) (l : List Nat) c, Bytes l → c ∈ chunkF n fuel l → Bytes c := by
  intro fuel
  induction fuel with
  | zero => intro n l c _ hc; simp [chunkF] at hc
  | succ f ih =>
    intro n l c hl hc
    cases l with
    | nil => simp [chunkF] at hc
    | cons x xs =>
      rw [show chunkF n (f + 1) (x :: xs) =
        (x :: xs).take n :: chunkF n f ((x :: xs).drop n) from rfl] at hc
      rcases List.mem_cons.mp hc with hc | hc
      · subst hc; exact bytes_take n hl
      · exact ih n _ c (bytes_drop n hl) hc

theorem chunk_mem_bytes (n : Nat) (l : List Nat) (c : List Nat)
    (hl : Bytes l) (hc : c ∈ chunk n l) : Bytes c :=
  chunkF_mem_bytes _ n l c hl hc

/-! ### SHA-256 and HMAC-SHA-256 (used by Fernet for token signing) -/

/-- Truncation to a 32-bit word. -/
def w32 (x : Nat) : Nat := x % 4294967296

/-- 32-bit right rotation. -/
def rotr32 (n x : Nat) : Nat := w32 ((x >>> n) ||| (x <<< (32 - n)))

def sha256K : List Nat := [
  1116352408, 1899447441, 3049323471, 3921009573, 961987163, 1508970993, 2453635748, 2870763221,
  3624381080, 310598401, 607225278, 1426881987, 1925078388, 2162078206, 2614888103, 3248222580,
  3835390401, 4022224774, 264347078, 604807628, 770255983, 1249150122, 1555081692, 1996064986,
  2554220882, 2821834349, 2952996808, 3210313671, 3336571891, 3584528711, 113926993, 338241895,
  666307205, 773529912, 1294757372, 1396182291, 1695183700, 1986661051, 2177026350, 2456956037,
  2730485921, 2820302411, 3259730800, 3345764771, 3516065817, 3600352804, 4094571909, 275423344,
  430227734, 506948616, 659060556, 883997877, 958139571, 1322822218, 1537002063, 1747873779,
  1955562222, 2024104815, 2227730452, 2361852424, 2428436474, 2756734187, 3204031479, 3329325298]

def sha256H0 : List Nat := [
  1779033703, 3144134277, 1013904242, 2773480762, 1359893119, 2600822924, 528734635, 1541459225]

def bsig0 (x : Nat) : Nat := rotr32 2 x ^^^ rotr32 13 x ^^^ rotr32 22 x
def bsig1 (x : Nat) : Nat := rotr32 6 x ^^^ rotr32 11 x ^^^ rotr32 25 x
def ssig0 (x : Nat) : Nat := rotr32 7 x ^^^ rotr32 18 x ^^^ (x >>> 3)
def ssig1 (x : Nat) : Nat := rotr32 17 x ^^^ rotr32 19 x ^^^ (x >>> 10)

/-- Bytes (big-endian groups of four) to 32-bit words. -/
def toWords : List Nat → List Nat
  | b0 :: b1 :: b2 :: b3 :: rest =>
    (b0 * 16777216 + b1 * 65536 + b2 * 256 + b3) :: toWords rest
  | _ => []

/-- One 32-bit word to four big-endian bytes. -/
def wordBytes (w : Nat) : List Nat :=
  [w / 16777216 % 256, w / 65536 % 256, w / 256 % 256, w % 256]

/-- Extend the 16-word message block to the 64-word schedule. -/
def extendSchedule : Nat → List Nat → List Nat
  | 0, ws => ws
  | n + 1, ws =>
    extendSchedule n (ws ++ [w32 (ssig1 (ws.getD (ws.length - 2) 0) +
      ws.getD (ws.length - 7) 0 + ssig0 (ws.getD (ws.length - 15) 0) +
      ws.getD (ws.length - 16) 0)])

/-- One round of the SHA-256 compression function. -/
def shaRound (st : List Nat) (kw : Nat × Nat) : List Nat :=
  let a := st.getD 0 0
  let b := st.getD 1 0
  let c := st.getD 2 0
  let d := st.getD 3 0
  let e := st.getD 4 0
  let f := st.getD 5 0
  let g := st.getD 6 0
  let h := st.getD 7 0
  let ch := (e &&& f) ^^^ ((4294967295 - e) &&& g)
  let maj := (a &&& b) ^^^ (a &&& c) ^^^ (b &&& c)
  let t1 := w32 (h + bsig1 e + ch + kw.1 + kw.2)
  let t2 := w32 (bsig0 a + maj)
  [w32 (t1 + t2), a, b, c, w32 (d + t1), e, f, g]

/-- Compress one 64-byte block into the running state. -/
def sha256Compress (st : List Nat) (block : List Nat) : List Nat :=
  let ws := extendSchedule 48 (toWords block)
  let fin := (sha256K.zip ws).foldl shaRound st
  List.zipWith (fun x y => w32 (x + y)) st fin

/-- SHA-256 message padding. -/
def sha256Pad (msg : List Nat) : List Nat :=
  msg ++ 128 :: List.replicate ((119 - msg.length % 64) % 64) 0 ++
    beBytes 8 (8 * msg.length)

/-- SHA-256 of a byte string. -/
def sha256 (msg : List Nat) : List Nat :=
  (((chunk 64 (sha256Pad msg)).foldl sha256Compress sha256H0).map wordBytes).flatten

/-- HMAC-SHA-256. -/
def hmacSha256 (key msg : List Nat) : List Nat :=
  let k0 := if 64 < key.length then sha256 key ++ List.replicate 32 0
            else key ++ List.replicate (64 - key.length) 0
  sha256 ((k0.map (· ^^^ 92)) ++ sha256 ((k0.map (· ^^^ 54)) ++ msg))

theorem shaRound_length (st : List Nat) (kw : Nat × Nat) :
    (shaRound st kw).length = 8 := rfl

theorem foldl_shaRound_length (l : List (Nat × Nat)) (st : List Nat)
    (h : st.length = 8) : (l.foldl shaRound st).length = 8 := by
  induction l generalizing st with
  | nil => exact h
  | cons x xs ih => exact ih _ (shaRound_length st x)

theorem sha256Compress_length (st : List Nat) (block : List Nat)
    (h : st.length = 8) : (sha256Compress st block).length = 8 := by
  unfold sha256Compress
  rw [List.length_zipWith, foldl_shaRound_length _ _ h, h]
  simp

theorem foldl_sha256Compress_length (bs : List (List Nat)) (st : List Nat)
    (h : st.length = 8) : (bs.foldl sha256Compress st).length = 8 := by
  induction bs generalizing st with
  | nil => exact h
  | cons b rest ih => exact ih _ (sha256Compress_length st b h)

theorem flatten_map_wordBytes_length (st : List Nat) :
    ((st.map wordBytes).flatten).length = 4 * st.length := by
  induction st with
  | nil => rfl
  | cons w ws ih =>
    simp only [List.map_cons, List.flatten_cons, List.length_append, ih,
      List.length_cons, wordBytes, List.length_nil]
    omega

/-- SHA-256 always produces 32 bytes. -/
theorem sha256_length (msg : List Nat) : (sha256 msg).length = 32 := by
  unfold sha256
  rw [flatten_map_wordBytes_length,
    foldl_sha256Compress_length (chunk 64 (sha256Pad msg)) sha256H0 rfl]

/-- HMAC-SHA-256 always produces 32 bytes. -/
theorem hmacSha256_length (key msg : List Nat) : (hmacSha256 key msg).length = 32 :=
  sha256_length _

/-! ### AES-128 (the block cipher inside Fernet)

State and round keys are 16-byte lists; all byte arithmetic is `Nat`
with values kept below 256. -/

/-- The AES S-box. -/
def sboxTable : List Nat := [
  99, 124, 119, 123, 242, 107, 111, 197, 48, 1, 103, 43, 254, 215, 171, 118,
  202, 130, 201, 125, 250, 89, 71, 240, 173, 212, 162, 175, 156, 164, 114, 192,
  183, 253, 147, 38, 54, 63, 247, 204, 52, 165, 229, 241, 113, 216, 49, 21,
  4, 199, 35, 195, 24, 150, 5, 154, 7, 18, 128, 226, 235, 39, 178, 117,
  9, 131, 44, 26, 27, 110, 90, 160, 82, 59, 214, 179, 41, 227, 47, 132,
  83, 209, 0, 237, 32, 252, 177, 91, 106, 203, 190, 57, 74, 76, 88, 207,
  208, 239, 170, 251, 67, 77, 51, 133, 69, 249, 2, 127, 80, 60, 159, 168,
  81, 163, 64, 143, 146, 157, 56, 245, 188, 182, 218, 33, 16, 255, 243, 210,
  205, 12, 19, 236, 95, 151, 68, 23, 196, 167, 126, 61, 100, 93, 25, 115,
  96, 129, 79, 220, 34, 42, 144, 136, 70, 238, 184, 20, 222, 94, 11, 219,
  224, 50, 58, 10, 73, 6, 36, 92, 194, 211, 172, 98, 145, 149, 228, 121,
  231, 200, 55, 109, 141, 213, 78, 169, 108, 86, 244, 234, 101, 122, 174, 8,
  186, 120, 37, 46, 28, 166, 180, 198, 232, 221, 116, 31, 75, 189, 139, 138,
  112, 62, 181, 102, 72, 3, 246, 14, 97, 53, 87, 185, 134, 193, 29, 158,
  225, 248, 152, 17, 105, 217, 142, 148, 155, 30, 135, 233, 206, 85, 40, 223,
  140, 161, 137, 13, 191, 230, 66, 104, 65, 153, 45, 15, 176, 84, 187, 22]

/-- The inverse AES S-box. -/
def invSboxTable : List Nat := [
  82, 9, 106, 213, 48, 54, 165, 56, 191, 64, 163, 158, 129, 243, 215, 251,
  124, 227, 57, 130, 155, 47, 255, 135, 52, 142, 67, 68, 196, 222, 233, 203,
  84, 123, 148, 50, 166, 194, 35, 61, 238, 76, 149, 11, 66, 250, 195, 78,
  8, 46, 161, 102, 40, 217, 36, 178, 118, 91, 162, 73, 109, 139, 209, 37,
  114, 248, 246, 100, 134, 104, 152, 22, 212, 164, 92, 204, 93, 101, 182, 146,
  108, 112, 72, 80, 253, 237, 185, 218, 94, 21, 70, 87, 167, 141, 157, 132,
  144, 216, 171, 0, 140, 188, 211, 10, 247, 228, 88, 5, 184, 179, 69, 6,
  208, 44, 30, 143, 202, 63, 15, 2, 193, 175, 189, 3, 1, 19, 138, 107,
  58, 145, 17, 65, 79, 103, 220, 234, 151, 242, 207, 206, 240, 180, 230, 115,
  150, 172, 116, 34, 231, 173, 53, 133, 226, 249, 55, 232, 28, 117, 223, 110,
  71, 241, 26, 113, 29, 41, 197, 137, 111, 183, 98, 14, 170, 24, 190, 27,
  252, 86, 62, 75, 198, 210, 121, 32, 154, 219, 192, 254, 120, 205, 90, 244,
  31, 221, 168, 51, 136, 7, 199, 49, 177, 18, 16, 89, 39, 128, 236, 95,
  96, 81, 127, 169, 25, 181, 74, 13, 45, 229, 122, 159, 147, 201, 156, 239,
  160, 224, 59, 77, 174, 42, 245, 176, 200, 235, 187, 60, 131, 83, 153, 97,
  23, 43, 4, 126, 186, 119, 214, 38, 225, 105, 20, 99, 85, 33, 12, 125]

def sb (a : Nat) : Nat := sboxTable.getD a 0

def isb (a : Nat) : Nat := invSboxTable.getD a 0

set_option maxRecDepth 4096 in
theorem isb_sb {a : Nat} (h : a < 256) : isb (sb a) = a := by
  have : ∀ x : Fin 256, isb (sb x.val) = x.val := by decide
  exact this ⟨a, h⟩

set_option maxRecDepth 4096 in
theorem sb_lt (a : Nat) : sb a < 256 := by
  by_cases h : a < 256
  · have : ∀ x : Fin 256, sb x.val < 256 := by decide
    exact this ⟨a, h⟩
  · unfold sb
    rw [List.getD_eq_default]
    · omega
    · have : sboxTable.length = 256 := by rfl
      omega

/-- Multiplication by x in GF(256). -/
def xtime (a : Nat) : Nat :=
  (2 * a) ^^^ (if 128 ≤ a then 283 else 0)

theorem two_mul_xor (a b : Nat) : 2 * (a ^^^ b) = 2 * a ^^^ 2 * b := by
  have h2 : ∀ x : Nat, 2 * x / 2 = x := fun x => Nat.mul_div_cancel_left x (by norm_num)
  apply Nat.eq_of_testBit_eq
  intro i
  cases i with
  | zero =>
    simp only [Nat.testBit_zero, Nat.testBit_xor, Nat.mul_mod_right]
    simp
  | succ j =>
    rw [Nat.testBit_xor, Nat.testBit_succ, Nat.testBit_succ, Nat.testBit_succ,
      h2, h2, h2, Nat.testBit_xor]

theorem testBit7_iff (a : Nat) (h : a < 256) : a.testBit 7 = true ↔ 128 ≤ a := by
  rw [Nat.testBit_to_div_mod]
  simp only [decide_eq_true_eq]
  omega

theorem testBit7_of_le (a : Nat) (ha : a < 256) (h : 128 ≤ a) : a.testBit 7 = true :=
  (testBit7_iff a ha).mpr h

theorem testBit7_of_lt (a : Nat) (ha : a < 256) (h : a < 128) : a.testBit 7 = false := by
  cases hc : a.testBit 7 with
  | false => rfl
  | true => exact absurd ((testBit7_iff a ha).mp hc) (by omega)

/-- `xtime` is linear over xor on bytes. -/
theorem xtime_xor (a b : Nat) (ha : a < 256) (hb : b < 256) :
    xtime (a ^^^ b) = xtime a ^^^ xtime b := by
  have hxb : a ^^^ b < 256 := xor_lt_256 ha hb
  unfold xtime
  rw [two_mul_xor]
  rcases Nat.lt_or_ge a 128 with hla | hla <;> rcases Nat.lt_or_ge b 128 with hlb | hlb
  · have h7 : ¬ (128 ≤ a ^^^ b) := by
      intro hc
      have hx := testBit7_of_le _ hxb hc
      rw [Nat.testBit_xor, testBit7_of_lt a ha hla, testBit7_of_lt b hb hlb] at hx
      simp at hx
    simp only [if_neg h7, if_neg (by omega : ¬ 128 ≤ a), if_neg (by omega : ¬ 128 ≤ b),
      Nat.xor_zero]
  · have h7 : 128 ≤ a ^^^ b := by
      refine (testBit7_iff _ hxb).mp ?_
      rw [Nat.testBit_xor, testBit7_of_lt a ha hla, testBit7_of_le b hb hlb]
      rfl
    simp only [if_pos h7, if_neg (by omega : ¬ 128 ≤ a), if_pos hlb, Nat.xor_zero]
    rw [Nat.xor_assoc]
  · have h7 : 128 ≤ a ^^^ b := by
      refine (testBit7_iff _ hxb).mp ?_
      rw [Nat.testBit_xor, testBit7_of_le a ha hla, testBit7_of_lt b hb hlb]
      rfl
    simp only [if_pos h7, if_pos hla, if_neg (by omega : ¬ 128 ≤ b), Nat.xor_zero]
    rw [Nat.xor_assoc, Nat.xor_assoc, Nat.xor_comm (2 * b) 283]
  · have h7 : ¬ (128 ≤ a ^^^ b) := by
      intro hc
      have hx := testBit7_of_le _ hxb hc
      rw [Nat.testBit_xor, testBit7_of_le a ha hla, testBit7_of_le b hb hlb] at hx
      simp at hx
    have cancel : ∀ x y c : Nat, (x ^^^ c) ^^^ (y ^^^ c) = x ^^^ y := by
      intro x y c
      rw [Nat.xor_assoc, xor_left_comm c y c, Nat.xor_self, Nat.xor_zero]
    simp only [if_neg h7, if_pos hla, if_pos hlb, Nat.xor_zero, cancel]

set_option maxRecDepth 4096 in
theorem xtime_lt {a : Nat} (h : a < 256) : xtime a < 256 := by
  have : ∀ x : Fin 256, xtime x.val < 256 := by decide
  exact this ⟨a, h⟩

/-- GF(256) multiplication by 3. -/
def g3 (a : Nat) : Nat := xtime a ^^^ a
/-- GF(256) multiplication by 9. -/
def g9 (a : Nat) : Nat := xtime (xtime (xtime a)) ^^^ a
/-- GF(256) multiplication by 11. -/
def g11 (a : Nat) : Nat := xtime (xtime (xtime a)) ^^^ xtime a ^^^ a
/-- GF(256) multiplication by 13. -/
def g13 (a : Nat) : Nat := xtime (xtime (xtime a)) ^^^ xtime (xtime a) ^^^ a
/-- GF(256) multiplication by 14. -/
def g14 (a : Nat) : Nat := xtime (xtime (xtime a)) ^^^ xtime (xtime a) ^^^ xtime a

theorem g3_lt {a : Nat} (h : a < 256) : g3 a < 256 := xor_lt_256 (xtime_lt h) h
theorem g9_lt {a : Nat} (h : a < 256) : g9 a < 256 :=
  xor_lt_256 (xtime_lt (xtime_lt (xtime_lt h))) h
theorem g11_lt {a : Nat} (h : a < 256) : g11 a < 256 :=
  xor_lt_256 (xor_lt_256 (xtime_lt (xtime_lt (xtime_lt h))) (xtime_lt h)) h
theorem g13_lt {a : Nat} (h : a < 256) : g13 a < 256 :=
  xor_lt_256 (xor_lt_256 (xtime_lt (xtime_lt (xtime_lt h))) (xtime_lt (xtime_lt h))) h
theorem g14_lt {a : Nat} (h : a < 256) : g14 a < 256 :=
  xor_lt_256 (xor_lt_256 (xtime_lt (xtime_lt (xtime_lt h))) (xtime_lt (xtime_lt h)))
    (xtime_lt h)

theorem xor4_swap (a b c d : Nat) : (a ^^^ b) ^^^ (c ^^^ d) = (a ^^^ c) ^^^ (b ^^^ d) := by
  simp only [Nat.xor_assoc, Nat.xor_comm, xor_left_comm]

theorem g3_xor (a b : Nat) (ha : a < 256) (hb : b < 256) :
    g3 (a ^^^ b) = g3 a ^^^ g3 b := by
  unfold g3
  rw [xtime_xor a b ha hb, xor4_swap]

theorem g9_xor (a b : Nat) (ha : a < 256) (hb : b < 256) :
    g9 (a ^^^ b) = g9 a ^^^ g9 b := by
  unfold g9
  rw [xtime_xor a b ha hb, xtime_xor _ _ (xtime_lt ha) (xtime_lt hb),
    xtime_xor _ _ (xtime_lt (xtime_lt ha)) (xtime_lt (xtime_lt hb)), xor4_swap]

theorem g11_xor (a b : Nat) (ha : a < 256) (hb : b < 256) :
    g11 (a ^^^ b) = g11 a ^^^ g11 b := by
  unfold g11
  rw [xtime_xor a b ha hb, xtime_xor _ _ (xtime_lt ha) (xtime_lt hb),
    xtime_xor _ _ (xtime_lt (xtime_lt ha)) (xtime_lt (xtime_lt hb))]
  simp only [Nat.xor_assoc, Nat.xor_comm, xor_left_comm]

theorem g13_xor (a b : Nat) (ha : a < 256) (hb : b < 256) :
    g13 (a ^^^ b) = g13 a ^^^ g13 b := by
  unfold g13
  rw [xtime_xor a b ha hb, xtime_xor _ _ (xtime_lt ha) (xtime_lt hb),
    xtime_xor _ _ (xtime_lt (xtime_lt ha)) (xtime_lt (xtime_lt hb))]
  simp only [Nat.xor_assoc, Nat.xor_comm, xor_left_comm]

theorem g14_xor (a b : Nat) (ha : a < 256) (hb : b < 256) :
    g14 (a ^^^ b) = g14 a ^^^ g14 b := by
  unfold g14
  rw [xtime_xor a b ha hb, xtime_xor _ _ (xtime_lt ha) (xtime_lt hb),
    xtime_xor _ _ (xtime_lt (xtime_lt ha)) (xtime_lt (xtime_lt hb))]
  simp only [Nat.xor_assoc, Nat.xor_comm, xor_left_comm]

set_option maxRecDepth 4096 in
theorem coef0a (x : Nat) (h : x < 256) :
    g14 (xtime x) ^^^ g11 x ^^^ g13 x ^^^ g9 (g3 x) = x := by
  have : ∀ v : Fin 256, g14 (xtime v.val) ^^^ g11 v.val ^^^ g13 v.val ^^^ g9 (g3 v.val) = v.val := by decide
  exact this ⟨x, h⟩

set_option maxRecDepth 4096 in
theorem coef0b (x : Nat) (h : x < 256) :
    g14 (g3 x) ^^^ g11 (xtime x) ^^^ g13 x ^^^ g9 x = 0 := by
  have : ∀ v : Fin 256, g14 (g3 v.val) ^^^ g11 (xtime v.val) ^^^ g13 v.val ^^^ g9 v.val = 0 := by decide
  exact this ⟨x, h⟩

set_option maxRecDepth 4096 in
theorem coef0c (x : Nat) (h : x < 256) :
    g14 x ^^^ g11 (g3 x) ^^^ g13 (xtime x) ^^^ g9 x = 0 := by
  have : ∀ v : Fin 256, g14 v.val ^^^ g11 (g3 v.val) ^^^ g13 (xtime v.val) ^^^ g9 v.val = 0 := by decide
  exact this ⟨x, h⟩

set_option maxRecDepth 4096 in
theorem coef0d (x : Nat) (h : x < 256) :
    g14 x ^^^ g11 x ^^^ g13 (g3 x) ^^^ g9 (xtime x) = 0 := by
  have : ∀ v : Fin 256, g14 v.val ^^^ g11 v.val ^^^ g13 (g3 v.val) ^^^ g9 (xtime v.val) = 0 := by decide
  exact this ⟨x, h⟩

set_option maxRecDepth 4096 in
theorem coef1a (x : Nat) (h : x < 256) :
    g9 (xtime x) ^^^ g14 x ^^^ g11 x ^^^ g13 (g3 x) = 0 := by
  have : ∀ v : Fin 256, g9 (xtime v.val) ^^^ g14 v.val ^^^ g11 v.val ^^^ g13 (g3 v.val) = 0 := by decide
  exact this ⟨x, h⟩

set_option maxRecDepth 4096 in
theorem coef1b (x : Nat) (h : x < 256) :
    g9 (g3 x) ^^^ g14 (xtime x) ^^^ g11 x ^^^ g13 x = x := by
  have : ∀ v : Fin 256, g9 (g3 v.val) ^^^ g14 (xtime v.val) ^^^ g11 v.val ^^^ g13 v.val = v.val := by decide
  exact this ⟨x, h⟩

set_option maxRecDepth 4096 in
theorem coef1c (x : Nat) (h : x < 256) :
    g9 x ^^^ g14 (g3 x) ^^^ g11 (xtime x) ^^^ g13 x = 0 := by
  have : ∀ v : Fin 256, g9 v.val ^^^ g14 (g3 v.val) ^^^ g11 (xtime v.val) ^^^ g13 v.val = 0 := by decide
  exact this ⟨x, h⟩

set_option maxRecDepth 4096 in
theorem coef1d (x : Nat) (h : x < 256) :
    g9 x ^^^ g14 x ^^^ g11 (g3 x) ^^^ g13 (xtime x) = 0 := by
  have : ∀ v : Fin 256, g9 v.val ^^^ g14 v.val ^^^ g11 (g3 v.val) ^^^ g13 (xtime v.val) = 0 := by decide
  exact this ⟨x, h⟩

set_option maxRecDepth 4096 in
theorem coef2a (x : Nat) (h : x < 256) :
    g13 (xtime x) ^^^ g9 x ^^^ g14 x ^^^ g11 (g3 x) = 0 := by
  have : ∀ v : Fin 256, g13 (xtime v.val) ^^^ g9 v.val ^^^ g14 v.val ^^^ g11 (g3 v.val) = 0 := by decide
  exact this ⟨x, h⟩

set_option maxRecDepth 4096 in
theorem coef2b (x : Nat) (h : x < 256) :
    g13 (g3 x) ^^^ g9 (xtime x) ^^^ g14 x ^^^ g11 x = 0 := by
  have : ∀ v : Fin 256, g13 (g3 v.val) ^^^ g9 (xtime v.val) ^^^ g14 v.val ^^^ g11 v.val = 0 := by decide
  exact this ⟨x, h⟩

set_option maxRecDepth 4096 in
theorem coef2c (x : Nat) (h : x < 256) :
    g13 x ^^^ g9 (g3 x) ^^^ g14 (xtime x) ^^^ g11 x = x := by
  have : ∀ v : Fin 256, g13 v.val ^^^ g9 (g3 v.val) ^^^ g14 (xtime v.val) ^^^ g11 v.val = v.val := by decide
  exact this ⟨x, h⟩

set_option maxRecDepth 4096 in
theorem coef2d (x : Nat) (h : x < 256) :
    g13 x ^^^ g9 x ^^^ g14 (g3 x) ^^^ g11 (xtime x) = 0 := by
  have : ∀ v : Fin 256, g13 v.val ^^^ g9 v.val ^^^ g14 (g3 v.val) ^^^ g11 (xtime v.val) = 0 := by decide
  exact this ⟨x, h⟩

set_option maxRecDepth 4096 in
theorem coef3a (x : Nat) (h : x < 256) :
    g11 (xtime x) ^^^ g13 x ^^^ g9 x ^^^ g14 (g3 x) = 0 := by
  have : ∀ v : Fin 256, g11 (xtime v.val) ^^^ g13 v.val ^^^ g9 v.val ^^^ g14 (g3 v.val) = 0 := by decide
  exact this ⟨x, h⟩

set_option maxRecDepth 4096 in
theorem coef3b (x : Nat) (h : x < 256) :
    g11 (g3 x) ^^^ g13 (xtime x) ^^^ g9 x ^^^ g14 x = 0 := by
  have : ∀ v : Fin 256, g11 (g3 v.val) ^^^ g13 (xtime v.val) ^^^ g9 v.val ^^^ g14 v.val = 0 := by decide
  exact this ⟨x, h⟩

set_option maxRecDepth 4096 in
theorem coef3c (x : Nat) (h : x < 256) :
    g11 x ^^^ g13 (g3 x) ^^^ g9 (xtime x) ^^^ g14 x = 0 := by
  have : ∀ v : Fin 256, g11 v.val ^^^ g13 (g3 v.val) ^^^ g9 (xtime v.val) ^^^ g14 v.val = 0 := by decide
  exact this ⟨x, h⟩

set_option maxRecDepth 4096 in
theorem coef3d (x : Nat) (h : x < 256) :
    g11 x ^^^ g13 x ^^^ g9 (g3 x) ^^^ g14 (xtime x) = x := by
  have : ∀ v : Fin 256, g11 v.val ^^^ g13 v.val ^^^ g9 (g3 v.val) ^^^ g14 (xtime v.val) = v.val := by decide
  exact this ⟨x, h⟩

theorem g14_xor4 (w x y z : Nat) (hw : w < 256) (hx : x < 256) (hy : y < 256)
    (hz : z < 256) : g14 (w ^^^ x ^^^ y ^^^ z) = g14 w ^^^ g14 x ^^^ g14 y ^^^ g14 z := by
  rw [g14_xor (w ^^^ x ^^^ y) z (xor_lt_256 (xor_lt_256 hw hx) hy) hz,
    g14_xor (w ^^^ x) y (xor_lt_256 hw hx) hy, g14_xor w x hw hx]

theorem g11_xor4 (w x y z : Nat) (hw : w < 256) (hx : x < 256) (hy : y < 256)
    (hz : z < 256) : g11 (w ^^^ x ^^^ y ^^^ z) = g11 w ^^^ g11 x ^^^ g11 y ^^^ g11 z := by
  rw [g11_xor (w ^^^ x ^^^ y) z (xor_lt_256 (xor_lt_256 hw hx) hy) hz,
    g11_xor (w ^^^ x) y (xor_lt_256 hw hx) hy, g11_xor w x hw hx]

theorem g13_xor4 (w x y z : Nat) (hw : w < 256) (hx : x < 256) (hy : y < 256)
    (hz : z < 256) : g13 (w ^^^ x ^^^ y ^^^ z) = g13 w ^^^ g13 x ^^^ g13 y ^^^ g13 z := by
  rw [g13_xor (w ^^^ x ^^^ y) z (xor_lt_256 (xor_lt_256 hw hx) hy) hz,
    g13_xor (w ^^^ x) y (xor_lt_256 hw hx) hy, g13_xor w x hw hx]

theorem g9_xor4 (w x y z : Nat) (hw : w < 256) (hx : x < 256) (hy : y < 256)
    (hz : z < 256) : g9 (w ^^^ x ^^^ y ^^^ z) = g9 w ^^^ g9 x ^^^ g9 y ^^^ g9 z := by
  rw [g9_xor (w ^^^ x ^^^ y) z (xor_lt_256 (xor_lt_256 hw hx) hy) hz,
    g9_xor (w ^^^ x) y (xor_lt_256 hw hx) hy, g9_xor w x hw hx]

theorem invMix_pos0 (a b c d : Nat) (ha : a < 256) (hb : b < 256) (hc : c < 256)
    (hd : d < 256) :
    g14 (xtime a ^^^ g3 b ^^^ c ^^^ d) ^^^ g11 (a ^^^ xtime b ^^^ g3 c ^^^ d) ^^^
      g13 (a ^^^ b ^^^ xtime c ^^^ g3 d) ^^^ g9 (g3 a ^^^ b ^^^ c ^^^ xtime d) = a := by
  rw [g14_xor4 _ _ _ _ (xtime_lt ha) (g3_lt hb) hc hd,
    g11_xor4 _ _ _ _ ha (xtime_lt hb) (g3_lt hc) hd,
    g13_xor4 _ _ _ _ ha hb (xtime_lt hc) (g3_lt hd),
    g9_xor4 _ _ _ _ (g3_lt ha) hb hc (xtime_lt hd)]
  trans ((g14 (xtime a) ^^^ g11 a ^^^ g13 a ^^^ g9 (g3 a)) ^^^
    ((g14 (g3 b) ^^^ g11 (xtime b) ^^^ g13 b ^^^ g9 b) ^^^
      ((g14 c ^^^ g11 (g3 c) ^^^ g13 (xtime c) ^^^ g9 c) ^^^
        (g14 d ^^^ g11 d ^^^ g13 (g3 d) ^^^ g9 (xtime d)))))
  · simp only [Nat.xor_assoc, Nat.xor_comm, xor_left_comm]
  · rw [coef0a a ha, coef0b b hb, coef0c c hc, coef0d d hd]
    simp

theorem invMix_pos1 (a b c d : Nat) (ha : a < 256) (hb : b < 256) (hc : c < 256)
    (hd : d < 256) :
    g9 (xtime a ^^^ g3 b ^^^ c ^^^ d) ^^^ g14 (a ^^^ xtime b ^^^ g3 c ^^^ d) ^^^
      g11 (a ^^^ b ^^^ xtime c ^^^ g3 d) ^^^ g13 (g3 a ^^^ b ^^^ c ^^^ xtime d) = b := by
  rw [g9_xor4 _ _ _ _ (xtime_lt ha) (g3_lt hb) hc hd,
    g14_xor4 _ _ _ _ ha (xtime_lt hb) (g3_lt hc) hd,
    g11_xor4 _ _ _ _ ha hb (xtime_lt hc) (g3_lt hd),
    g13_xor4 _ _ _ _ (g3_lt ha) hb hc (xtime_lt hd)]
  trans ((g9 (xtime a) ^^^ g14 a ^^^ g11 a ^^^ g13 (g3 a)) ^^^
    ((g9 (g3 b) ^^^ g14 (xtime b) ^^^ g11 b ^^^ g13 b) ^^^
      ((g9 c ^^^ g14 (g3 c) ^^^ g11 (xtime c) ^^^ g13 c) ^^^
        (g9 d ^^^ g14 d ^^^ g11 (g3 d) ^^^ g13 (xtime d)))))
  · simp only [Nat.xor_assoc, Nat.xor_comm, xor_left_comm]
  · rw [coef1a a ha, coef1b b hb, coef1c c hc, coef1d d hd]
    simp

theorem invMix_pos2 (a b c d : Nat) (ha : a < 256) (hb : b < 256) (hc : c < 256)
    (hd : d < 256) :
    g13 (xtime a ^^^ g3 b ^^^ c ^^^ d) ^^^ g9 (a ^^^ xtime b ^^^ g3 c ^^^ d) ^^^
      g14 (a ^^^ b ^^^ xtime c ^^^ g3 d) ^^^ g11 (g3 a ^^^ b ^^^ c ^^^ xtime d) = c := by
  rw [g13_xor4 _ _ _ _ (xtime_lt ha) (g3_lt hb) hc hd,
    g9_xor4 _ _ _ _ ha (xtime_lt hb) (g3_lt hc) hd,
    g14_xor4 _ _ _ _ ha hb (xtime_lt hc) (g3_lt hd),
    g11_xor4 _ _ _ _ (g3_lt ha) hb hc (xtime_lt hd)]
  trans ((g13 (xtime a) ^^^ g9 a ^^^ g14 a ^^^ g11 (g3 a)) ^^^
    ((g13 (g3 b) ^^^ g9 (xtime b) ^^^ g14 b ^^^ g11 b) ^^^
      ((g13 c ^^^ g9 (g3 c) ^^^ g14 (xtime c) ^^^ g11 c) ^^^
        (g13 d ^^^ g9 d ^^^ g14 (g3 d) ^^^ g11 (xtime d)))))
  · simp only [Nat.xor_assoc, Nat.xor_comm, xor_left_comm]
  · rw [coef2a a ha, coef2b b hb, coef2c c hc, coef2d d hd]
    simp

theorem invMix_pos3 (a b c d : Nat) (ha : a < 256) (hb : b < 256) (hc : c < 256)
    (hd : d < 256) :
    g11 (xtime a ^^^ g3 b ^^^ c ^^^ d) ^^^ g13 (a ^^^ xtime b ^^^ g3 c ^^^ d) ^^^
      g9 (a ^^^ b ^^^ xtime c ^^^ g3 d) ^^^ g14 (g3 a ^^^ b ^^^ c ^^^ xtime d) = d := by
  rw [g11_xor4 _ _ _ _ (xtime_lt ha) (g3_lt hb) hc hd,
    g13_xor4 _ _ _ _ ha (xtime_lt hb) (g3_lt hc) hd,
    g9_xor4 _ _ _ _ ha hb (xtime_lt hc) (g3_lt hd),
    g14_xor4 _ _ _ _ (g3_lt ha) hb hc (xtime_lt hd)]
  trans ((g11 (xtime a) ^^^ g13 a ^^^ g9 a ^^^ g14 (g3 a)) ^^^
    ((g11 (g3 b) ^^^ g13 (xtime b) ^^^ g9 b ^^^ g14 b) ^^^
      ((g11 c ^^^ g13 (g3 c) ^^^ g9 (xtime c) ^^^ g14 c) ^^^
        (g11 d ^^^ g13 d ^^^ g9 (g3 d) ^^^ g14 (xtime d)))))
  · simp only [Nat.xor_assoc, Nat.xor_comm, xor_left_comm]
  · rw [coef3a a ha, coef3b b hb, coef3c c hc, coef3d d hd]
    simp

/-- AES MixColumns on the flat column-major 16-byte state
(processes each 4-byte column). -/
def mixCols : List Nat → List Nat
  | a :: b :: c :: d :: rest =>
    (xtime a ^^^ g3 b ^^^ c ^^^ d) :: (a ^^^ xtime b ^^^ g3 c ^^^ d) ::
      (a ^^^ b ^^^ xtime c ^^^ g3 d) :: (g3 a ^^^ b ^^^ c ^^^ xtime d) :: mixCols rest
  | [] => []
  | [a] => [a]
  | [a, b] => [a, b]
  | [a, b, c] => [a, b, c]

/-- AES InvMixColumns. -/
def invMixCols : List Nat → List Nat
  | a :: b :: c :: d :: rest =>
    (g14 a ^^^ g11 b ^^^ g13 c ^^^ g9 d) :: (g9 a ^^^ g14 b ^^^ g11 c ^^^ g13 d) ::
      (g13 a ^^^ g9 b ^^^ g14 c ^^^ g11 d) :: (g11 a ^^^ g13 b ^^^ g9 c ^^^ g14 d) ::
      invMixCols rest
  | [] => []
  | [a] => [a]
  | [a, b] => [a, b]
  | [a, b, c] => [a, b, c]

theorem invMixCols_mixCols (l : List Nat) (h : Bytes l) : invMixCols (mixCols l) = l := by
  induction l using mixCols.induct with
  | case1 a b c d rest ih =>
    have ha : a < 256 := h a (by simp)
    have hb : b < 256 := h b (by simp)
    have hc : c < 256 := h c (by simp)
    have hd : d < 256 := h d (by simp)
    have hrest : Bytes rest := fun x hx => h x (by simp [hx])
    show invMixCols (_ :: _ :: _ :: _ :: mixCols rest) = a :: b :: c :: d :: rest
    unfold invMixCols
    rw [invMix_pos0 a b c d ha hb hc hd, invMix_pos1 a b c d ha hb hc hd,
      invMix_pos2 a b c d ha hb hc hd, invMix_pos3 a b c d ha hb hc hd, ih hrest]
  | case2 => rfl
  | case3 a => rfl
  | case4 a b => rfl
  | case5 a b c => rfl

theorem mixCols_length (l : List Nat) : (mixCols l).length = l.length := by
  induction l using mixCols.induct with
  | case1 a b c d rest ih => simp [mixCols, ih]
  | case2 => rfl
  | case3 a => rfl
  | case4 a b => rfl
  | case5 a b c => rfl

theorem mixCols_bytes (l : List Nat) (h : Bytes l) : Bytes (mixCols l) := by
  induction l using mixCols.induct with
  | case1 a b c d rest ih =>
    have ha : a < 256 := h a (by simp)
    have hb : b < 256 := h b (by simp)
    have hc : c < 256 := h c (by simp)
    have hd : d < 256 := h d (by simp)
    have hrest : Bytes rest := fun x hx => h x (by simp [hx])
    intro x hx
    unfold mixCols at hx
    simp only [List.mem_cons] at hx
    rcases hx with rfl | rfl | rfl | rfl | hx
    · exact xor_lt_256 (xor_lt_256 (xor_lt_256 (xtime_lt ha) (g3_lt hb)) hc) hd
    · exact xor_lt_256 (xor_lt_256 (xor_lt_256 ha (xtime_lt hb)) (g3_lt hc)) hd
    · exact xor_lt_256 (xor_lt_256 (xor_lt_256 ha hb) (xtime_lt hc)) (g3_lt hd)
    · exact xor_lt_256 (xor_lt_256 (xor_lt_256 (g3_lt ha) hb) hc) (xtime_lt hd)
    · exact ih hrest x hx
  | case2 => exact h
  | case3 a => exact h
  | case4 a b => exact h
  | case5 a b c => exact h

/-- AES ShiftRows on the flat column-major state. -/
def shiftRows (s : List Nat) : List Nat :=
  [s.getD 0 0, s.getD 5 0, s.getD 10 0, s.getD 15 0,
   s.getD 4 0, s.getD 9 0, s.getD 14 0, s.getD 3 0,
   s.getD 8 0, s.getD 13 0, s.getD 2 0, s.getD 7 0,
   s.getD 12 0, s.getD 1 0, s.getD 6 0, s.getD 11 0]

/-- AES InvShiftRows. -/
def invShiftRows (s : List Nat) : List Nat :=
  [s.getD 0 0, s.getD 13 0, s.getD 10 0, s.getD 7 0,
   s.getD 4 0, s.getD 1 0, s.getD 14 0, s.getD 11 0,
   s.getD 8 0, s.getD 5 0, s.getD 2 0, s.getD 15 0,
   s.getD 12 0, s.getD 9 0, s.getD 6 0, s.getD 3 0]

/-- AES SubBytes. -/
def subBytes (s : List Nat) : List Nat := s.map sb

/-- AES InvSubBytes. -/
def invSubBytes (s : List Nat) : List Nat := s.map isb

/-- AddRoundKey: xor the state with the round key. -/
def addRk (s rk : List Nat) : List Nat := List.zipWith (· ^^^ ·) s rk

theorem list_len_succ {α : Type} (l : List α) (n : Nat) (h : l.length = n + 1) :
    ∃ x t, l = x :: t ∧ t.length = n := by
  cases l with
  | nil => simp at h
  | cons x t => exact ⟨x, t, rfl, by simpa using h⟩

theorem exists_sixteen (l : List Nat) (h : l.length = 16) :
    ∃ a0 a1 a2 a3 a4 a5 a6 a7 a8 a9 a10 a11 a12 a13 a14 a15 : Nat,
      l = [a0, a1, a2, a3, a4, a5, a6, a7, a8, a9, a10, a11, a12, a13, a14, a15] := by
  obtain ⟨a0, l1, rfl, h1⟩ := list_len_succ _ _ h
  obtain ⟨a1, l2, rfl, h2⟩ := list_len_succ _ _ h1
  obtain ⟨a2, l3, rfl, h3⟩ := list_len_succ _ _ h2
  obtain ⟨a3, l4, rfl, h4⟩ := list_len_succ _ _ h3
  obtain ⟨a4, l5, rfl, h5⟩ := list_len_succ _ _ h4
  obtain ⟨a5, l6, rfl, h6⟩ := list_len_succ _ _ h5
  obtain ⟨a6, l7, rfl, h7⟩ := list_len_succ _ _ h6
  obtain ⟨a7, l8, rfl, h8⟩ := list_len_succ _ _ h7
  obtain ⟨a8, l9, rfl, h9⟩ := list_len_succ _ _ h8
  obtain ⟨a9, l10, rfl, h10⟩ := list_len_succ _ _ h9
  obtain ⟨a10, l11, rfl, h11⟩ := list_len_succ _ _ h10
  obtain ⟨a11, l12, rfl, h12⟩ := list_len_succ _ _ h11
  obtain ⟨a12, l13, rfl, h13⟩ := list_len_succ _ _ h12
  obtain ⟨a13, l14, rfl, h14⟩ := list_len_succ _ _ h13
  obtain ⟨a14, l15, rfl, h15⟩ := list_len_succ _ _ h14
  obtain ⟨a15, l16, rfl, h16⟩ := list_len_succ _ _ h15
  have hnil : l16 = [] := List.eq_nil_of_length_eq_zero h16
  subst hnil
  exact ⟨a0, a1, a2, a3, a4, a5, a6, a7, a8, a9, a10, a11, a12, a13, a14, a15, rfl⟩

theorem invShiftRows_shiftRows (l : List Nat) (h : l.length = 16) :
    invShiftRows (shiftRows l) = l := by
  obtain ⟨a0, a1, a2, a3, a4, a5, a6, a7, a8, a9, a10, a11, a12, a13, a14, a15, rfl⟩ :=
    exists_sixteen l h
  rfl

theorem shiftRows_length (l : List Nat) : (shiftRows l).length = 16 := rfl

theorem getD_lt_of_bytes {l : List Nat} (h : Bytes l) (i : Nat) : l.getD i 0 < 256 := by
  by_cases hi : i < l.length
  · rw [List.getD_eq_getElem l 0 hi]
    exact h _ (List.getElem_mem hi)
  · rw [List.getD_eq_default _ _ (le_of_not_lt hi)]
    omega

theorem shiftRows_bytes (l : List Nat) (h : Bytes l) : Bytes (shiftRows l) := by
  intro x hx
  unfold shiftRows at hx
  simp only [List.mem_cons, List.not_mem_nil, or_false] at hx
  rcases hx with rfl | rfl | rfl | rfl | rfl | rfl | rfl | rfl | rfl | rfl | rfl | rfl |
    rfl | rfl | rfl | rfl <;> exact getD_lt_of_bytes h _

theorem subBytes_bytes (l : List Nat) : Bytes (subBytes l) := by
  intro x hx
  unfold subBytes at hx
  rcases List.mem_map.mp hx with ⟨y, _, rfl⟩
  exact sb_lt y

theorem invSubBytes_subBytes (l : List Nat) (h : Bytes l) :
    invSubBytes (subBytes l) = l := by
  unfold invSubBytes subBytes
  rw [List.map_map]
  induction l with
  | nil => rfl
  | cons x xs ih =>
    simp only [List.map_cons]
    rw [Function.comp_apply, isb_sb (h x (by simp)), ih (fun y hy => h y (by simp [hy]))]

theorem addRk_length (s rk : List Nat) :
    (addRk s rk).length = min s.length rk.length := List.length_zipWith _ _ _

theorem addRk_bytes (s : List Nat) : ∀ rk, Bytes s → Bytes rk → Bytes (addRk s rk) := by
  induction s with
  | nil => intro rk _ _ x hx; simp [addRk] at hx
  | cons y ys ih =>
    intro rk hs hrk x hx
    cases rk with
    | nil => simp [addRk] at hx
    | cons k ks =>
      unfold addRk at hx
      rw [List.zipWith_cons_cons] at hx
      rcases List.mem_cons.mp hx with rfl | hx
      · exact xor_lt_256 (hs y (by simp)) (hrk k (by simp))
      · exact ih ks (fun z hz => hs z (by simp [hz])) (fun z hz => hrk z (by simp [hz])) x hx

theorem addRk_addRk (s : List Nat) : ∀ rk, s.length = rk.length →
    addRk (addRk s rk) rk = s := by
  induction s with
  | nil => intro rk h; simp [addRk]
  | cons x xs ih =>
    intro rk h
    cases rk with
    | nil => simp at h
    | cons k ks =>
      show addRk ((x ^^^ k) :: addRk xs ks) (k :: ks) = x :: xs
      show ((x ^^^ k) ^^^ k) :: addRk (addRk xs ks) ks = x :: xs
      rw [Nat.xor_cancel_right, ih ks (by simpa using h)]

/-! ### AES-128 key schedule and cipher -/

def rconTable : List Nat := [0, 1, 2, 4, 8, 16, 32, 64, 128, 27, 54]

def rotWord (w : List Nat) : List Nat :=
  [w.getD 1 0, w.getD 2 0, w.getD 3 0, w.getD 0 0]

def subWord (w : List Nat) : List Nat := w.map sb

def xorWord (u v : List Nat) : List Nat := List.zipWith (· ^^^ ·) u v

/-- One expansion step per new word; `ws` accumulates the words so far. -/
def expandLoop : Nat → List (List Nat) → List (List Nat)
  | 0, ws => ws
  | n + 1, ws =>
    let i := ws.length
    let prev := ws.getD (i - 1) []
    let t := if i % 4 = 0 then
        xorWord (subWord (rotWord prev)) [rconTable.getD (i / 4) 0, 0, 0, 0]
      else prev
    expandLoop n (ws ++ [xorWord (ws.getD (i - 4) []) t])

/-- The 44 four-byte words of the AES-128 key schedule. -/
def keyWords (key : List Nat) : List (List Nat) :=
  expandLoop 40 [key.take 4, (key.drop 4).take 4, (key.drop 8).take 4, (key.drop 12).take 4]

/-- The 11 sixteen-byte round keys. -/
def roundKeys (key : List Nat) : List (List Nat) :=
  (List.range 11).map (fun r =>
    (keyWords key).getD (4 * r) [] ++ (keyWords key).getD (4 * r + 1) [] ++
      (keyWords key).getD (4 * r + 2) [] ++ (keyWords key).getD (4 * r + 3) [])

/-- A well-formed schedule word: four bytes. -/
def GoodWord (w : List Nat) : Prop := w.length = 4 ∧ Bytes w

theorem rotWord_good (w : List Nat) (h : GoodWord w) : GoodWord (rotWord w) := by
  refine ⟨rfl, ?_⟩
  intro x hx
  unfold rotWord at hx
  simp only [List.mem_cons, List.not_mem_nil, or_false] at hx
  rcases hx with rfl | rfl | rfl | rfl <;> exact getD_lt_of_bytes h.2 _

theorem subWord_good (w : List Nat) (h : GoodWord w) : GoodWord (subWord w) := by
  refine ⟨by simp [subWord, h.1], ?_⟩
  intro x hx
  rcases List.mem_map.mp hx with ⟨y, _, rfl⟩
  exact sb_lt y

theorem xorWord_good (u v : List Nat) (hu : GoodWord u) (hv : GoodWord v) :
    GoodWord (xorWord u v) := by
  refine ⟨by simp [xorWord, List.length_zipWith, hu.1, hv.1], ?_⟩
  exact addRk_bytes u v hu.2 hv.2

theorem rcon_word_good (i : Nat) : GoodWord [rconTable.getD i 0, 0, 0, 0] := by
  refine ⟨rfl, ?_⟩
  intro x hx
  simp only [List.mem_cons, List.not_mem_nil, or_false] at hx
  have hr : Bytes rconTable := by unfold Bytes rconTable; decide
  rcases hx with rfl | rfl | rfl | rfl
  · exact getD_lt_of_bytes hr _
  all_goals omega

theorem getD_good {ws : List (List Nat)} (h : ∀ w ∈ ws, GoodWord w) (i : Nat)
    (hi : i < ws.length) : GoodWord (ws.getD i []) := by
  rw [List.getD_eq_getElem ws [] hi]
  exact h _ (List.getElem_mem hi)

theorem expandLoop_length (n : Nat) : ∀ ws, (expandLoop n ws).length = ws.length + n := by
  induction n with
  | zero => intro ws; rfl
  | succ m ih =>
    intro ws
    show (expandLoop m _).length = _
    rw [ih]
    simp
    omega

theorem expandLoop_good (n : Nat) : ∀ ws, 4 ≤ ws.length → (∀ w ∈ ws, GoodWord w) →
    ∀ w ∈ expandLoop n ws, GoodWord w := by
  induction n with
  | zero => intro ws _ h w hw; exact h w hw
  | succ m ih =>
    intro ws hlen h w hw
    refine ih _ (by simp; omega) ?_ w hw
    intro u hu
    rcases List.mem_append.mp hu with hu | hu
    · exact h u hu
    · have hprev : GoodWord (ws.getD (ws.length - 1) []) :=
        getD_good h _ (by omega)
      have hm4 : GoodWord (ws.getD (ws.length - 4) []) :=
        getD_good h _ (by omega)
      have ht : GoodWord (if ws.length % 4 = 0 then
          xorWord (subWord (rotWord (ws.getD (ws.length - 1) [])))
            [rconTable.getD (ws.length / 4) 0, 0, 0, 0]
        else ws.getD (ws.length - 1) []) := by
        split
        · exact xorWord_good _ _ (subWord_good _ (rotWord_good _ hprev)) (rcon_word_good _)
        · exact hprev
      rcases List.mem_singleton.mp hu with rfl
      exact xorWord_good _ _ hm4 ht

theorem take4_good (l : List Nat) (h : Bytes l) (hlen : 4 ≤ l.length) :
    GoodWord (l.take 4) := by
  refine ⟨by simp [List.length_take]; omega, bytes_take 4 h⟩

theorem keyWords_good (key : List Nat) (hb : Bytes key) (hl : key.length = 16) :
    ∀ w ∈ keyWords key, GoodWord w := by
  apply expandLoop_good 40 _ (by simp)
  intro w hw
  simp only [List.mem_cons, List.not_mem_nil, or_false] at hw
  rcases hw with rfl | rfl | rfl | rfl
  · exact take4_good _ hb (by omega)
  · exact take4_good _ (bytes_drop 4 hb) (by simp [List.length_drop]; omega)
  · exact take4_good _ (bytes_drop 8 hb) (by simp [List.length_drop]; omega)
  · exact take4_good _ (bytes_drop 12 hb) (by simp [List.length_drop]; omega)

theorem keyWords_length (key : List Nat) : (keyWords key).length = 44 := by
  unfold keyWords
  rw [expandLoop_length]
  rfl

/-- A well-formed round key: sixteen bytes. -/
def GoodKey (rk : List Nat) : Prop := rk.length = 16 ∧ Bytes rk

theorem roundKeys_good (key : List Nat) (hb : Bytes key) (hl : key.length = 16) :
    ∀ rk ∈ roundKeys key, GoodKey rk := by
  intro rk hrk
  unfold roundKeys at hrk
  rcases List.mem_map.mp hrk with ⟨r, hr, rfl⟩
  have hrange : r < 11 := List.mem_range.mp hr
  have hkw := keyWords_good key hb hl
  have hlen := keyWords_length key
  have g0 : GoodWord ((keyWords key).getD (4 * r) []) := getD_good hkw _ (by omega)
  have g1 : GoodWord ((keyWords key).getD (4 * r + 1) []) := getD_good hkw _ (by omega)
  have g2w : GoodWord ((keyWords key).getD (4 * r + 2) []) := getD_good hkw _ (by omega)
  have g3w : GoodWord ((keyWords key).getD (4 * r + 3) []) := getD_good hkw _ (by omega)
  constructor
  · simp only [List.length_append, g0.1, g1.1, g2w.1, g3w.1]
  · exact bytes_append (bytes_append (bytes_append g0.2 g1.2) g2w.2) g3w.2

/-- The AES rounds after the initial AddRoundKey: nine full rounds and the
final round without MixColumns; `rks` are round keys 1 to 10. -/
def encRounds : List (List Nat) → List Nat → List Nat
  | [], s => s
  | [rk], s => addRk (shiftRows (subBytes s)) rk
  | rk :: rk2 :: rks, s => encRounds (rk2 :: rks) (addRk (mixCols (shiftRows (subBytes s))) rk)

/-- Inverse of `encRounds` (equation-wise inverse round structure). -/
def invEncRounds : List (List Nat) → List Nat → List Nat
  | [], s => s
  | [rk], s => invSubBytes (invShiftRows (addRk s rk))
  | rk :: rk2 :: rks, s =>
    invSubBytes (invShiftRows (invMixCols (addRk (invEncRounds (rk2 :: rks) s) rk)))

/-- AES-128 block encryption. -/
def aesEncryptBlock (key block : List Nat) : List Nat :=
  match roundKeys key with
  | rk0 :: rks => encRounds rks (addRk block rk0)
  | [] => block

/-- AES-128 block decryption. -/
def aesDecryptBlock (key block : List Nat) : List Nat :=
  match roundKeys key with
  | rk0 :: rks => addRk (invEncRounds rks block) rk0
  | [] => block

theorem subBytes_length (s : List Nat) : (subBytes s).length = s.length := by
  simp [subBytes]

theorem invEncRounds_encRounds : ∀ rks s, (∀ rk ∈ rks, GoodKey rk) →
    s.length = 16 → Bytes s → invEncRounds rks (encRounds rks s) = s := by
  intro rks
  induction rks with
  | nil => intro s _ _ _; rfl
  | cons rk rks2 ih =>
    intro s hg hs16 hsb
    have hrk : GoodKey rk := hg rk (by simp)
    cases rks2 with
    | nil =>
      show invSubBytes (invShiftRows (addRk (addRk (shiftRows (subBytes s)) rk) rk)) = s
      rw [addRk_addRk _ rk (by rw [shiftRows_length, hrk.1]),
        invShiftRows_shiftRows _ (by rw [subBytes_length, hs16]),
        invSubBytes_subBytes _ hsb]
    | cons rk2 rks3 =>
      have hmid : addRk (mixCols (shiftRows (subBytes s))) rk = 
          addRk (mixCols (shiftRows (subBytes s))) rk := rfl
      have hlen : (addRk (mixCols (shiftRows (subBytes s))) rk).length = 16 := by
        rw [addRk_length, mixCols_length, shiftRows_length, hrk.1]
        simp
      have hbytes : Bytes (addRk (mixCols (shiftRows (subBytes s))) rk) :=
        addRk_bytes _ rk (mixCols_bytes _ (shiftRows_bytes _ (subBytes_bytes s))) hrk.2
      show invSubBytes (invShiftRows (invMixCols (addRk
        (invEncRounds (rk2 :: rks3) (encRounds (rk2 :: rks3)
          (addRk (mixCols (shiftRows (subBytes s))) rk))) rk))) = s
      rw [ih _ (fun k hk => hg k (by simp [hk])) hlen hbytes,
        addRk_addRk _ rk (by rw [mixCols_length, shiftRows_length, hrk.1]),
        invMixCols_mixCols _ (shiftRows_bytes _ (subBytes_bytes s)),
        invShiftRows_shiftRows _ (by rw [subBytes_length, hs16]),
        invSubBytes_subBytes _ hsb]

/-- AES-128 decryption inverts encryption on byte blocks. -/
theorem aesDecrypt_encrypt (key block : List Nat) (hkb : Bytes key)
    (hkl : key.length = 16) (hbb : Bytes block) (hbl : block.length = 16) :
    aesDecryptBlock key (aesEncryptBlock key block) = block := by
  have hgood := roundKeys_good key hkb hkl
  have hlen : (roundKeys key).length = 11 := by
    unfold roundKeys
    simp
  unfold aesEncryptBlock aesDecryptBlock
  cases hk : roundKeys key with
  | nil => rfl
  | cons rk0 rks =>
    have hrk0 : GoodKey rk0 := by rw [hk] at hgood; exact hgood rk0 (by simp)
    have hrks : ∀ rk ∈ rks, GoodKey rk := by
      intro rk hr; rw [hk] at hgood; exact hgood rk (by simp [hr])
    show addRk (invEncRounds rks (encRounds rks (addRk block rk0))) rk0 = block
    rw [invEncRounds_encRounds rks (addRk block rk0) hrks
      (by rw [addRk_length, hbl, hrk0.1]; simp)
      (addRk_bytes block rk0 hbb hrk0.2)]
    exact addRk_addRk block rk0 (by rw [hbl, hrk0.1])

theorem encRounds_length : ∀ rks s, (∀ rk ∈ rks, GoodKey rk) → s.length = 16 →
    (encRounds rks s).length = 16 := by
  intro rks
  induction rks with
  | nil => intro s _ h; exact h
  | cons rk rks2 ih =>
    intro s hg hs
    cases rks2 with
    | nil =>
      show (addRk (shiftRows (subBytes s)) rk).length = 16
      rw [addRk_length, shiftRows_length, (hg rk (by simp)).1]
      simp
    | cons rk2 rks3 =>
      show (encRounds (rk2 :: rks3) (addRk (mixCols (shiftRows (subBytes s))) rk)).length = 16
      apply ih _ (fun k hk => hg k (by simp [hk]))
      rw [addRk_length, mixCols_length, shiftRows_length, (hg rk (by simp)).1]
      simp

theorem encRounds_bytes : ∀ rks s, (∀ rk ∈ rks, GoodKey rk) → Bytes s →
    Bytes (encRounds rks s) := by
  intro rks
  induction rks with
  | nil => intro s _ h; exact h
  | cons rk rks2 ih =>
    intro s hg hs
    cases rks2 with
    | nil =>
      exact addRk_bytes _ rk (shiftRows_bytes _ (subBytes_bytes s)) (hg rk (by simp)).2
    | cons rk2 rks3 =>
      apply ih _ (fun k hk => hg k (by simp [hk]))
      exact addRk_bytes _ rk (mixCols_bytes _ (shiftRows_bytes _ (subBytes_bytes s)))
        (hg rk (by simp)).2

theorem aesEncryptBlock_length (key block : List Nat) (hkb : Bytes key)
    (hkl : key.length = 16) (hbl : block.length = 16) :
    (aesEncryptBlock key block).length = 16 := by
  have hgood := roundKeys_good key hkb hkl
  unfold aesEncryptBlock
  cases hk : roundKeys key with
  | nil => exact hbl
  | cons rk0 rks =>
    show (encRounds rks (addRk block rk0)).length = 16
    apply encRounds_length rks _ (fun rk hr => by rw [hk] at hgood; exact hgood rk (by simp [hr]))
    rw [addRk_length, hbl]
    rw [hk] at hgood
    rw [(hgood rk0 (by simp)).1]
    simp

theorem aesEncryptBlock_bytes (key block : List Nat) (hkb : Bytes key)
    (hkl : key.length = 16) (hbb : Bytes block) :
    Bytes (aesEncryptBlock key block) := by
  have hgood := roundKeys_good key hkb hkl
  unfold aesEncryptBlock
  cases hk : roundKeys key with
  | nil => exact hbb
  | cons rk0 rks =>
    show Bytes (encRounds rks (addRk block rk0))
    apply encRounds_bytes rks _ (fun rk hr => by rw [hk] at hgood; exact hgood rk (by simp [hr]))
    apply addRk_bytes _ _ hbb
    rw [hk] at hgood
    exact (hgood rk0 (by simp)).2

theorem sha256_bytes (msg : List Nat) : Bytes (sha256 msg) := by
  unfold sha256
  intro x hx
  rcases List.mem_flatten.mp hx with ⟨l, hl, hxl⟩
  rcases List.mem_map.mp hl with ⟨w, _, rfl⟩
  unfold wordBytes at hxl
  simp only [List.mem_cons, List.not_mem_nil, or_false] at hxl
  rcases hxl with rfl | rfl | rfl | rfl <;> omega

theorem hmacSha256_bytes (key msg : List Nat) : Bytes (hmacSha256 key msg) :=
  sha256_bytes _

/-! ### PKCS7 padding and CBC mode (the body of a Fernet token) -/

/-- PKCS7 padding to 16-byte blocks. -/
def pkcs7Pad (m : List Nat) : List Nat :=
  m ++ List.replicate (16 - m.length % 16) (16 - m.length % 16)

/-- PKCS7 unpadding; fails on an empty or ragged input or a bad pad. -/
def pkcs7Unpad (m : List Nat) : Option (List Nat) :=
  if m.length = 0 ∨ m.length % 16 ≠ 0 then none
  else
    let k := m.getD (m.length - 1) 0
    if 1 ≤ k ∧ k ≤ 16 ∧ (m.drop (m.length - k)).all (· = k) then
      some (m.take (m.length - k))
    else none

theorem pkcs7Pad_length (m : List Nat) :
    (pkcs7Pad m).length = m.length + (16 - m.length % 16) := by
  simp [pkcs7Pad]

theorem pkcs7Pad_mod (m : List Nat) : (pkcs7Pad m).length % 16 = 0 := by
  rw [pkcs7Pad_length]
  omega

theorem pkcs7Pad_bytes (m : List Nat) (h : Bytes m) : Bytes (pkcs7Pad m) := by
  refine bytes_append h ?_
  intro x hx
  rcases List.mem_replicate.mp hx with ⟨_, rfl⟩
  omega

/-- PKCS7 round trip. -/
theorem pkcs7Unpad_pad (m : List Nat) : pkcs7Unpad (pkcs7Pad m) = some m := by
  set k := 16 - m.length % 16 with hk
  have hk1 : 1 ≤ k := by omega
  have hk16 : k ≤ 16 := by omega
  have hlen : (pkcs7Pad m).length = m.length + k := pkcs7Pad_length m
  unfold pkcs7Unpad
  rw [if_neg (by rw [hlen]; omega)]
  have hget : (pkcs7Pad m).getD ((pkcs7Pad m).length - 1) 0 = k := by
    rw [hlen]
    unfold pkcs7Pad
    rw [List.getD_append_right _ _ _ _ (by omega)]
    have hidx : m.length + k - 1 - m.length = k - 1 := by omega
    rw [hidx, ← hk]
    have hlt : k - 1 < (List.replicate k k).length := by
      rw [List.length_replicate]; omega
    rw [List.getD_eq_getElem _ _ hlt, List.getElem_replicate]
  rw [hget]
  have hdrop : (pkcs7Pad m).drop ((pkcs7Pad m).length - k) = List.replicate k k := by
    rw [hlen]
    unfold pkcs7Pad
    have hidx : m.length + k - k = m.length := by omega
    rw [hidx, ← hk, List.drop_left]
  have htake : (pkcs7Pad m).take ((pkcs7Pad m).length - k) = m := by
    rw [hlen]
    unfold pkcs7Pad
    have hidx : m.length + k - k = m.length := by omega
    rw [hidx, ← hk, List.take_left]
  rw [if_pos ?_, htake]
  refine ⟨hk1, hk16, ?_⟩
  rw [hdrop, List.all_eq_true]
  intro x hx
  rcases List.mem_replicate.mp hx with ⟨_, rfl⟩
  simp

/-- CBC encryption over 16-byte blocks (`prev` is the IV or the previous
ciphertext block). -/
def cbcEncBlocks (key prev : List Nat) : List (List Nat) → List (List Nat)
  | [] => []
  | b :: rest =>
    aesEncryptBlock key (addRk b prev) ::
      cbcEncBlocks key (aesEncryptBlock key (addRk b prev)) rest

/-- CBC decryption over 16-byte blocks. -/
def cbcDecBlocks (key prev : List Nat) : List (List Nat) → List (List Nat)
  | [] => []
  | c :: rest => addRk (aesDecryptBlock key c) prev :: cbcDecBlocks key c rest

set_option maxHeartbeats 1000000 in
theorem cbcEncBlocks_good (key : List Nat) (hkb : Bytes key) (hkl : key.length = 16) :
    ∀ bs prev, prev.length = 16 → Bytes prev → (∀ b ∈ bs, b.length = 16 ∧ Bytes b) →
      ∀ c ∈ cbcEncBlocks key prev bs, c.length = 16 ∧ Bytes c := by
  intro bs
  induction bs with
  | nil => intro prev _ _ _ c hc; simp [cbcEncBlocks] at hc
  | cons b rest ih =>
    intro prev hpl hprev hbs c hc
    have hb := hbs b (by simp)
    have henc : (aesEncryptBlock key (addRk b prev)).length = 16 ∧
        Bytes (aesEncryptBlock key (addRk b prev)) := by
      refine ⟨?_, ?_⟩
      · apply aesEncryptBlock_length key _ hkb hkl
        rw [addRk_length, hb.1, hpl]
        simp
      · exact aesEncryptBlock_bytes key _ hkb hkl (addRk_bytes _ _ hb.2 hprev)
    simp only [cbcEncBlocks] at hc
    rcases List.mem_cons.mp hc with hceq | hc
    · rw [hceq]
      exact henc
    · exact ih _ henc.1 henc.2 (fun x hx => hbs x (by simp [hx])) c hc

/-- CBC decryption inverts CBC encryption. -/
theorem cbcDec_cbcEnc (key : List Nat) (hkb : Bytes key) (hkl : key.length = 16) :
    ∀ bs prev, prev.length = 16 → Bytes prev →
      (∀ b ∈ bs, b.length = 16 ∧ Bytes b) →
      cbcDecBlocks key prev (cbcEncBlocks key prev bs) = bs := by
  intro bs
  induction bs with
  | nil => intro prev _ _ _; rfl
  | cons b rest ih =>
    intro prev hpl hpb hbs
    have hb := hbs b (by simp)
    have hxl : (addRk b prev).length = 16 := by
      rw [addRk_length, hb.1, hpl]; simp
    have hxb : Bytes (addRk b prev) := addRk_bytes _ _ hb.2 hpb
    have hcl : (aesEncryptBlock key (addRk b prev)).length = 16 :=
      aesEncryptBlock_length key _ hkb hkl hxl
    have hcb : Bytes (aesEncryptBlock key (addRk b prev)) :=
      aesEncryptBlock_bytes key _ hkb hkl hxb
    show addRk (aesDecryptBlock key (aesEncryptBlock key (addRk b prev))) prev ::
      cbcDecBlocks key (aesEncryptBlock key (addRk b prev))
        (cbcEncBlocks key (aesEncryptBlock key (addRk b prev)) rest) = b :: rest
    rw [aesDecrypt_encrypt key _ hkb hkl hxb hxl,
      addRk_addRk b prev (by rw [hb.1, hpl]),
      ih _ hcl hcb (fun x hx => hbs x (by simp [hx]))]

theorem flatten_length_16 (L : List (List Nat)) (h : ∀ b ∈ L, b.length = 16) :
    L.flatten.length = 16 * L.length := by
  induction L with
  | nil => rfl
  | cons b rest ih =>
    rw [List.flatten_cons, List.length_append, h b (by simp),
      ih (fun x hx => h x (by simp [hx]))]
    simp [Nat.mul_succ]
    omega

theorem flatten_bytes (L : List (List Nat)) (h : ∀ b ∈ L, Bytes b) :
    Bytes L.flatten := by
  intro x hx
  rcases List.mem_flatten.mp hx with ⟨l, hl, hxl⟩
  exact h l hl x hxl

/-- Splitting a flattened list of 16-byte blocks recovers the blocks. -/
theorem chunk_flatten_exact (L : List (List Nat)) (h : ∀ b ∈ L, b.length = 16) :
    chunk 16 L.flatten = L := by
  suffices hgen : ∀ fuel, L.flatten.length ≤ fuel → chunkF 16 fuel L.flatten = L by
    exact hgen _ (Nat.le_refl _)
  induction L with
  | nil => intro fuel _; cases fuel <;> rfl
  | cons b rest ih =>
    intro fuel hfuel
    rw [List.flatten_cons] at hfuel ⊢
    have hbl : b.length = 16 := h b (by simp)
    have hne : b ++ rest.flatten ≠ [] := by
      intro hcon
      have := congrArg List.length hcon
      rw [List.length_append, hbl] at this
      simp at this
    obtain ⟨f, rfl⟩ : ∃ f, fuel = f + 1 := by
      cases fuel with
      | zero =>
        rw [List.length_append, hbl] at hfuel
        omega
      | succ f => exact ⟨f, rfl⟩
    obtain ⟨y, ys, hbr⟩ : ∃ y ys, b ++ rest.flatten = y :: ys := by
      cases hx : b ++ rest.flatten with
      | nil => exact absurd hx hne
      | cons y ys => exact ⟨y, ys, rfl⟩
    rw [hbr]
    show (y :: ys).take 16 :: chunkF 16 f ((y :: ys).drop 16) = b :: rest
    rw [← hbr,
      show List.take 16 (b ++ rest.flatten) = b by rw [← hbl]; exact List.take_left b _,
      show List.drop 16 (b ++ rest.flatten) = rest.flatten by
        rw [← hbl]; exact List.drop_left b _,
      ih (fun x hx => h x (by simp [hx])) f
        (by rw [List.length_append, hbl] at hfuel; omega)]

/-! ### Fernet tokens

`Fernet(key).encrypt` / `Fernet(key).decrypt` from the `cryptography`
package, per the public Fernet specification: the 32-byte key is a 16-byte
signing half and a 16-byte encryption half; a token is
`base64url(0x80 || timestamp_8be || iv_16 || AES128-CBC(PKCS7(msg)) || HMAC-SHA256)`. -/

/-- Build a Fernet token from the 32 key bytes, a 16-byte IV, a timestamp
and the message bytes (the IV and timestamp are inputs here; the library
draws them from `os.urandom` and the clock). -/
def fernetEncrypt (key32 iv : List Nat) (ts : Nat) (msg : List Nat) : List Nat :=
  b64Encode ((128 :: (beBytes 8 ts ++ iv ++
      (cbcEncBlocks (key32.drop 16) iv (chunk 16 (pkcs7Pad msg))).flatten)) ++
    hmacSha256 (key32.take 16)
      (128 :: (beBytes 8 ts ++ iv ++
        (cbcEncBlocks (key32.drop 16) iv (chunk 16 (pkcs7Pad msg))).flatten)))

/-- Validate and decrypt the base64-decoded token payload: version byte,
HMAC, block alignment, CBC decryption and PKCS7 unpadding. -/
def fernetDecryptData (key32 data : List Nat) : Option (List Nat) :=
  if data.length < 57 then none
  else if data.getD 0 0 ≠ 128 then none
  else if data.drop (data.length - 32) ≠
      hmacSha256 (key32.take 16) (data.take (data.length - 32)) then none
  else if ((data.drop 25).take (data.length - 57)).length % 16 ≠ 0 then none
  else
    pkcs7Unpad ((cbcDecBlocks (key32.drop 16) ((data.drop 9).take 16)
      (chunk 16 ((data.drop 25).take (data.length - 57)))).flatten)

/-- Decrypt a Fernet token (`None` models a raised `InvalidToken`). -/
def fernetDecrypt (key32 tok : List Nat) : Option (List Nat) :=
  (b64Decode tok).bind (fernetDecryptData key32)

theorem cbcEncBlocks_count (key : List Nat) :
    ∀ bs prev, (cbcEncBlocks key prev bs).length = bs.length := by
  intro bs
  induction bs with
  | nil => intro prev; rfl
  | cons b rest ih =>
    intro prev
    show (aesEncryptBlock key (addRk b prev) :: _).length = _
    simp only [List.length_cons, ih]

/-- Fernet round trip: decrypting an encrypted token recovers the message. -/
theorem fernetDecrypt_encrypt (key32 iv : List Nat) (ts : Nat) (msg : List Nat)
    (hkl : key32.length = 32) (hkb : Bytes key32)
    (hivl : iv.length = 16) (hivb : Bytes iv) (hmb : Bytes msg) :
    fernetDecrypt key32 (fernetEncrypt key32 iv ts msg) = some msg := by
  have hekl : (key32.drop 16).length = 16 := by simp [List.length_drop, hkl]
  have hekb : Bytes (key32.drop 16) := bytes_drop 16 hkb
  have hpadb : Bytes (pkcs7Pad msg) := pkcs7Pad_bytes msg hmb
  have hpadm : (pkcs7Pad msg).length % 16 = 0 := pkcs7Pad_mod msg
  have hpadpos : 0 < (pkcs7Pad msg).length := by
    rw [pkcs7Pad_length]
    omega
  have hblocks : ∀ b ∈ chunk 16 (pkcs7Pad msg), b.length = 16 ∧ Bytes b := by
    intro b hb
    exact ⟨chunk_length_mem 16 (by omega) _ b (Nat.dvd_of_mod_eq_zero hpadm) hb,
      chunk_mem_bytes 16 _ b hpadb hb⟩
  have hcgood : ∀ c ∈ cbcEncBlocks (key32.drop 16) iv (chunk 16 (pkcs7Pad msg)),
      c.length = 16 ∧ Bytes c :=
    cbcEncBlocks_good _ hekb hekl _ iv hivl hivb hblocks
  set cblocks := cbcEncBlocks (key32.drop 16) iv (chunk 16 (pkcs7Pad msg)) with hcb
  set ct := cblocks.flatten with hct
  have hctb : Bytes ct := flatten_bytes _ (fun b hb => (hcgood b hb).2)
  have hctlen : ct.length = (pkcs7Pad msg).length := by
    rw [hct, flatten_length_16 _ (fun b hb => (hcgood b hb).1), hcb,
      cbcEncBlocks_count, ← flatten_length_16 _ (fun b hb => (hblocks b hb).1),
      chunk_flatten 16 (by omega)]
  have hctm : ct.length % 16 = 0 := by rw [hctlen]; exact hpadm
  have hctpos : 0 < ct.length := by rw [hctlen]; exact hpadpos
  set basic := 128 :: (beBytes 8 ts ++ iv ++ ct) with hbasic
  have hbasicb : Bytes basic := by
    rw [hbasic]
    intro x hx
    rcases List.mem_cons.mp hx with rfl | hx
    · omega
    · rcases List.mem_append.mp hx with hx | hx
      · rcases List.mem_append.mp hx with hx | hx
        · exact beBytes_bytes 8 ts x hx
        · exact hivb x hx
      · exact hctb x hx
  set tag := hmacSha256 (key32.take 16) basic with htag
  have htagl : tag.length = 32 := hmacSha256_length _ _
  have htagb : Bytes tag := hmacSha256_bytes _ _
  have hbasicl : basic.length = 25 + ct.length := by
    rw [hbasic]
    simp only [List.length_cons, List.length_append, beBytes_length, hivl]
    omega
  have hfullb : Bytes (basic ++ tag) := bytes_append hbasicb htagb
  have hfulll : (basic ++ tag).length = 57 + ct.length := by
    rw [List.length_append, hbasicl, htagl]
    omega
  show (b64Decode (b64Encode (basic ++ tag))).bind (fernetDecryptData key32) = some msg
  rw [b64Decode_encode _ hfullb]
  simp only [Option.some_bind]
  unfold fernetDecryptData
  rw [if_neg (by rw [hfulll]; omega)]
  rw [if_neg (by
    rw [hbasic, List.cons_append]
    simp)]
  have htake : (basic ++ tag).take ((basic ++ tag).length - 32) = basic := by
    rw [hfulll, show 57 + ct.length - 32 = basic.length by rw [hbasicl]; omega,
      List.take_left]
  have hdrop : (basic ++ tag).drop ((basic ++ tag).length - 32) = tag := by
    rw [hfulll, show 57 + ct.length - 32 = basic.length by rw [hbasicl]; omega,
      List.drop_left]
  rw [if_neg (by
    rw [htake, hdrop, htag]
    intro hcon
    exact hcon rfl)]
  have hassoc25 : basic ++ tag = ((128 :: beBytes 8 ts) ++ iv) ++ (ct ++ tag) := by
    rw [hbasic]
    simp [List.append_assoc]
  have hctrec : ((basic ++ tag).drop 25).take ((basic ++ tag).length - 57) = ct := by
    rw [hfulll, hassoc25,
      show (25 : Nat) = ((128 :: beBytes 8 ts) ++ iv).length by
        simp [List.length_append, beBytes_length, hivl],
      List.drop_left, show 57 + ct.length - 57 = ct.length by omega, List.take_left]
  have hivrec : ((basic ++ tag).drop 9).take 16 = iv := by
    have hassoc9 : basic ++ tag = (128 :: beBytes 8 ts) ++ (iv ++ (ct ++ tag)) := by
      rw [hbasic]
      simp [List.append_assoc]
    rw [hassoc9, show (9 : Nat) = (128 :: beBytes 8 ts).length by
        simp [beBytes_length],
      List.drop_left, show (16 : Nat) = iv.length from hivl.symm, List.take_left]
  rw [if_neg (by rw [hctrec]; omega)]
  rw [hctrec, hivrec, hct, chunk_flatten_exact _ (fun b hb => (hcgood b hb).1), hcb,
    cbcDec_cbcEnc _ hekb hekl _ iv hivl hivb hblocks,
    chunk_flatten 16 (by omega), pkcs7Unpad_pad]

/-! ### EncryptionService (app/utils/encryption.py)

`EncryptionService` composes the Fernet cipher with audit logging.  The
environment value of `ENCRYPTION_KEY` is a text value (list of scalar
values); the audit database is a list of records; a failing
`db.add`/`db.commit` in the audit helper is modelled by the `auditWriteOk`
flag (on failure the transaction is rolled back, leaving the table
unchanged).  The random IV and the two clock reads of a call are inputs. -/

structure AuditRecord where
  user_id : Option Nat
  patient_id : Option String
  operation : String
  field_name : String
  key_version : String
  success : Bool
  error_message : Option String
  ip_address : Option String
  user_agent : Option String
  timestamp : Nat
deriving DecidableEq

structure EncryptionService where
  current_key_version : String
  cipher : Option (List Nat)
deriving DecidableEq

/-- `EncryptionService.__init__`. -/
def newEncryptionService : EncryptionService :=
  { current_key_version := "v1.0", cipher := none }

/-- `EncryptionService._load_active_key` (an empty or missing
`ENCRYPTION_KEY` is falsy and raises). -/
def load_active_key (env : Option (List Nat)) : Except String (List Nat) :=
  match env with
  | none => .error "Missing ENCRYPTION_KEY in environment"
  | some [] => .error "Missing ENCRYPTION_KEY in environment"
  | some k => .ok k

/-- `EncryptionService._get_cipher`: on first use, load the key, keep its
first 32 encoded bytes and cache the cipher; `Fernet(...)` raises unless
exactly 32 key bytes remain. -/
def get_cipher (env : Option (List Nat)) (svc : EncryptionService) :
    Except String (List Nat) × EncryptionService :=
  match svc.cipher with
  | some c => (.ok c, svc)
  | none =>
    match load_active_key env with
    | .error e => (.error e, svc)
    | .ok key =>
      if ((utf8Encode key).take 32).length = 32 then
        (.ok ((utf8Encode key).take 32),
          { svc with cipher := some ((utf8Encode key).take 32) })
      else (.error "Fernet key must be 32 url-safe base64-encoded bytes", svc)

/-- `EncryptionService._log_encryption_operation`: append one audit record;
when the write fails the exception is swallowed and the transaction rolled
back, so the table is unchanged and the caller never sees an error. -/
def log_encryption_operation (svc : EncryptionService) (db : List AuditRecord)
    (operation field_name : String) (success : Bool) (patient_id : Option String)
    (user_id : Option Nat) (error_message : Option String)
    (ip_address user_agent : Option String) (now : Nat) (auditWriteOk : Bool) :
    List AuditRecord :=
  if auditWriteOk then
    db ++ [⟨user_id, patient_id, operation, field_name, svc.current_key_version,
      success, error_message, ip_address, user_agent, now⟩]
  else db

/-- `EncryptionService.encrypt_field`.  Returns the result (token bytes or
the raised message), the service (the cipher may now be cached) and the
audit table when a session was passed. -/
def encrypt_field (env : Option (List Nat)) (svc : EncryptionService)
    (value : List Nat) (field_name : String) (db : Option (List AuditRecord))
    (patient_id : Option String) (user_id : Option Nat)
    (ip_address user_agent : Option String) (iv : List Nat) (ts now : Nat)
    (auditWriteOk : Bool) :
    Except String (List Nat) × EncryptionService × Option (List AuditRecord) :=
  match (get_cipher env svc).1 with
  | .ok kb =>
    (.ok (fernetEncrypt kb iv ts (utf8Encode value)), (get_cipher env svc).2,
      db.map (fun t => log_encryption_operation (get_cipher env svc).2 t "encrypt"
        field_name true patient_id user_id none ip_address user_agent now auditWriteOk))
  | .error e =>
    (.error ("Encryption failed: " ++ e), (get_cipher env svc).2,
      db.map (fun t => log_encryption_operation (get_cipher env svc).2 t "encrypt"
        field_name false patient_id user_id (some ("Encryption failed: " ++ e))
        ip_address user_agent now auditWriteOk))

/-- `EncryptionService.decrypt_field`. -/
def decrypt_field (env : Option (List Nat)) (svc : EncryptionService)
    (encrypted_value : List Nat) (field_name : String)
    (db : Option (List AuditRecord)) (patient_id : Option String)
    (user_id : Option Nat) (ip_address user_agent : Option String) (now : Nat)
    (auditWriteOk : Bool) :
    Except String (List Nat) × EncryptionService × Option (List AuditRecord) :=
  match (get_cipher env svc).1 with
  | .ok kb =>
    match fernetDecrypt kb encrypted_value with
    | some pt =>
      match utf8Decode pt with
      | some text =>
        (.ok text, (get_cipher env svc).2,
          db.map (fun t => log_encryption_operation (get_cipher env svc).2 t "decrypt"
            field_name true patient_id user_id none ip_address user_agent now auditWriteOk))
      | none =>
        (.error "Decryption failed: invalid utf-8", (get_cipher env svc).2,
          db.map (fun t => log_encryption_operation (get_cipher env svc).2 t "decrypt"
            field_name false patient_id user_id (some "Decryption failed: invalid utf-8")
            ip_address user_agent now auditWriteOk))
    | none =>
      (.error "Decryption failed: InvalidToken", (get_cipher env svc).2,
        db.map (fun t => log_encryption_operation (get_cipher env svc).2 t "decrypt"
          field_name false patient_id user_id (some "Decryption failed: InvalidToken")
          ip_address user_agent now auditWriteOk))
  | .error e =>
    (.error ("Decryption failed: " ++ e), (get_cipher env svc).2,
      db.map (fun t => log_encryption_operation (get_cipher env svc).2 t "decrypt"
        field_name false patient_id user_id (some ("Decryption failed: " ++ e))
        ip_address user_agent now auditWriteOk))

/-- The fields `bulk_encrypt_patient_data` processes, in order. -/
def fields_to_encrypt : List String :=
  ["first_name", "last_name", "date_of_birth", "gender"]

/-- The mapping `bulk_decrypt_patient_data` processes, in order. -/
def field_mappings : List (String × String) :=
  [("first_name_encrypted", "first_name"), ("last_name_encrypted", "last_name"),
   ("date_of_birth_encrypted", "date_of_birth"), ("gender_encrypted", "gender")]

/-- Python `dict` lookup over an insertion-ordered association list. -/
def dictGet {α : Type} (k : String) (d : List (String × α)) : Option α :=
  (d.find? (fun p => p.1 == k)).map (·.2)

/-- The loop of `bulk_encrypt_patient_data`: a raised exception aborts the
remaining fields and discards the partial dictionary. -/
def bulkEncryptGo (env : Option (List Nat)) (svc : EncryptionService)
    (fields : List String) (patient_data : List (String × List Nat))
    (db : Option (List AuditRecord)) (patient_id : Option String)
    (user_id : Option Nat) (ip_address user_agent : Option String)
    (iv : List Nat) (ts now : Nat) (auditWriteOk : Bool)
    (acc : List (String × List Nat)) :
    Except String (List (String × List Nat)) × EncryptionService ×
      Option (List AuditRecord) :=
  match fields with
  | [] => (.ok acc, svc, db)
  | f :: rest =>
    match dictGet f patient_data with
    | none => bulkEncryptGo env svc rest patient_data db patient_id user_id
        ip_address user_agent iv ts now auditWriteOk acc
    | some v =>
      match encrypt_field env svc v f db patient_id user_id ip_address user_agent
          iv ts now auditWriteOk with
      | (.ok tok, svc1, db1) =>
        bulkEncryptGo env svc1 rest patient_data db1 patient_id user_id
          ip_address user_agent iv ts now auditWriteOk (acc ++ [(f ++ "_encrypted", tok)])
      | (.error e, svc1, db1) => (.error e, svc1, db1)

/-- `EncryptionService.bulk_encrypt_patient_data`. -/
def bulk_encrypt_patient_data (env : Option (List Nat)) (svc : EncryptionService)
    (patient_data : List (String × List Nat)) (db : Option (List AuditRecord))
    (patient_id : Option String) (user_id : Option Nat)
    (ip_address user_agent : Option String) (iv : List Nat) (ts now : Nat)
    (auditWriteOk : Bool) :
    Except String (List (String × List Nat)) × EncryptionService ×
      Option (List AuditRecord) :=
  bulkEncryptGo env svc fields_to_encrypt patient_data db patient_id user_id
    ip_address user_agent iv ts now auditWriteOk []

/-- The loop of `bulk_decrypt_patient_data`. -/
def bulkDecryptGo (env : Option (List Nat)) (svc : EncryptionService)
    (mappings : List (String × String))
    (encrypted_patient_data : List (String × List Nat))
    (db : Option (List AuditRecord)) (patient_id : Option String)
    (user_id : Option Nat) (ip_address user_agent : Option String) (now : Nat)
    (auditWriteOk : Bool) (acc : List (String × List Nat)) :
    Except String (List (String × List Nat)) × EncryptionService ×
      Option (List AuditRecord) :=
  match mappings with
  | [] => (.ok acc, svc, db)
  | (encf, plainf) :: rest =>
    match dictGet encf encrypted_patient_data with
    | none => bulkDecryptGo env svc rest encrypted_patient_data db patient_id
        user_id ip_address user_agent now auditWriteOk acc
    | some v =>
      match decrypt_field env svc v plainf db patient_id user_id ip_address
          user_agent now auditWriteOk with
      | (.ok text, svc1, db1) =>
        bulkDecryptGo env svc1 rest encrypted_patient_data db1 patient_id user_id
          ip_address user_agent now auditWriteOk (acc ++ [(plainf, text)])
      | (.error e, svc1, db1) => (.error e, svc1, db1)

/-- `EncryptionService.bulk_decrypt_patient_data`. -/
def bulk_decrypt_patient_data (env : Option (List Nat)) (svc : EncryptionService)
    (encrypted_patient_data : List (String × List Nat))
    (db : Option (List AuditRecord)) (patient_id : Option String)
    (user_id : Option Nat) (ip_address user_agent : Option String) (now : Nat)
    (auditWriteOk : Bool) :
    Except String (List (String × List Nat)) × EncryptionService ×
      Option (List AuditRecord) :=
  bulkDecryptGo env svc field_mappings encrypted_patient_data db patient_id
    user_id ip_address user_agent now auditWriteOk []

/-! ### Key rotation (app/api/encryption.py, rotate_encryption_key)

The key table is a list of rows in insertion order.  The endpoint runs
three separate commits; `failAt = some n` makes the n-th commit raise (the
session is rolled back, discarding only uncommitted changes).  `states`
collects every committed table state the rotation makes visible, in
order. -/

structure EncryptionKey where
  key_version : String
  key_hash : List Nat
  algorithm : String
  is_active : Bool
  created_at : Nat
  rotated_at : Option Nat
deriving DecidableEq

structure KeyRotationResponse where
  success : Bool
  old_key_version : String
  new_key_version : String
  rotated_at : Nat
  affected_records : Nat
deriving DecidableEq

/-- Modify the first row satisfying a predicate, in place (a mutation of
the one fetched ORM row object). -/
def modifyFirst {α : Type} (p : α → Bool) (f : α → α) : List α → List α
  | [] => []
  | x :: xs => if p x then f x :: xs else x :: modifyFirst p f xs

structure RotationRun where
  result : Except (Nat × String) KeyRotationResponse
  states : List (List EncryptionKey)
  final : List EncryptionKey

/-- `rotate_encryption_key`: fetch the active key row, check the new
version for a conflict, insert the new key deactivated (commit 1), count
affected patients, deactivate the old key row (commit 2), activate the new
key row (commit 3); errors become HTTP 400/500 responses and roll back
only uncommitted changes.  `new_key_material` is the generated secret and
`patient_count` the affected-records query result; `failAt = some n` makes
the n-th commit raise. -/
def rotate_encryption_key (db : List EncryptionKey) (new_key_version algorithm : String)
    (new_key_material : List Nat) (now : Nat) (patient_count : Nat)
    (failAt : Option Nat) : RotationRun :=
  match db.find? (fun k => k.is_active) with
  | none => ⟨.error (400, "No active key found"), [], db⟩
  | some old_key =>
    if db.any (fun k => k.key_version == new_key_version) then
      ⟨.error (400, "Key version " ++ new_key_version ++ " already exists"), [], db⟩
    else if failAt = some 1 then
      ⟨.error (500, "Key rotation failed: commit"), [], db⟩
    else
      let db1 := db ++ [⟨new_key_version, sha256 new_key_material, algorithm, false, now, none⟩]
      if failAt = some 2 then
        ⟨.error (500, "Key rotation failed: commit"), [db1], db1⟩
      else
        let db2 := modifyFirst (fun k => k.is_active)
          (fun k => { k with is_active := false, rotated_at := some now }) db1
        if failAt = some 3 then
          ⟨.error (500, "Key rotation failed: commit"), [db1, db2], db2⟩
        else
          let db3 := modifyFirst (fun k => k.key_version == new_key_version)
            (fun k => { k with is_active := true }) db2
          ⟨.ok ⟨true, old_key.key_version, new_key_version, now, patient_count⟩,
            [db1, db2, db3], db3⟩

/-- Number of rows with `is_active = true`. -/
def activeCount (db : List EncryptionKey) : Nat :=
  (db.filter (fun k => k.is_active)).length

/-- `db.query(EncryptionKey).filter(is_active == True).first()`. -/
def getActiveKey (db : List EncryptionKey) : Option EncryptionKey :=
  db.find? (fun k => k.is_active)

/-! ### The service world (for the cipher-staleness invariant)

One process state: the environment, the module-level `encryption_service`
singleton, the key table and the audit table.  `bgKeyTask` is the
background task `update_encryption_key_environment`, which only prints and
sleeps — it changes nothing. -/

structure World where
  env : Option (List Nat)
  svc : EncryptionService
  keys : List EncryptionKey
  audit : List AuditRecord

inductive ServiceOp where
  | encryptOp (value : List Nat) (field : String) (withDb : Bool)
      (patient_id : Option String) (user_id : Option Nat)
      (ip_address user_agent : Option String) (iv : List Nat) (ts now : Nat)
      (auditWriteOk : Bool)
  | decryptOp (token : List Nat) (field : String) (withDb : Bool)
      (patient_id : Option String) (user_id : Option Nat)
      (ip_address user_agent : Option String) (now : Nat) (auditWriteOk : Bool)
  | rotateOp (new_key_version algorithm : String) (material : List Nat)
      (now patient_count : Nat) (failAt : Option Nat)
  | bgKeyTask (material : List Nat)

def stepWorld (w : World) (op : ServiceOp) : World :=
  match op with
  | .encryptOp v f withDb pid uid ip ua iv ts now aok =>
    let r := encrypt_field w.env w.svc v f (if withDb then some w.audit else none)
      pid uid ip ua iv ts now aok
    { w with svc := r.2.1, audit := (r.2.2).getD w.audit }
  | .decryptOp t f withDb pid uid ip ua now aok =>
    let r := decrypt_field w.env w.svc t f (if withDb then some w.audit else none)
      pid uid ip ua now aok
    { w with svc := r.2.1, audit := (r.2.2).getD w.audit }
  | .rotateOp nv algo mat now pc failAt =>
    { w with keys := (rotate_encryption_key w.keys nv algo mat now pc failAt).final }
  | .bgKeyTask _ => w

def runWorld (w : World) (ops : List ServiceOp) : World := ops.foldl stepWorld w

/-! ### ConnectionManager (app/core/websocket_manager.py)

Socket handles are `Nat`; text values (roles, room names, connection ids)
are codepoint lists so that room-name construction (`f"user_{user_id}"`,
`user_role.lower()` — ASCII lowering, which covers the role names used)
stays computable.  Python dicts are insertion-ordered association lists; a
Python `set` of sockets is a duplicate-free list (`add` appends when
absent, `discard` erases).  `send_personal_message` on a socket whose
transport is closed disconnects it instead of sending, which is why
`connect` takes the transport state `wsOpen`. -/

structure ConnMeta where
  user_id : Nat
  user_role : List Nat
  connection_id : List Nat
  connected_at : Nat
  last_ping : Nat
deriving DecidableEq

/-- Association-list lookup (Python `d[k]` / `k in d`). -/
def alGet {κ ν : Type} [BEq κ] (k : κ) (m : List (κ × ν)) : Option ν :=
  (m.find? (fun p => p.1 == k)).map (·.2)

/-- Association-list assignment (`d[k] = v`): replace in place, else append. -/
def alSet {κ ν : Type} [BEq κ] (k : κ) (v : ν) : List (κ × ν) → List (κ × ν)
  | [] => [(k, v)]
  | (k2, v2) :: rest =>
    if k2 == k then (k, v) :: rest else (k2, v2) :: alSet k v rest

/-- Association-list deletion (`del d[k]`). -/
def alErase {κ ν : Type} [BEq κ] (k : κ) : List (κ × ν) → List (κ × ν)
  | [] => []
  | (k2, v2) :: rest => if k2 == k then rest else (k2, v2) :: alErase k rest

/-- `set.add`. -/
def setAdd (x : Nat) (s : List Nat) : List Nat := if x ∈ s then s else s ++ [x]

/-- Decimal digits of a number, as codepoints (fuel-indexed helper). -/
def natToTextF : Nat → Nat → List Nat
  | 0, _ => []
  | f + 1, n => if n < 10 then [48 + n] else natToTextF f (n / 10) ++ [48 + n % 10]

/-- `str(n)` for a natural number. -/
def natToText (n : Nat) : List Nat := natToTextF (n + 1) n

/-- ASCII `str.lower()`. -/
def lowerAscii (s : List Nat) : List Nat :=
  s.map (fun c => if 65 ≤ c ∧ c ≤ 90 then c + 32 else c)

/-- The room name `user_{user_id}`. -/
def userRoom (user_id : Nat) : List Nat := [117, 115, 101, 114, 95] ++ natToText user_id

/-- The room name `role_{user_role.lower()}`. -/
def roleRoom (user_role : List Nat) : List Nat := [114, 111, 108, 101, 95] ++ lowerAscii user_role

structure ConnectionManager where
  active_connections : List (Nat × List Nat)
  connection_metadata : List (Nat × ConnMeta)
  rooms : List (List Nat × List Nat)
  connection_ids : List (List Nat × Nat)
deriving DecidableEq

def newConnectionManager : ConnectionManager := ⟨[], [], [], []⟩

/-- `ConnectionManager.join_room`. -/
def join_room (m : ConnectionManager) (ws : Nat) (room : List Nat) : ConnectionManager :=
  match alGet room m.rooms with
  | none => { m with rooms := alSet room [ws] m.rooms }
  | some s => { m with rooms := alSet room (setAdd ws s) m.rooms }

/-- `ConnectionManager.leave_room`: discard the socket and prune the room
when it becomes empty. -/
def leave_room (m : ConnectionManager) (ws : Nat) (room : List Nat) : ConnectionManager :=
  match alGet room m.rooms with
  | none => m
  | some s =>
    if s.erase ws = [] then { m with rooms := alErase room m.rooms }
    else { m with rooms := alSet room (s.erase ws) m.rooms }

/-- `ConnectionManager.disconnect`: remove the socket from the user index
(dropping the user entry when its list empties), discard it from every room
(without pruning rooms that become empty), and drop its metadata and
connection id.  A socket with no metadata entry is a no-op. -/
def disconnect (m : ConnectionManager) (ws : Nat) : ConnectionManager :=
  match alGet ws m.connection_metadata with
  | none => m
  | some meta =>
    let m1 := match alGet meta.user_id m.active_connections with
      | none => m
      | some conns =>
        if conns.erase ws = [] then
          { m with active_connections := alErase meta.user_id m.active_connections }
        else
          { m with
            active_connections := alSet meta.user_id (conns.erase ws) m.active_connections }
    let m2 := { m1 with
      rooms := m1.rooms.map (fun (p : List Nat × List Nat) => (p.1, p.2.erase ws)) }
    let m3 := { m2 with connection_metadata := alErase ws m2.connection_metadata }
    if (alGet meta.connection_id m3.connection_ids).isSome then
      { m3 with connection_ids := alErase meta.connection_id m3.connection_ids }
    else m3

/-- `ConnectionManager.connect` (the endpoint passes a fresh
`connection_id` when none is supplied).  After registering, the
acknowledgment send disconnects the socket when its transport is already
closed. -/
def connect (m : ConnectionManager) (ws : Nat) (user_id : Nat) (user_role : List Nat)
    (connection_id : List Nat) (now : Nat) (wsOpen : Bool) : ConnectionManager :=
  let cur := (alGet user_id m.active_connections).getD []
  let m1 := { m with active_connections := alSet user_id (cur ++ [ws]) m.active_connections }
  let m2 := { m1 with connection_ids := alSet connection_id ws m1.connection_ids }
  let m3 := { m2 with
    connection_metadata := alSet ws ⟨user_id, user_role, connection_id, now, now⟩ m2.connection_metadata }
  let m4 := join_room m3 ws (userRoom user_id)
  let m5 := join_room m4 ws (roleRoom user_role)
  if wsOpen then m5 else disconnect m5 ws

/-- `ConnectionManager.is_user_connected`. -/
def is_user_connected (m : ConnectionManager) (user_id : Nat) : Bool :=
  match alGet user_id m.active_connections with
  | some conns => decide (0 < conns.length)
  | none => false

/-- The members of a room (empty when the room is absent). -/
def roomMembers (m : ConnectionManager) (room : List Nat) : List Nat :=
  (alGet room m.rooms).getD []

/-- No room in the registry is empty. -/
def NoEmptyRooms (m : ConnectionManager) : Prop :=
  ∀ p ∈ m.rooms, p.2 ≠ []

/-! ### Rotation lemmas -/

theorem activeCount_append (l1 l2 : List EncryptionKey) :
    activeCount (l1 ++ l2) = activeCount l1 + activeCount l2 := by
  simp [activeCount, List.filter_append]

theorem activeCount_cons (k : EncryptionKey) (l : List EncryptionKey) :
    activeCount (k :: l) = (if k.is_active then 1 else 0) + activeCount l := by
  simp only [activeCount, List.filter_cons]
  split
  · simp
    omega
  · simp

theorem activeCount_eq_zero {l : List EncryptionKey} (h : activeCount l = 0) :
    ∀ k ∈ l, k.is_active = false := by
  intro k hk
  have := List.filter_eq_nil_iff.mp (List.length_eq_zero.mp h) k hk
  simp at this
  exact this

theorem modifyFirst_append_left {α : Type} (p : α → Bool) (f : α → α)
    (l1 l2 : List α) (h : (l1.find? p).isSome = true) :
    modifyFirst p f (l1 ++ l2) = modifyFirst p f l1 ++ l2 := by
  induction l1 with
  | nil => simp [List.find?] at h
  | cons x xs ih =>
    by_cases hx : p x
    · simp [modifyFirst, hx]
    · rw [List.find?_cons_of_neg _ hx] at h
      simp only [List.cons_append, modifyFirst, if_neg hx, List.cons.injEq, true_and]
      exact ih h

theorem modifyFirst_append_right {α : Type} (p : α → Bool) (f : α → α)
    (l1 l2 : List α) (h : ∀ x ∈ l1, p x = false) :
    modifyFirst p f (l1 ++ l2) = l1 ++ modifyFirst p f l2 := by
  induction l1 with
  | nil => rfl
  | cons x xs ih =>
    simp only [List.cons_append, modifyFirst, h x (by simp), Bool.false_eq_true,
      if_false, List.cons.injEq, true_and]
    exact ih (fun y hy => h y (by simp [hy]))

theorem modifyFirst_singleton_pos {α : Type} (p : α → Bool) (f : α → α) (a : α)
    (h : p a = true) : modifyFirst p f [a] = [f a] := by
  simp [modifyFirst, h]

/-- Decompose a list at the first row matching a predicate. -/
theorem find?_decomp {α : Type} (p : α → Bool) (l : List α) (a : α)
    (h : l.find? p = some a) :
    ∃ l1 l2, l = l1 ++ a :: l2 ∧ (∀ x ∈ l1, p x = false) := by
  induction l with
  | nil => simp [List.find?] at h
  | cons x xs ih =>
    by_cases hx : p x
    · rw [List.find?_cons_of_pos _ hx] at h
      injection h with h
      exact ⟨[], xs, by rw [h]; simp, by simp⟩
    · rw [List.find?_cons_of_neg _ hx] at h
      rcases ih h with ⟨l1, l2, rfl, hl1⟩
      refine ⟨x :: l1, l2, rfl, ?_⟩
      intro y hy
      rcases List.mem_cons.mp hy with rfl | hy
      · simpa using hx
      · exact hl1 y hy

theorem modifyFirst_decomp {α : Type} (p : α → Bool) (f : α → α)
    {l1 l2 : List α} {a : α} (hl1 : ∀ x ∈ l1, p x = false) (ha : p a = true) :
    modifyFirst p f (l1 ++ a :: l2) = l1 ++ f a :: l2 := by
  rw [modifyFirst_append_right p f l1 _ hl1]
  simp [modifyFirst, ha]

/-- Deactivating the unique active row leaves no active rows. -/
theorem activeCount_deact {l1 l2 : List EncryptionKey} {a : EncryptionKey}
    (hone : activeCount (l1 ++ a :: l2) = 1) (hl1 : ∀ x ∈ l1, x.is_active = false)
    (ha : a.is_active = true) (now : Nat) :
    activeCount (l1 ++ { a with is_active := false, rotated_at := some now } :: l2) = 0 := by
  rw [activeCount_append, activeCount_cons] at hone ⊢
  have hcl1 : activeCount l1 = 0 := by
    have hfil : List.filter (fun k => k.is_active) l1 = [] := by
      rw [List.filter_eq_nil_iff]
      intro x hx
      simp [hl1 x hx]
    simp [activeCount, hfil]
  rw [hcl1, ha] at hone
  rw [hcl1]
  simp only [show ({ a with is_active := false, rotated_at := some now } :
    EncryptionKey).is_active = false from rfl]
  simp only [Bool.false_eq_true, if_false, if_true] at hone ⊢
  omega

/-- The deactivation update applied to the old key row. -/
def rotDeact (now : Nat) (k : EncryptionKey) : EncryptionKey :=
  { k with is_active := false, rotated_at := some now }

/-- The activation update applied to the new key row. -/
def rotAct (k : EncryptionKey) : EncryptionKey := { k with is_active := true }

/-- The row inserted for the new key version (inactive until commit 3). -/
def newKeyRec (nv algo : String) (mat : List Nat) (now : Nat) : EncryptionKey :=
  ⟨nv, sha256 mat, algo, false, now, none⟩

theorem rotate_success (db : List EncryptionKey) (nv algo : String) (mat : List Nat)
    (now pc : Nat) (old_key : EncryptionKey)
    (hfind : db.find? (fun k => k.is_active) = some old_key)
    (hfresh : db.any (fun k => k.key_version == nv) = false) :
    rotate_encryption_key db nv algo mat now pc none =
      ⟨.ok ⟨true, old_key.key_version, nv, now, pc⟩,
        [db ++ [newKeyRec nv algo mat now],
         modifyFirst (fun k => k.is_active) (rotDeact now) (db ++ [newKeyRec nv algo mat now]),
         modifyFirst (fun k => k.key_version == nv) rotAct
           (modifyFirst (fun k => k.is_active) (rotDeact now) (db ++ [newKeyRec nv algo mat now]))],
        modifyFirst (fun k => k.key_version == nv) rotAct
          (modifyFirst (fun k => k.is_active) (rotDeact now) (db ++ [newKeyRec nv algo mat now]))⟩ := by
  unfold rotate_encryption_key
  rw [hfind, hfresh]
  rfl

/-- The three committed rotation states on the success path, the active-row
decomposition of the input, and their active counts. -/
theorem rotation_shapes (db : List EncryptionKey) (nv algo : String) (mat : List Nat)
    (now : Nat) (old_key : EncryptionKey)
    (hfind : db.find? (fun k => k.is_active) = some old_key)
    (hone : activeCount db = 1)
    (hfresh : ∀ k ∈ db, ¬ k.key_version = nv) :
    ∃ l1 l2, db = l1 ++ old_key :: l2 ∧ (∀ x ∈ l1, x.is_active = false) ∧
      old_key.is_active = true ∧
      activeCount (db ++ [newKeyRec nv algo mat now]) = 1 ∧
      modifyFirst (fun k => k.is_active) (rotDeact now) (db ++ [newKeyRec nv algo mat now]) =
        (l1 ++ rotDeact now old_key :: l2) ++ [newKeyRec nv algo mat now] ∧
      activeCount ((l1 ++ rotDeact now old_key :: l2) ++ [newKeyRec nv algo mat now]) = 0 ∧
      modifyFirst (fun k => k.key_version == nv) rotAct
          ((l1 ++ rotDeact now old_key :: l2) ++ [newKeyRec nv algo mat now]) =
        (l1 ++ rotDeact now old_key :: l2) ++ [rotAct (newKeyRec nv algo mat now)] ∧
      activeCount ((l1 ++ rotDeact now old_key :: l2) ++ [rotAct (newKeyRec nv algo mat now)]) = 1 := by
  obtain ⟨l1, l2, hdb, hl1⟩ := find?_decomp _ _ _ hfind
  have hact : old_key.is_active = true := List.find?_some hfind
  have hl1f : ∀ x ∈ l1, x.is_active = false := by
    intro x hx
    have := hl1 x hx
    simpa using this
  refine ⟨l1, l2, hdb, hl1f, hact, ?_, ?_, ?_, ?_, ?_⟩
  · rw [activeCount_append, hone]
    rfl
  · rw [hdb, List.append_assoc, List.cons_append,
      modifyFirst_decomp (fun k => k.is_active) (rotDeact now) hl1 hact]
    rw [List.append_assoc, List.cons_append]
  · have hone2 : activeCount (l1 ++ old_key :: (l2 ++ [newKeyRec nv algo mat now])) = 1 := by
      have : l1 ++ old_key :: (l2 ++ [newKeyRec nv algo mat now]) =
          db ++ [newKeyRec nv algo mat now] := by
        rw [hdb, List.append_assoc, List.cons_append]
      rw [this, activeCount_append, hone]
      rfl
    have := activeCount_deact hone2 hl1f hact now
    have hshape : l1 ++ rotDeact now old_key :: (l2 ++ [newKeyRec nv algo mat now]) =
        (l1 ++ rotDeact now old_key :: l2) ++ [newKeyRec nv algo mat now] := by
      rw [List.append_assoc, List.cons_append]
    rw [← hshape]
    exact this
  · have hleft : ∀ x ∈ l1 ++ rotDeact now old_key :: l2, (x.key_version == nv) = false := by
      intro x hx
      have hmem : x.key_version = (rotDeact now old_key).key_version ∨
          ∃ y ∈ db, x.key_version = y.key_version := by
        rcases List.mem_append.mp hx with hx | hx
        · exact Or.inr ⟨x, by rw [hdb]; exact List.mem_append.mpr (Or.inl hx), rfl⟩
        · rcases List.mem_cons.mp hx with rfl | hx
          · exact Or.inl rfl
          · exact Or.inr ⟨x, by
              rw [hdb]
              exact List.mem_append.mpr (Or.inr (List.mem_cons.mpr (Or.inr hx))), rfl⟩
      have hxv : ¬ x.key_version = nv := by
        rcases hmem with h | ⟨y, hy, hxy⟩
        · rw [h]
          show ¬ old_key.key_version = nv
          exact hfresh old_key (by rw [hdb]; simp)
        · rw [hxy]
          exact hfresh y hy
      exact beq_eq_false_iff_ne.mpr hxv
    rw [modifyFirst_append_right _ _ _ _ hleft,
      modifyFirst_singleton_pos _ _ _ (by simp [newKeyRec])]
  · have hz : activeCount (l1 ++ rotDeact now old_key :: l2) = 0 := by
      have hone2 : activeCount (l1 ++ old_key :: (l2 ++ [newKeyRec nv algo mat now])) = 1 := by
        have heq : l1 ++ old_key :: (l2 ++ [newKeyRec nv algo mat now]) =
            db ++ [newKeyRec nv algo mat now] := by
          rw [hdb, List.append_assoc, List.cons_append]
        rw [heq, activeCount_append, hone]
        rfl
      have hthis : activeCount
          (l1 ++ rotDeact now old_key :: (l2 ++ [newKeyRec nv algo mat now])) = 0 :=
        activeCount_deact hone2 hl1f hact now
      have hshape : l1 ++ rotDeact now old_key :: (l2 ++ [newKeyRec nv algo mat now]) =
          (l1 ++ rotDeact now old_key :: l2) ++ [newKeyRec nv algo mat now] := by
        rw [List.append_assoc, List.cons_append]
      rw [hshape, activeCount_append] at hthis
      omega
    rw [activeCount_append, hz]
    rfl

/-! ### Claims C2, C5, C7 (key rotation) -/

/-- C2 (amended): on a successful rotation from a store with exactly one
active key and a fresh version, every committed state the rotation makes
visible has at most one active key, and the final state has exactly one —
but the claim as frozen ("never zero") fails: the counterexample shows a
committed intermediate state with zero active keys. -/
theorem c2_rotation_active_count (db : List EncryptionKey) (nv algo : String)
    (mat : List Nat) (now pc : Nat) (old_key : EncryptionKey)
    (hfind : db.find? (fun k => k.is_active) = some old_key)
    (hone : activeCount db = 1)
    (hfresh : ∀ k ∈ db, ¬ k.key_version = nv) :
    (rotate_encryption_key db nv algo mat now pc none).result.isOk = true ∧
    (∀ s ∈ (rotate_encryption_key db nv algo mat now pc none).states,
      activeCount s ≤ 1) ∧
    activeCount (rotate_encryption_key db nv algo mat now pc none).final = 1 := by
  have hfreshb : db.any (fun k => k.key_version == nv) = false := by
    rw [List.any_eq_false]
    intro x hx
    simp only [Bool.not_eq_true]
    exact beq_eq_false_iff_ne.mpr (hfresh x hx)
  rw [rotate_success db nv algo mat now pc old_key hfind hfreshb]
  obtain ⟨l1, l2, hdb, hl1f, hact, hc1, hs2, hc2, hs3, hc3⟩ :=
    rotation_shapes db nv algo mat now old_key hfind hone hfresh
  refine ⟨rfl, ?_, ?_⟩
  · intro s hs
    simp only [List.mem_cons, List.not_mem_nil, or_false] at hs
    rcases hs with rfl | rfl | rfl
    · omega
    · rw [hs2]
      omega
    · rw [hs2, hs3]
      omega
  · show activeCount (modifyFirst (fun k => k.key_version == nv) rotAct
      (modifyFirst (fun k => k.is_active) (rotDeact now)
        (db ++ [newKeyRec nv algo mat now]))) = 1
    rw [hs2, hs3]
    exact hc3

/-- C2 counterexample: a successful rotation from the single active key
`v1.0` to `v2.0` commits three states whose active-key counts are 1, 0, 1 —
the middle committed state (old key deactivated, new key not yet activated)
has zero active keys, violating "never zero". -/
theorem c2_zero_active_window :
    (rotate_encryption_key [⟨"v1.0", [], "AES-256", true, 0, none⟩]
      "v2.0" "AES-256" [] 1 5 none).result.isOk = true ∧
    (rotate_encryption_key [⟨"v1.0", [], "AES-256", true, 0, none⟩]
      "v2.0" "AES-256" [] 1 5 none).states.map activeCount = [1, 0, 1] := by
  exact ⟨rfl, rfl⟩

/-- Witness for `c2_rotation_active_count` at a concrete one-key store. -/
theorem c2_rotation_active_count_witness :
    (rotate_encryption_key [⟨"v1.0", [], "AES-256", true, 0, none⟩]
      "v2.0" "AES-256" [] 1 5 none).result.isOk = true ∧
    (∀ s ∈ (rotate_encryption_key [⟨"v1.0", [], "AES-256", true, 0, none⟩]
      "v2.0" "AES-256" [] 1 5 none).states, activeCount s ≤ 1) ∧
    activeCount (rotate_encryption_key [⟨"v1.0", [], "AES-256", true, 0, none⟩]
      "v2.0" "AES-256" [] 1 5 none).final = 1 :=
  c2_rotation_active_count [⟨"v1.0", [], "AES-256", true, 0, none⟩] "v2.0" "AES-256"
    [] 1 5 ⟨"v1.0", [], "AES-256", true, 0, none⟩ (by rfl) (by rfl)
    (by intro k hk; simp only [List.mem_singleton] at hk; rw [hk]; decide)

/-- C5 (amended): a failed rotation leaves the key table in one of three
states: unchanged, the new key inserted but inactive, or additionally the
old key deactivated — the new key is never left active by a failure, but
the middle two are partially rotated states, so all-or-nothing fails (see
the counterexample). -/
theorem c5_failed_rotation_states (db : List EncryptionKey) (nv algo : String)
    (mat : List Nat) (now pc : Nat) (failAt : Option Nat) :
    (rotate_encryption_key db nv algo mat now pc failAt).result.isOk = false →
    (rotate_encryption_key db nv algo mat now pc failAt).final = db ∨
    (rotate_encryption_key db nv algo mat now pc failAt).final =
      db ++ [newKeyRec nv algo mat now] ∨
    (rotate_encryption_key db nv algo mat now pc failAt).final =
      modifyFirst (fun k => k.is_active) (rotDeact now)
        (db ++ [newKeyRec nv algo mat now]) := by
  intro hfail
  cases hf : db.find? (fun k => k.is_active) with
  | none => left; simp [rotate_encryption_key, hf]
  | some old_key =>
    by_cases hany : db.any (fun k => k.key_version == nv) = true
    · left
      simp [rotate_encryption_key, hf, hany]
    · rw [Bool.not_eq_true] at hany
      by_cases h1 : failAt = some 1
      · left
        simp [rotate_encryption_key, hf, hany, h1]
      · by_cases h2 : failAt = some 2
        · right; left
          simp [rotate_encryption_key, hf, hany, h1, h2, newKeyRec]
        · by_cases h3 : failAt = some 3
          · right; right
            simp only [rotate_encryption_key, hf, hany, h1, h2, h3, Bool.false_eq_true,
              if_false, if_pos]
            rfl
          · exfalso
            simp only [rotate_encryption_key, hf, hany, h1, h2, h3, Bool.false_eq_true,
              if_false] at hfail
            exact Bool.noConfusion hfail

/-- C5 counterexample: rotating `v1.0` to `v2.0` with the second commit
failing errors out, yet the final committed table contains `v2.0`
(present, not active) while `v1.0` is still active — neither the prior
stable state (new version absent) nor the new stable state (new key
active), so the failure is not all-or-nothing. -/
theorem c5_partial_state_after_failure :
    (rotate_encryption_key [⟨"v1.0", [], "AES-256", true, 0, none⟩]
      "v2.0" "AES-256" [] 1 5 (some 2)).result.isOk = false ∧
    (rotate_encryption_key [⟨"v1.0", [], "AES-256", true, 0, none⟩]
      "v2.0" "AES-256" [] 1 5 (some 2)).final.any
        (fun k => k.key_version == "v2.0") = true ∧
    (rotate_encryption_key [⟨"v1.0", [], "AES-256", true, 0, none⟩]
      "v2.0" "AES-256" [] 1 5 (some 2)).final.any
        (fun k => k.key_version == "v2.0" && k.is_active) = false ∧
    (getActiveKey (rotate_encryption_key [⟨"v1.0", [], "AES-256", true, 0, none⟩]
      "v2.0" "AES-256" [] 1 5 (some 2)).final).map
        (fun k => k.key_version) = some "v1.0" := by
  exact ⟨rfl, rfl, rfl, rfl⟩

/-- Witness for `c5_failed_rotation_states` at a concrete failing commit. -/
theorem c5_failed_rotation_states_witness :
    (rotate_encryption_key [⟨"v1.0", [], "AES-256", true, 0, none⟩]
      "v2.0" "AES-256" [] 1 5 (some 2)).final =
        [⟨"v1.0", [], "AES-256", true, 0, none⟩] ∨
    (rotate_encryption_key [⟨"v1.0", [], "AES-256", true, 0, none⟩]
      "v2.0" "AES-256" [] 1 5 (some 2)).final =
        [⟨"v1.0", [], "AES-256", true, 0, none⟩] ++ [newKeyRec "v2.0" "AES-256" [] 1] ∨
    (rotate_encryption_key [⟨"v1.0", [], "AES-256", true, 0, none⟩]
      "v2.0" "AES-256" [] 1 5 (some 2)).final =
      modifyFirst (fun k => k.is_active) (rotDeact 1)
        ([⟨"v1.0", [], "AES-256", true, 0, none⟩] ++ [newKeyRec "v2.0" "AES-256" [] 1]) :=
  c5_failed_rotation_states [⟨"v1.0", [], "AES-256", true, 0, none⟩] "v2.0" "AES-256"
    [] 1 5 (some 2) (by rfl)

/-- C7 (amended): `rotate` fails with the no-active-key error whenever no
key is active (even if the new version already exists — the active-key
check runs first, which is what the counterexample exploits); it fails
with the version-conflict error when an active key exists and the new
version is taken; and on success it returns the old and new version names
and leaves the new version active and the old row deactivated with a
non-null `rotated_at`. -/
theorem c7_rotate_contract (db : List EncryptionKey) (nv algo : String)
    (mat : List Nat) (now pc : Nat) (old_key : EncryptionKey) :
    (db.find? (fun k => k.is_active) = none →
      (rotate_encryption_key db nv algo mat now pc none).result =
        .error (400, "No active key found")) ∧
    (db.find? (fun k => k.is_active) = some old_key →
      db.any (fun k => k.key_version == nv) = true →
      (rotate_encryption_key db nv algo mat now pc none).result =
        .error (400, "Key version " ++ nv ++ " already exists")) ∧
    (db.find? (fun k => k.is_active) = some old_key →
      activeCount db = 1 → (∀ k ∈ db, ¬ k.key_version = nv) →
      (rotate_encryption_key db nv algo mat now pc none).result =
        .ok ⟨true, old_key.key_version, nv, now, pc⟩ ∧
      (getActiveKey (rotate_encryption_key db nv algo mat now pc none).final).map
        (fun k => k.key_version) = some nv ∧
      ∃ k ∈ (rotate_encryption_key db nv algo mat now pc none).final,
        k.key_version = old_key.key_version ∧ k.is_active = false ∧
          k.rotated_at = some now) := by
  refine ⟨?_, ?_, ?_⟩
  · intro hf
    simp [rotate_encryption_key, hf]
  · intro hf hany
    simp [rotate_encryption_key, hf, hany]
  · intro hfind hone hfresh
    have hfreshb : db.any (fun k => k.key_version == nv) = false := by
      rw [List.any_eq_false]
      intro x hx
      simp only [Bool.not_eq_true]
      exact beq_eq_false_iff_ne.mpr (hfresh x hx)
    rw [rotate_success db nv algo mat now pc old_key hfind hfreshb]
    obtain ⟨l1, l2, hdb, hl1f, hact, hc1, hs2, hs2c, hs3, hc3⟩ :=
      rotation_shapes db nv algo mat now old_key hfind hone hfresh
    refine ⟨rfl, ?_, ?_⟩
    · show (getActiveKey (modifyFirst (fun k => k.key_version == nv) rotAct
        (modifyFirst (fun k => k.is_active) (rotDeact now)
          (db ++ [newKeyRec nv algo mat now])))).map (fun k => k.key_version) = some nv
      rw [hs2, hs3]
      have hzero : activeCount (l1 ++ rotDeact now old_key :: l2) = 0 := by
        rw [activeCount_append] at hs2c
        have : activeCount [newKeyRec nv algo mat now] = 0 := rfl
        omega
      have hnone : (l1 ++ rotDeact now old_key :: l2).find?
          (fun k => k.is_active) = none := by
        rw [List.find?_eq_none]
        intro x hx
        simp [activeCount_eq_zero hzero x hx]
      unfold getActiveKey
      rw [List.find?_append, hnone, Option.none_or,
        List.find?_cons_of_pos _ (by rfl)]
      rfl
    · show ∃ k ∈ modifyFirst (fun k => k.key_version == nv) rotAct
        (modifyFirst (fun k => k.is_active) (rotDeact now)
          (db ++ [newKeyRec nv algo mat now])),
          k.key_version = old_key.key_version ∧ k.is_active = false ∧
            k.rotated_at = some now
      rw [hs2, hs3]
      refine ⟨rotDeact now old_key, ?_, rfl, rfl, rfl⟩
      refine List.mem_append.mpr (Or.inl ?_)
      exact List.mem_append.mpr (Or.inr (by simp))

/-- C7 counterexample: with a store whose only key is an inactive `v2.0`,
`rotate("v2.0", ...)` fails with the no-active-key error even though the
new version already exists, so "fails with a key-version-conflict error
whenever newVersion already exists" is false as stated. -/
theorem c7_conflict_not_raised :
    (rotate_encryption_key [⟨"v2.0", [], "AES-256", false, 0, none⟩]
      "v2.0" "AES-256" [] 1 5 none).result = .error (400, "No active key found") ∧
    ([(⟨"v2.0", [], "AES-256", false, 0, none⟩ : EncryptionKey)]).any
      (fun k => k.key_version == "v2.0") = true := by
  exact ⟨rfl, rfl⟩

/-- Witness for `c7_rotate_contract` at a concrete one-key store. -/
theorem c7_rotate_contract_witness :
    (rotate_encryption_key [⟨"v1.0", [], "AES-256", true, 0, none⟩]
      "v2.0" "AES-256" [] 1 5 none).result =
      .ok ⟨true, "v1.0", "v2.0", 1, 5⟩ ∧
    (getActiveKey (rotate_encryption_key [⟨"v1.0", [], "AES-256", true, 0, none⟩]
      "v2.0" "AES-256" [] 1 5 none).final).map (fun k => k.key_version) = some "v2.0" ∧
    ∃ k ∈ (rotate_encryption_key [⟨"v1.0", [], "AES-256", true, 0, none⟩]
      "v2.0" "AES-256" [] 1 5 none).final,
      k.key_version = "v1.0" ∧ k.is_active = false ∧ k.rotated_at = some 1 :=
  (c7_rotate_contract [⟨"v1.0", [], "AES-256", true, 0, none⟩] "v2.0" "AES-256" [] 1 5
    ⟨"v1.0", [], "AES-256", true, 0, none⟩).2.2 (by rfl) (by rfl)
    (by intro k hk; simp only [List.mem_singleton] at hk; rw [hk]; decide)

/-! ### Claim C8 (cipher staleness across rotations) -/

/-- The cached cipher is absent or was built from the first 32 UTF-8 bytes
of the `ENCRYPTION_KEY` environment value. -/
def CipherOk (env : Option (List Nat)) (co : Option (List Nat)) : Prop :=
  co = none ∨ ∃ k, env = some k ∧ co = some ((utf8Encode k).take 32)

/-- The process invariant behind C8. -/
def WorldInv (env0 : Option (List Nat)) (w : World) : Prop :=
  w.env = env0 ∧ w.svc.current_key_version = "v1.0" ∧
  (∀ r ∈ w.audit, r.key_version = "v1.0") ∧ CipherOk env0 w.svc.cipher

theorem get_cipher_props (env : Option (List Nat)) (svc : EncryptionService) :
    (get_cipher env svc).2.current_key_version = svc.current_key_version ∧
    (CipherOk env svc.cipher → CipherOk env (get_cipher env svc).2.cipher) ∧
    (∀ c, svc.cipher = some c → (get_cipher env svc).2.cipher = some c) := by
  unfold get_cipher
  cases hc : svc.cipher with
  | some c =>
    refine ⟨rfl, ?_, ?_⟩
    · intro h
      rw [← hc] at h
      exact h
    · intro c2 hc2
      show svc.cipher = some c2
      rw [hc]
      exact hc2
  | none =>
    cases hl : load_active_key env with
    | error e =>
      refine ⟨rfl, ?_, ?_⟩
      · intro h
        rw [← hc] at h
        exact h
      · intro c2 hc2
        exact Option.noConfusion hc2
    | ok key =>
      by_cases h32 : ((utf8Encode key).take 32).length = 32
      · have henv : env = some key := by
          unfold load_active_key at hl
          cases env with
          | none => exact Except.noConfusion hl
          | some k =>
            cases k with
            | nil => exact Except.noConfusion hl
            | cons a b =>
              injection hl with hl
              rw [hl]
        refine ⟨by simp [h32], ?_, ?_⟩
        · intro _
          right
          refine ⟨key, henv, ?_⟩
          simp [h32]
        · intro c2 hc2
          exact Option.noConfusion hc2
      · have h32b : ¬ 32 ≤ (utf8Encode key).length := by
          rw [List.length_take] at h32
          omega
        refine ⟨by simp [h32b], ?_, ?_⟩
        · intro _
          left
          simp [h32b, hc]
        · intro c2 hc2
          exact Option.noConfusion hc2

theorem log_encryption_operation_mem (svc : EncryptionService) (t : List AuditRecord)
    (operation field_name : String) (success : Bool) (pid : Option String)
    (uid : Option Nat) (em : Option String) (ip ua : Option String) (now : Nat)
    (aok : Bool) (r : AuditRecord)
    (h : r ∈ log_encryption_operation svc t operation field_name success pid uid em
      ip ua now aok) :
    r ∈ t ∨ r.key_version = svc.current_key_version := by
  unfold log_encryption_operation at h
  split at h
  · rcases List.mem_append.mp h with h | h
    · exact Or.inl h
    · rcases List.mem_singleton.mp h with rfl
      exact Or.inr rfl
  · exact Or.inl h

theorem encrypt_field_svc (env : Option (List Nat)) (svc : EncryptionService)
    (value : List Nat) (f : String) (db : Option (List AuditRecord))
    (pid : Option String) (uid : Option Nat) (ip ua : Option String)
    (iv : List Nat) (ts now : Nat) (aok : Bool) :
    (encrypt_field env svc value f db pid uid ip ua iv ts now aok).2.1 =
      (get_cipher env svc).2 := by
  unfold encrypt_field
  cases hg : (get_cipher env svc).1 with
  | ok kb => rfl
  | error e => rfl

theorem decrypt_field_svc (env : Option (List Nat)) (svc : EncryptionService)
    (tok : List Nat) (f : String) (db : Option (List AuditRecord))
    (pid : Option String) (uid : Option Nat) (ip ua : Option String)
    (now : Nat) (aok : Bool) :
    (decrypt_field env svc tok f db pid uid ip ua now aok).2.1 =
      (get_cipher env svc).2 := by
  unfold decrypt_field
  split
  all_goals try rfl
  split
  all_goals try rfl
  split
  all_goals rfl

theorem encrypt_field_audit_mem (env : Option (List Nat)) (svc : EncryptionService)
    (value : List Nat) (f : String) (t : List AuditRecord)
    (pid : Option String) (uid : Option Nat) (ip ua : Option String)
    (iv : List Nat) (ts now : Nat) (aok : Bool) (t2 : List AuditRecord)
    (h : (encrypt_field env svc value f (some t) pid uid ip ua iv ts now aok).2.2 =
      some t2) (r : AuditRecord) (hr : r ∈ t2) :
    r ∈ t ∨ r.key_version = (get_cipher env svc).2.current_key_version := by
  unfold encrypt_field at h
  split at h
  all_goals
    simp only [Option.map_some] at h
    injection h with h
    rw [← h] at hr
    exact log_encryption_operation_mem _ _ _ _ _ _ _ _ _ _ _ _ r hr

theorem decrypt_field_audit_mem (env : Option (List Nat)) (svc : EncryptionService)
    (tok : List Nat) (f : String) (t : List AuditRecord)
    (pid : Option String) (uid : Option Nat) (ip ua : Option String)
    (now : Nat) (aok : Bool) (t2 : List AuditRecord)
    (h : (decrypt_field env svc tok f (some t) pid uid ip ua now aok).2.2 = some t2)
    (r : AuditRecord) (hr : r ∈ t2) :
    r ∈ t ∨ r.key_version = (get_cipher env svc).2.current_key_version := by
  unfold decrypt_field at h
  split at h
  any_goals split at h
  any_goals split at h
  all_goals
    simp only [Option.map_some] at h
    injection h with h
    rw [← h] at hr
    exact log_encryption_operation_mem _ _ _ _ _ _ _ _ _ _ _ _ r hr

theorem stepWorld_inv (env0 : Option (List Nat)) (w : World) (op : ServiceOp)
    (h : WorldInv env0 w) : WorldInv env0 (stepWorld w op) := by
  obtain ⟨henv, hver, haud, hco⟩ := h
  cases op with
  | encryptOp v f withDb pid uid ip ua iv ts now aok =>
    have hg := get_cipher_props w.env w.svc
    refine ⟨henv, ?_, ?_, ?_⟩
    · show (encrypt_field w.env w.svc v f _ pid uid ip ua iv ts now aok).2.1.current_key_version = "v1.0"
      rw [encrypt_field_svc, hg.1, hver]
    · intro r hr
      show r.key_version = "v1.0"
      cases withDb with
      | false =>
        have : (encrypt_field w.env w.svc v f none pid uid ip ua iv ts now aok).2.2 = none := by
          unfold encrypt_field
          cases hgc : (get_cipher w.env w.svc).1 <;> rfl
        simp only [stepWorld] at hr
        rw [if_neg (by simp)] at hr
        rw [this] at hr
        exact haud r hr
      | true =>
        simp only [stepWorld] at hr
        rw [if_pos trivial] at hr
        cases ht2 : (encrypt_field w.env w.svc v f (some w.audit) pid uid ip ua iv ts now aok).2.2 with
        | none =>
          rw [ht2] at hr
          exact haud r hr
        | some t2 =>
          rw [ht2] at hr
          rcases encrypt_field_audit_mem _ _ _ _ _ _ _ _ _ _ _ _ _ _ ht2 r hr with h2 | h2
          · exact haud r h2
          · rw [h2, hg.1, hver]
    · show CipherOk env0 (encrypt_field w.env w.svc v f _ pid uid ip ua iv ts now aok).2.1.cipher
      rw [encrypt_field_svc, henv]
      rw [henv] at hg
      exact hg.2.1 hco
  | decryptOp t f withDb pid uid ip ua now aok =>
    have hg := get_cipher_props w.env w.svc
    refine ⟨henv, ?_, ?_, ?_⟩
    · show (decrypt_field w.env w.svc t f _ pid uid ip ua now aok).2.1.current_key_version = "v1.0"
      rw [decrypt_field_svc, hg.1, hver]
    · intro r hr
      show r.key_version = "v1.0"
      cases withDb with
      | false =>
        have : (decrypt_field w.env w.svc t f none pid uid ip ua now aok).2.2 = none := by
          unfold decrypt_field
          split
          all_goals try rfl
          split
          all_goals try rfl
          split
          all_goals rfl
        simp only [stepWorld] at hr
        rw [if_neg (by simp)] at hr
        rw [this] at hr
        exact haud r hr
      | true =>
        simp only [stepWorld] at hr
        rw [if_pos trivial] at hr
        cases ht2 : (decrypt_field w.env w.svc t f (some w.audit) pid uid ip ua now aok).2.2 with
        | none =>
          rw [ht2] at hr
          exact haud r hr
        | some t2 =>
          rw [ht2] at hr
          rcases decrypt_field_audit_mem _ _ _ _ _ _ _ _ _ _ _ _ ht2 r hr with h2 | h2
          · exact haud r h2
          · rw [h2, hg.1, hver]
    · show CipherOk env0 (decrypt_field w.env w.svc t f _ pid uid ip ua now aok).2.1.cipher
      rw [decrypt_field_svc, henv]
      rw [henv] at hg
      exact hg.2.1 hco
  | rotateOp nv algo mat now pc failAt => exact ⟨henv, hver, haud, hco⟩
  | bgKeyTask mat => exact ⟨henv, hver, haud, hco⟩

theorem runWorld_inv (env0 : Option (List Nat)) (ops : List ServiceOp) (w : World)
    (h : WorldInv env0 w) : WorldInv env0 (runWorld w ops) := by
  induction ops generalizing w with
  | nil => exact h
  | cons op rest ih => exact ih _ (stepWorld_inv env0 w op h)

theorem stepWorld_cipher_mono (w : World) (op : ServiceOp) (c : List Nat)
    (h : w.svc.cipher = some c) : (stepWorld w op).svc.cipher = some c := by
  cases op with
  | encryptOp v f withDb pid uid ip ua iv ts now aok =>
    show (encrypt_field w.env w.svc v f _ pid uid ip ua iv ts now aok).2.1.cipher = some c
    rw [encrypt_field_svc]
    exact (get_cipher_props w.env w.svc).2.2 c h
  | decryptOp t f withDb pid uid ip ua now aok =>
    show (decrypt_field w.env w.svc t f _ pid uid ip ua now aok).2.1.cipher = some c
    rw [decrypt_field_svc]
    exact (get_cipher_props w.env w.svc).2.2 c h
  | rotateOp nv algo mat now pc failAt => exact h
  | bgKeyTask mat => exact h

/-- C8: over any sequence of service operations started from a fresh
`EncryptionService` (the process-lifetime model), the recorded key version
stays `"v1.0"`, every audit record written carries key version `"v1.0"`
(even after any number of rotate calls), the environment value is never
modified, and the cached cipher is either still unbuilt or is exactly the
one derived from the first 32 encoded bytes of the `ENCRYPTION_KEY`
environment value; moreover a cipher once cached is never replaced by any
later operation, and a rotate call changes only the key-metadata rows -
never the service state, the audit trail or the environment. -/
theorem c8_cipher_built_once_version_fixed :
    (∀ (env : Option (List Nat)) (keys : List EncryptionKey) (ops : List ServiceOp),
      (runWorld (World.mk env newEncryptionService keys []) ops).svc.current_key_version
          = "v1.0" ∧
      (∀ r ∈ (runWorld (World.mk env newEncryptionService keys []) ops).audit,
        r.key_version = "v1.0") ∧
      (runWorld (World.mk env newEncryptionService keys []) ops).env = env ∧
      CipherOk env (runWorld (World.mk env newEncryptionService keys []) ops).svc.cipher) ∧
    (∀ (w : World) (op : ServiceOp) (c : List Nat),
      w.svc.cipher = some c → (stepWorld w op).svc.cipher = some c) ∧
    (∀ (w : World) (nv algo : String) (mat : List Nat) (now pc : Nat)
        (failAt : Option Nat),
      (stepWorld w (ServiceOp.rotateOp nv algo mat now pc failAt)).svc = w.svc ∧
      (stepWorld w (ServiceOp.rotateOp nv algo mat now pc failAt)).audit = w.audit ∧
      (stepWorld w (ServiceOp.rotateOp nv algo mat now pc failAt)).env = w.env) := by
  refine ⟨?_, ?_, ?_⟩
  · intro env keys ops
    have h0 : WorldInv env (World.mk env newEncryptionService keys []) :=
      ⟨rfl, rfl, by intro r hr; exact absurd hr (List.not_mem_nil r), Or.inl rfl⟩
    obtain ⟨h1, h2, h3, h4⟩ := runWorld_inv env ops _ h0
    exact ⟨h2, h3, h1, h4⟩
  · exact stepWorld_cipher_mono
  · intro w nv algo mat now pc failAt
    exact ⟨rfl, rfl, rfl⟩

theorem c8_cipher_built_once_version_fixed_witness :
    ((runWorld (World.mk (some (List.replicate 40 97)) newEncryptionService [] [])
        [ServiceOp.encryptOp [104, 105] "first_name" true none none none none
          (List.replicate 16 0) 0 0 true]).svc.current_key_version = "v1.0") ∧
    ((stepWorld
        (World.mk (some (List.replicate 40 97))
          (EncryptionService.mk "v1.0"
            (some ((utf8Encode (List.replicate 40 97)).take 32))) [] [])
        (ServiceOp.encryptOp [104, 105] "first_name" true none none none none
          (List.replicate 16 0) 0 0 true)).svc.cipher
      = some ((utf8Encode (List.replicate 40 97)).take 32)) :=
  ⟨(c8_cipher_built_once_version_fixed.1 (some (List.replicate 40 97)) []
      [ServiceOp.encryptOp [104, 105] "first_name" true none none none none
        (List.replicate 16 0) 0 0 true]).1,
    c8_cipher_built_once_version_fixed.2.1 _ _ _ rfl⟩

/-! ### ConnectionManager lemmas and claims C9, C10 -/

theorem alGet_cons {a b : Type} [BEq a] (k k2 : a) (v2 : b) (l : List (a × b)) :
    alGet k ((k2, v2) :: l) = if k2 == k then some v2 else alGet k l := by
  unfold alGet
  cases hbk : (k2 == k) with
  | true =>
    rw [List.find?_cons_of_pos _ (by simpa using hbk)]
    simp
  | false =>
    rw [List.find?_cons_of_neg _ (by simpa using hbk)]
    simp

theorem alGet_nil {a b : Type} [BEq a] (k : a) : alGet k ([] : List (a × b)) = none := rfl

theorem alSet_cons {a b : Type} [BEq a] (k k2 : a) (v v2 : b) (l : List (a × b)) :
    alSet k v ((k2, v2) :: l) =
      if k2 == k then (k, v) :: l else (k2, v2) :: alSet k v l := rfl

theorem alErase_cons {a b : Type} [BEq a] (k k2 : a) (v2 : b) (l : List (a × b)) :
    alErase k ((k2, v2) :: l) = if k2 == k then l else (k2, v2) :: alErase k l := rfl

theorem alGet_alSet_self {a b : Type} [BEq a] [LawfulBEq a] (k : a) (v : b)
    (l : List (a × b)) : alGet k (alSet k v l) = some v := by
  induction l with
  | nil => simp [alSet, alGet_cons]
  | cons p rest ih =>
    obtain ⟨k2, v2⟩ := p
    unfold alSet
    cases hbk : (k2 == k) with
    | true => simp [alGet_cons]
    | false => simp [alGet_cons, hbk, ih]

theorem alGet_alSet_ne {a b : Type} [BEq a] [LawfulBEq a] (k k2 : a) (v : b)
    (l : List (a × b)) (h : k2 ≠ k) : alGet k2 (alSet k v l) = alGet k2 l := by
  induction l with
  | nil =>
    have : (k == k2) = false := by simpa using fun e => h e.symm
    simp [alSet, alGet_cons, this]
  | cons p rest ih =>
    obtain ⟨k3, v3⟩ := p
    unfold alSet
    cases hbk : (k3 == k) with
    | true =>
      have hk3 : k3 = k := by simpa using hbk
      have h1 : (k == k2) = false := by simpa using fun e => h e.symm
      have h2 : (k3 == k2) = false := by rw [hk3]; exact h1
      simp [alGet_cons, h1, h2]
    | false => simp [alGet_cons, ih]

theorem mem_alSet {a b : Type} [BEq a] (k : a) (v : b) (l : List (a × b))
    (p : a × b) (h : p ∈ alSet k v l) : p = (k, v) ∨ p ∈ l := by
  induction l with
  | nil => simpa [alSet] using h
  | cons q rest ih =>
    obtain ⟨k2, v2⟩ := q
    unfold alSet at h
    cases hbk : (k2 == k) with
    | true =>
      rw [hbk] at h
      simp only [if_pos rfl] at h
      rcases List.mem_cons.mp h with h | h
      · exact Or.inl h
      · exact Or.inr (List.mem_cons_of_mem _ h)
    | false =>
      rw [hbk] at h
      rw [if_neg Bool.false_ne_true] at h
      rcases List.mem_cons.mp h with h | h
      · exact Or.inr (h ▸ List.mem_cons_self _ _)
      · rcases ih h with h | h
        · exact Or.inl h
        · exact Or.inr (List.mem_cons_of_mem _ h)

theorem mem_alErase {a b : Type} [BEq a] (k : a) (l : List (a × b))
    (p : a × b) (h : p ∈ alErase k l) : p ∈ l := by
  induction l with
  | nil => simpa [alErase] using h
  | cons q rest ih =>
    obtain ⟨k2, v2⟩ := q
    unfold alErase at h
    cases hbk : (k2 == k) with
    | true =>
      rw [hbk] at h
      simp only [if_pos rfl] at h
      exact List.mem_cons_of_mem _ h
    | false =>
      rw [hbk] at h
      rw [if_neg Bool.false_ne_true] at h
      rcases List.mem_cons.mp h with h | h
      · exact h ▸ List.mem_cons_self _ _
      · exact List.mem_cons_of_mem _ (ih h)

theorem alErase_alSet_of_none {a b : Type} [BEq a] [LawfulBEq a] (k : a) (v : b)
    (l : List (a × b)) (h : alGet k l = none) : alErase k (alSet k v l) = l := by
  induction l with
  | nil => simp [alSet, alErase]
  | cons q rest ih =>
    obtain ⟨k2, v2⟩ := q
    rw [alGet_cons] at h
    cases hbk : (k2 == k) with
    | true => rw [hbk] at h; simp at h
    | false =>
      rw [hbk] at h
      rw [if_neg Bool.false_ne_true] at h
      rw [alSet_cons, hbk, if_neg Bool.false_ne_true, alErase_cons, hbk,
        if_neg Bool.false_ne_true, ih h]

theorem alGet_map_erase (ws : Nat) (k : List Nat) (l : List (List Nat × List Nat)) :
    alGet k (l.map (fun p => (p.1, p.2.erase ws))) = (alGet k l).map (fun s => s.erase ws) := by
  induction l with
  | nil => rfl
  | cons q rest ih =>
    obtain ⟨k2, v2⟩ := q
    simp only [List.map_cons]
    rw [alGet_cons, alGet_cons]
    cases hbk : (k2 == k) with
    | true => simp
    | false => simpa using ih

theorem alGet_mem {a b : Type} [BEq a] (k : a) (l : List (a × b)) (v : b)
    (h : alGet k l = some v) : ∃ p ∈ l, p.2 = v := by
  unfold alGet at h
  cases hf : l.find? (fun p => p.1 == k) with
  | none => rw [hf] at h; exact Option.noConfusion h
  | some p =>
    rw [hf] at h
    refine ⟨p, List.mem_of_find?_eq_some hf, ?_⟩
    exact Option.some.inj h

theorem setAdd_mem_self (x : Nat) (s : List Nat) : x ∈ setAdd x s := by
  unfold setAdd
  by_cases h : x ∈ s
  · simpa [h]
  · simp [h]

theorem setAdd_mem_of_mem (x y : Nat) (s : List Nat) (h : y ∈ s) : y ∈ setAdd x s := by
  unfold setAdd
  by_cases h2 : x ∈ s
  · simpa [h2]
  · simp [h2, h]

theorem setAdd_ne_nil (x : Nat) (s : List Nat) : setAdd x s ≠ [] := by
  unfold setAdd
  by_cases h : x ∈ s
  · simp only [if_pos h]
    intro he
    rw [he] at h
    exact List.not_mem_nil x h
  · simp [h]

theorem setAdd_nodup (x : Nat) (s : List Nat) (h : s.Nodup) : (setAdd x s).Nodup := by
  unfold setAdd
  by_cases h2 : x ∈ s
  · simpa [h2]
  · simp only [Bool.false_eq_true, if_neg h2]
    exact List.Nodup.append h (List.nodup_singleton x) (by simpa using h2)

theorem join_room_active (m : ConnectionManager) (ws : Nat) (room : List Nat) :
    (join_room m ws room).active_connections = m.active_connections := by
  unfold join_room
  cases alGet room m.rooms <;> rfl

theorem join_room_metadata (m : ConnectionManager) (ws : Nat) (room : List Nat) :
    (join_room m ws room).connection_metadata = m.connection_metadata := by
  unfold join_room
  cases alGet room m.rooms <;> rfl

theorem join_room_ids (m : ConnectionManager) (ws : Nat) (room : List Nat) :
    (join_room m ws room).connection_ids = m.connection_ids := by
  unfold join_room
  cases alGet room m.rooms <;> rfl

theorem join_room_mem_self (m : ConnectionManager) (ws : Nat) (room : List Nat) :
    ws ∈ roomMembers (join_room m ws room) room := by
  unfold join_room roomMembers
  cases hr : alGet room m.rooms with
  | none => simp [alGet_alSet_self]
  | some s => simp [alGet_alSet_self, setAdd_mem_self]

theorem join_room_members_ne (m : ConnectionManager) (ws : Nat) (room room2 : List Nat)
    (h : room ≠ room2) : roomMembers (join_room m ws room2) room = roomMembers m room := by
  unfold join_room roomMembers
  cases hr : alGet room2 m.rooms with
  | none => simp [alGet_alSet_ne _ _ _ _ h]
  | some s => simp [alGet_alSet_ne _ _ _ _ h]

theorem join_room_nodup (m : ConnectionManager) (ws : Nat) (room : List Nat)
    (h : ∀ p ∈ m.rooms, p.2.Nodup) : ∀ p ∈ (join_room m ws room).rooms, p.2.Nodup := by
  unfold join_room
  cases hr : alGet room m.rooms with
  | none =>
    intro p hp
    rcases mem_alSet _ _ _ _ hp with rfl | hp
    · exact List.nodup_singleton ws
    · exact h p hp
  | some s =>
    intro p hp
    rcases mem_alSet _ _ _ _ hp with rfl | hp
    · refine setAdd_nodup _ _ ?_
      rcases alGet_mem _ _ _ hr with ⟨q, hq, hq2⟩
      exact hq2 ▸ h q hq
    · exact h p hp

theorem userRoom_ne_roleRoom (uid : Nat) (role : List Nat) :
    userRoom uid ≠ roleRoom role := by
  intro h
  simp [userRoom, roleRoom] at h

theorem connect_active (m : ConnectionManager) (ws uid : Nat) (role cid : List Nat)
    (now : Nat) :
    (connect m ws uid role cid now true).active_connections =
      alSet uid ((alGet uid m.active_connections).getD [] ++ [ws]) m.active_connections := by
  unfold connect
  rw [if_pos rfl, join_room_active, join_room_active]

theorem connect_metadata (m : ConnectionManager) (ws uid : Nat) (role cid : List Nat)
    (now : Nat) :
    (connect m ws uid role cid now true).connection_metadata =
      alSet ws ⟨uid, role, cid, now, now⟩ m.connection_metadata := by
  unfold connect
  rw [if_pos rfl, join_room_metadata, join_room_metadata]

theorem connect_nodup (m : ConnectionManager) (ws uid : Nat) (role cid : List Nat)
    (now : Nat) (h : ∀ p ∈ m.rooms, p.2.Nodup) :
    ∀ p ∈ (connect m ws uid role cid now true).rooms, p.2.Nodup := by
  unfold connect
  rw [if_pos rfl]
  exact join_room_nodup _ _ _ (join_room_nodup _ _ _ h)

theorem connect_mem_userRoom (m : ConnectionManager) (ws uid : Nat) (role cid : List Nat)
    (now : Nat) :
    ws ∈ roomMembers (connect m ws uid role cid now true) (userRoom uid) := by
  unfold connect
  rw [if_pos rfl]
  rw [join_room_members_ne _ _ _ _ (userRoom_ne_roleRoom uid role)]
  exact join_room_mem_self _ _ _

theorem connect_mem_roleRoom (m : ConnectionManager) (ws uid : Nat) (role cid : List Nat)
    (now : Nat) :
    ws ∈ roomMembers (connect m ws uid role cid now true) (roleRoom role) := by
  unfold connect
  rw [if_pos rfl]
  exact join_room_mem_self _ _ _

theorem disconnect_spec (m : ConnectionManager) (ws : Nat) (meta : ConnMeta)
    (h : alGet ws m.connection_metadata = some meta)
    (h2 : alGet meta.user_id m.active_connections = some [ws]) :
    disconnect m ws =
      { active_connections := alErase meta.user_id m.active_connections,
        connection_metadata := alErase ws m.connection_metadata,
        rooms := m.rooms.map (fun p => (p.1, p.2.erase ws)),
        connection_ids :=
          if (alGet meta.connection_id m.connection_ids).isSome then
            alErase meta.connection_id m.connection_ids
          else m.connection_ids } := by
  unfold disconnect
  simp only [h, h2, List.erase_cons_head, if_pos rfl, ite_true]
  by_cases hid : (alGet meta.connection_id m.connection_ids).isSome = true
  · rw [if_pos hid, if_pos hid]
  · rw [if_neg hid, if_neg hid]

theorem disconnect_no_meta (m : ConnectionManager) (ws : Nat)
    (h : alGet ws m.connection_metadata = none) : disconnect m ws = m := by
  unfold disconnect
  rw [h]

theorem join_room_noEmpty (m : ConnectionManager) (ws : Nat) (room : List Nat)
    (h : NoEmptyRooms m) : NoEmptyRooms (join_room m ws room) := by
  intro p hp
  unfold join_room at hp
  cases hr : alGet room m.rooms with
  | none =>
    rw [hr] at hp
    rcases mem_alSet _ _ _ _ hp with rfl | hp
    · simp
    · exact h p hp
  | some s =>
    rw [hr] at hp
    rcases mem_alSet _ _ _ _ hp with rfl | hp
    · exact setAdd_ne_nil ws s
    · exact h p hp

theorem leave_room_noEmpty (m : ConnectionManager) (ws : Nat) (room : List Nat)
    (h : NoEmptyRooms m) : NoEmptyRooms (leave_room m ws room) := by
  intro p hp
  unfold leave_room at hp
  cases hr : alGet room m.rooms with
  | none =>
    rw [hr] at hp
    exact h p hp
  | some s =>
    simp only [hr] at hp
    by_cases he : s.erase ws = []
    · rw [if_pos he] at hp
      exact h p (mem_alErase _ _ _ hp)
    · rw [if_neg he] at hp
      rcases mem_alSet _ _ _ _ hp with rfl | hp
      · exact he
      · exact h p hp

theorem connect_noEmpty (m : ConnectionManager) (ws uid : Nat) (role cid : List Nat)
    (now2 : Nat) (h : NoEmptyRooms m) :
    NoEmptyRooms (connect m ws uid role cid now2 true) := by
  unfold connect
  rw [if_pos rfl]
  exact join_room_noEmpty _ _ _ (join_room_noEmpty _ _ _ h)

/-- C9: from any registry state in which socket `ws` is not yet registered,
user `uid` has no connection and the room sets are duplicate-free (they are
Python sets), `connect` makes `is_user_connected uid` true and puts `ws` in
the `user_{uid}` and `role_{role}` rooms; a following `disconnect ws` makes
`is_user_connected uid` false (the socket was the user's only connection),
leaves `ws` in no room, and a second `disconnect ws` is a no-op. -/
theorem c9_connect_disconnect_lifecycle (m : ConnectionManager) (ws uid : Nat)
    (role cid : List Nat) (now2 : Nat)
    (hmeta : alGet ws m.connection_metadata = none)
    (huser : alGet uid m.active_connections = none)
    (hnodup : ∀ p ∈ m.rooms, p.2.Nodup) :
    is_user_connected (connect m ws uid role cid now2 true) uid = true ∧
    ws ∈ roomMembers (connect m ws uid role cid now2 true) (userRoom uid) ∧
    ws ∈ roomMembers (connect m ws uid role cid now2 true) (roleRoom role) ∧
    is_user_connected (disconnect (connect m ws uid role cid now2 true) ws) uid = false ∧
    (∀ room, ws ∉ roomMembers (disconnect (connect m ws uid role cid now2 true) ws) room) ∧
    disconnect (disconnect (connect m ws uid role cid now2 true) ws) ws
      = disconnect (connect m ws uid role cid now2 true) ws := by
  have hact : (connect m ws uid role cid now2 true).active_connections
      = alSet uid [ws] m.active_connections := by
    rw [connect_active, huser]
    rfl
  have hmet : (connect m ws uid role cid now2 true).connection_metadata
      = alSet ws ⟨uid, role, cid, now2, now2⟩ m.connection_metadata :=
    connect_metadata m ws uid role cid now2
  have hD : disconnect (connect m ws uid role cid now2 true) ws =
      { active_connections :=
          alErase uid (connect m ws uid role cid now2 true).active_connections,
        connection_metadata :=
          alErase ws (connect m ws uid role cid now2 true).connection_metadata,
        rooms := (connect m ws uid role cid now2 true).rooms.map
          (fun p => (p.1, p.2.erase ws)),
        connection_ids :=
          if (alGet cid (connect m ws uid role cid now2 true).connection_ids).isSome then
            alErase cid (connect m ws uid role cid now2 true).connection_ids
          else (connect m ws uid role cid now2 true).connection_ids } :=
    disconnect_spec _ _ ⟨uid, role, cid, now2, now2⟩
      (by rw [hmet]; exact alGet_alSet_self _ _ _)
      (by rw [hact]; exact alGet_alSet_self _ _ _)
  have hDact : (disconnect (connect m ws uid role cid now2 true) ws).active_connections
      = m.active_connections := by
    rw [hD]
    show alErase uid (connect m ws uid role cid now2 true).active_connections
      = m.active_connections
    rw [hact]
    exact alErase_alSet_of_none _ _ _ huser
  have hDmeta : (disconnect (connect m ws uid role cid now2 true) ws).connection_metadata
      = m.connection_metadata := by
    rw [hD]
    show alErase ws (connect m ws uid role cid now2 true).connection_metadata
      = m.connection_metadata
    rw [hmet]
    exact alErase_alSet_of_none _ _ _ hmeta
  have hDrooms : (disconnect (connect m ws uid role cid now2 true) ws).rooms
      = (connect m ws uid role cid now2 true).rooms.map (fun p => (p.1, p.2.erase ws)) := by
    rw [hD]
  refine ⟨?_, connect_mem_userRoom m ws uid role cid now2,
    connect_mem_roleRoom m ws uid role cid now2, ?_, ?_, ?_⟩
  · unfold is_user_connected
    rw [hact, alGet_alSet_self]
    rfl
  · unfold is_user_connected
    rw [hDact, huser]
  · intro room
    unfold roomMembers
    rw [hDrooms, alGet_map_erase]
    cases hr : alGet room (connect m ws uid role cid now2 true).rooms with
    | none => exact List.not_mem_nil ws
    | some s =>
      show ws ∉ s.erase ws
      have hs : s.Nodup := by
        rcases alGet_mem _ _ _ hr with ⟨p, hp, hp2⟩
        exact hp2 ▸ connect_nodup m ws uid role cid now2 hnodup p hp
      exact hs.not_mem_erase
  · exact disconnect_no_meta _ _ (by rw [hDmeta]; exact hmeta)

theorem c9_connect_disconnect_lifecycle_witness :
    (alGet 1 newConnectionManager.connection_metadata = none ∧
      alGet 2 newConnectionManager.active_connections = none) ∧
    is_user_connected (connect newConnectionManager 1 2 [97, 100, 109, 105, 110] [99] 0 true) 2
      = true ∧
    is_user_connected
      (disconnect (connect newConnectionManager 1 2 [97, 100, 109, 105, 110] [99] 0 true) 1) 2
      = false ∧
    disconnect
        (disconnect (connect newConnectionManager 1 2 [97, 100, 109, 105, 110] [99] 0 true) 1) 1
      = disconnect (connect newConnectionManager 1 2 [97, 100, 109, 105, 110] [99] 0 true) 1 := by
  have h := c9_connect_disconnect_lifecycle newConnectionManager 1 2
    [97, 100, 109, 105, 110] [99] 0 rfl rfl (fun p hp => absurd hp (List.not_mem_nil p))
  exact ⟨⟨rfl, rfl⟩, h.1, h.2.2.2.1, h.2.2.2.2.2⟩

/-- C10 fails on `disconnect`: connecting a socket and then disconnecting
it leaves the two rooms it had joined present with zero members - disconnect
discards the socket from every room set but never prunes emptied rooms. -/
theorem c10_disconnect_keeps_empty_rooms :
    ¬ NoEmptyRooms
      (disconnect (connect newConnectionManager 1 1 [97, 100, 109, 105, 110] [99] 0 true) 1) := by
  unfold NoEmptyRooms
  decide

/-- C10 amended: `join_room` and `leave_room` preserve the no-empty-rooms
invariant (`leave_room` prunes a room whose last member leaves), and so does
`connect` on an open transport; but `disconnect` does not prune rooms it
empties (see the counterexample). -/
theorem c10_room_pruning (m : ConnectionManager) (ws uid now2 : Nat)
    (room role cid : List Nat) (h : NoEmptyRooms m) :
    NoEmptyRooms (join_room m ws room) ∧ NoEmptyRooms (leave_room m ws room) ∧
    NoEmptyRooms (connect m ws uid role cid now2 true) :=
  ⟨join_room_noEmpty m ws room h, leave_room_noEmpty m ws room h,
    connect_noEmpty m ws uid role cid now2 h⟩

theorem c10_room_pruning_witness :
    NoEmptyRooms newConnectionManager ∧
    NoEmptyRooms (join_room newConnectionManager 1 [120]) ∧
    NoEmptyRooms (leave_room newConnectionManager 1 [120]) ∧
    NoEmptyRooms (connect newConnectionManager 1 2 [97] [99] 0 true) := by
  have h : NoEmptyRooms newConnectionManager := fun p hp => absurd hp (List.not_mem_nil p)
  obtain ⟨h1, h2, h3⟩ := c10_room_pruning newConnectionManager 1 2 0 [120] [97] [99] h
  exact ⟨h, h1, h2, h3⟩


/-! ### Field-level encryption claims C1, C3, C4, C6 -/

theorem validText_small (s : List Nat) (h : ∀ c ∈ s, c < 55296) : ValidText s :=
  fun c hc => ⟨by have := h c hc; omega, Or.inl (h c hc)⟩

theorem bytes_small (l : List Nat) (h : ∀ x ∈ l, x < 256) : Bytes l := h

theorem get_cipher_of_key (key : List Nat) (svc : EncryptionService)
    (hkey : 32 ≤ (utf8Encode key).length)
    (hsvc : svc.cipher = none ∨ svc.cipher = some ((utf8Encode key).take 32)) :
    (get_cipher (some key) svc).1 = .ok ((utf8Encode key).take 32) ∧
    (get_cipher (some key) svc).2.cipher = some ((utf8Encode key).take 32) := by
  unfold get_cipher
  rcases hsvc with h | h
  · simp only [h]
    cases key with
    | nil => simp [utf8Encode] at hkey
    | cons a as =>
      have hl : load_active_key (some (a :: as)) = .ok (a :: as) := rfl
      simp only [hl]
      have h32 : ((utf8Encode (a :: as)).take 32).length = 32 := by
        rw [List.length_take]
        omega
      rw [if_pos h32]
      exact ⟨by trivial, by trivial⟩
  · simp only [h]
    exact ⟨by trivial, by trivial⟩

theorem encrypt_field_fst_ok (env : Option (List Nat)) (svc : EncryptionService)
    (value : List Nat) (f : String) (db : Option (List AuditRecord))
    (pid : Option String) (uid : Option Nat) (ip ua : Option String)
    (iv : List Nat) (ts now : Nat) (aok : Bool) (kb : List Nat)
    (h : (get_cipher env svc).1 = .ok kb) :
    (encrypt_field env svc value f db pid uid ip ua iv ts now aok).1
      = .ok (fernetEncrypt kb iv ts (utf8Encode value)) := by
  unfold encrypt_field
  simp only [h]

theorem encrypt_field_fst_err (env : Option (List Nat)) (svc : EncryptionService)
    (value : List Nat) (f : String) (db : Option (List AuditRecord))
    (pid : Option String) (uid : Option Nat) (ip ua : Option String)
    (iv : List Nat) (ts now : Nat) (aok : Bool) (e : String)
    (h : (get_cipher env svc).1 = .error e) :
    (encrypt_field env svc value f db pid uid ip ua iv ts now aok).1
      = .error ("Encryption failed: " ++ e) := by
  unfold encrypt_field
  simp only [h]

theorem decrypt_field_fst_ok_some (env : Option (List Nat)) (svc : EncryptionService)
    (tok : List Nat) (f : String) (db : Option (List AuditRecord))
    (pid : Option String) (uid : Option Nat) (ip ua : Option String)
    (now : Nat) (aok : Bool) (kb pt text : List Nat)
    (h : (get_cipher env svc).1 = .ok kb) (hfd : fernetDecrypt kb tok = some pt)
    (hud : utf8Decode pt = some text) :
    (decrypt_field env svc tok f db pid uid ip ua now aok).1 = .ok text := by
  unfold decrypt_field
  simp only [h, hfd, hud]

theorem decrypt_field_fst_badutf (env : Option (List Nat)) (svc : EncryptionService)
    (tok : List Nat) (f : String) (db : Option (List AuditRecord))
    (pid : Option String) (uid : Option Nat) (ip ua : Option String)
    (now : Nat) (aok : Bool) (kb pt : List Nat)
    (h : (get_cipher env svc).1 = .ok kb) (hfd : fernetDecrypt kb tok = some pt)
    (hud : utf8Decode pt = none) :
    (decrypt_field env svc tok f db pid uid ip ua now aok).1
      = .error "Decryption failed: invalid utf-8" := by
  unfold decrypt_field
  simp only [h, hfd, hud]

theorem decrypt_field_fst_badtok (env : Option (List Nat)) (svc : EncryptionService)
    (tok : List Nat) (f : String) (db : Option (List AuditRecord))
    (pid : Option String) (uid : Option Nat) (ip ua : Option String)
    (now : Nat) (aok : Bool) (kb : List Nat)
    (h : (get_cipher env svc).1 = .ok kb) (hfd : fernetDecrypt kb tok = none) :
    (decrypt_field env svc tok f db pid uid ip ua now aok).1
      = .error "Decryption failed: InvalidToken" := by
  unfold decrypt_field
  simp only [h, hfd]

theorem decrypt_field_fst_err (env : Option (List Nat)) (svc : EncryptionService)
    (tok : List Nat) (f : String) (db : Option (List AuditRecord))
    (pid : Option String) (uid : Option Nat) (ip ua : Option String)
    (now : Nat) (aok : Bool) (e : String)
    (h : (get_cipher env svc).1 = .error e) :
    (decrypt_field env svc tok f db pid uid ip ua now aok).1
      = .error ("Decryption failed: " ++ e) := by
  unfold decrypt_field
  simp only [h]

theorem encrypt_rollback (env : Option (List Nat)) (svc : EncryptionService)
    (value : List Nat) (f : String) (t : List AuditRecord) (pid : Option String)
    (uid : Option Nat) (ip ua : Option String) (iv : List Nat) (ts now : Nat) :
    (encrypt_field env svc value f (some t) pid uid ip ua iv ts now false).2.2
      = some t := by
  unfold encrypt_field
  cases (get_cipher env svc).1 <;> rfl

theorem decrypt_rollback (env : Option (List Nat)) (svc : EncryptionService)
    (tok : List Nat) (f : String) (t : List AuditRecord) (pid : Option String)
    (uid : Option Nat) (ip ua : Option String) (now : Nat) :
    (decrypt_field env svc tok f (some t) pid uid ip ua now false).2.2 = some t := by
  unfold decrypt_field
  split
  all_goals try rfl
  split
  all_goals try rfl
  split
  all_goals rfl

theorem encrypt_db_none (env : Option (List Nat)) (svc : EncryptionService)
    (value : List Nat) (f : String) (pid : Option String) (uid : Option Nat)
    (ip ua : Option String) (iv : List Nat) (ts now : Nat) (aok : Bool) :
    (encrypt_field env svc value f none pid uid ip ua iv ts now aok).2.2 = none := by
  unfold encrypt_field
  cases (get_cipher env svc).1 <;> rfl

theorem decrypt_db_none (env : Option (List Nat)) (svc : EncryptionService)
    (tok : List Nat) (f : String) (pid : Option String) (uid : Option Nat)
    (ip ua : Option String) (now : Nat) (aok : Bool) :
    (decrypt_field env svc tok f none pid uid ip ua now aok).2.2 = none := by
  unfold decrypt_field
  split
  all_goals try rfl
  split
  all_goals try rfl
  split
  all_goals rfl

theorem decrypt_field_of_fernet (key value iv : List Nat) (ts : Nat)
    (svc : EncryptionService) (f : String) (db : Option (List AuditRecord))
    (pid : Option String) (uid : Option Nat) (ip ua : Option String)
    (now : Nat) (aok : Bool)
    (hkey : 32 ≤ (utf8Encode key).length) (hkeyv : ValidText key)
    (hsvc : svc.cipher = none ∨ svc.cipher = some ((utf8Encode key).take 32))
    (hval : ValidText value) (hiv : iv.length = 16) (hivb : Bytes iv) :
    (decrypt_field (some key) svc
        (fernetEncrypt ((utf8Encode key).take 32) iv ts (utf8Encode value))
        f db pid uid ip ua now aok).1 = .ok value := by
  have hgc := get_cipher_of_key key svc hkey hsvc
  have hkl : ((utf8Encode key).take 32).length = 32 := by
    rw [List.length_take]
    omega
  have hkb : Bytes ((utf8Encode key).take 32) :=
    bytes_take 32 (utf8Encode_bytes key hkeyv)
  exact decrypt_field_fst_ok_some _ _ _ f db pid uid ip ua now aok _ _ _ hgc.1
    (fernetDecrypt_encrypt _ _ ts _ hkl hkb hiv hivb (utf8Encode_bytes value hval))
    (utf8Decode_encode value hval)

/-- C1: with a fixed active key (at least 32 encoded bytes, the cipher not
yet built or already built from that key), `encrypt_field` succeeds on any
valid text value - including the empty string and arbitrary multi-byte
UTF-8 - returning the Fernet token of its UTF-8 encoding, and
`decrypt_field` applied through the updated service to any token
`encrypt_field` returned gives back exactly the original value. -/
theorem c1_encrypt_decrypt_roundtrip (key value iv : List Nat)
    (svc : EncryptionService) (f f2 : String) (db db2 : Option (List AuditRecord))
    (pid pid2 : Option String) (uid uid2 : Option Nat) (ip ip2 ua ua2 : Option String)
    (ts now now2 : Nat) (aok aok2 : Bool)
    (hkey : 32 ≤ (utf8Encode key).length) (hkeyv : ValidText key)
    (hsvc : svc.cipher = none ∨ svc.cipher = some ((utf8Encode key).take 32))
    (hval : ValidText value) (hiv : iv.length = 16) (hivb : Bytes iv) :
    (encrypt_field (some key) svc value f db pid uid ip ua iv ts now aok).1
      = .ok (fernetEncrypt ((utf8Encode key).take 32) iv ts (utf8Encode value)) ∧
    ∀ tok, (encrypt_field (some key) svc value f db pid uid ip ua iv ts now aok).1
        = .ok tok →
      (decrypt_field (some key)
          (encrypt_field (some key) svc value f db pid uid ip ua iv ts now aok).2.1
          tok f2 db2 pid2 uid2 ip2 ua2 now2 aok2).1 = .ok value := by
  have hgc := get_cipher_of_key key svc hkey hsvc
  have henc := encrypt_field_fst_ok (some key) svc value f db pid uid ip ua iv ts now
    aok _ hgc.1
  refine ⟨henc, ?_⟩
  intro tok htok
  rw [henc] at htok
  injection htok with htok
  subst htok
  rw [encrypt_field_svc]
  exact decrypt_field_of_fernet key value iv ts _ f2 db2 pid2 uid2 ip2 ua2 now2 aok2
    hkey hkeyv (Or.inr hgc.2) hval hiv hivb

def sampleKey : List Nat := List.replicate 40 97

def sampleKb : List Nat := (utf8Encode sampleKey).take 32

def sampleTok : List Nat :=
  fernetEncrypt sampleKb (List.replicate 16 0) 0 (utf8Encode [104, 105])

def sampleData : List (String × List Nat) :=
  [("first_name_encrypted", [33]), ("last_name_encrypted", sampleTok)]

theorem c1_encrypt_decrypt_roundtrip_witness :
    (32 ≤ (utf8Encode sampleKey).length ∧ ValidText sampleKey ∧
      ValidText [104, 105, 955] ∧ (List.replicate 16 7).length = 16 ∧
      Bytes (List.replicate 16 7)) ∧
    (decrypt_field (some sampleKey)
        (encrypt_field (some sampleKey) newEncryptionService [104, 105, 955]
          "first_name" none none none none none (List.replicate 16 7) 0 0 true).2.1
        (fernetEncrypt ((utf8Encode sampleKey).take 32) (List.replicate 16 7) 0
          (utf8Encode [104, 105, 955]))
        "first_name" none none none none none 0 true).1 = .ok [104, 105, 955] := by
  have h := c1_encrypt_decrypt_roundtrip sampleKey [104, 105, 955]
    (List.replicate 16 7) newEncryptionService "first_name" "first_name" none none
    none none none none none none none none 0 0 0 true true (by decide)
    (validText_small _ (by decide)) (Or.inl rfl) (validText_small _ (by decide))
    (by decide) (bytes_small _ (by decide))
  exact ⟨⟨by decide, validText_small _ (by decide), validText_small _ (by decide),
    by decide, bytes_small _ (by decide)⟩, h.2 _ h.1⟩

/-- C3 fails: a successful `encrypt_field` call with a live session but a
failing audit write leaves the audit table unchanged (the exception is
swallowed and the transaction rolled back), and a call without a session
writes no audit record at all - so not every call creates an audit
record. -/
theorem c3_successful_call_without_audit_record :
    ((encrypt_field (some sampleKey) newEncryptionService [104] "first_name"
        (some []) none none none none (List.replicate 16 0) 0 0 false).1).isOk
      = true ∧
    (encrypt_field (some sampleKey) newEncryptionService [104] "first_name"
        (some []) none none none none (List.replicate 16 0) 0 0 false).2.2
      = some [] ∧
    (encrypt_field (some sampleKey) newEncryptionService [104] "first_name" none
        none none none none (List.replicate 16 0) 0 0 true).2.2 = none := by
  refine ⟨?_, encrypt_rollback _ _ _ _ _ _ _ _ _ _ _ _,
    encrypt_db_none _ _ _ _ _ _ _ _ _ _ _ _⟩
  have hgc := get_cipher_of_key sampleKey newEncryptionService (by decide)
    (Or.inl rfl)
  rw [encrypt_field_fst_ok _ _ _ _ _ _ _ _ _ _ _ _ _ _ hgc.1]
  rfl

/-- C3 amended: when a session is passed and the audit write succeeds,
`encrypt_field`/`decrypt_field` append exactly one audit record whose
success flag matches the outcome, with no error message on success and a
non-empty error message on failure; but when no session is passed nothing
is recorded, and when the audit write itself fails the record is rolled
back and the table is unchanged. -/
theorem c3_audit_record_semantics (env : Option (List Nat))
    (svc : EncryptionService) (value tok : List Nat) (f : String)
    (t : List AuditRecord) (pid : Option String) (uid : Option Nat)
    (ip ua : Option String) (iv : List Nat) (ts now : Nat) (aok : Bool) :
    (∃ r : AuditRecord,
      (encrypt_field env svc value f (some t) pid uid ip ua iv ts now true).2.2
        = some (t ++ [r]) ∧
      r.operation = "encrypt" ∧ r.field_name = f ∧
      r.success = ((encrypt_field env svc value f (some t) pid uid ip ua iv ts now
        true).1).isOk ∧
      (r.success = true → r.error_message = none) ∧
      (r.success = false → ∃ msg, r.error_message = some msg ∧ 0 < msg.length)) ∧
    (∃ r : AuditRecord,
      (decrypt_field env svc tok f (some t) pid uid ip ua now true).2.2
        = some (t ++ [r]) ∧
      r.operation = "decrypt" ∧ r.field_name = f ∧
      r.success = ((decrypt_field env svc tok f (some t) pid uid ip ua now
        true).1).isOk ∧
      (r.success = true → r.error_message = none) ∧
      (r.success = false → ∃ msg, r.error_message = some msg ∧ 0 < msg.length)) ∧
    (encrypt_field env svc value f none pid uid ip ua iv ts now aok).2.2 = none ∧
    (decrypt_field env svc tok f none pid uid ip ua now aok).2.2 = none ∧
    (encrypt_field env svc value f (some t) pid uid ip ua iv ts now false).2.2
      = some t ∧
    (decrypt_field env svc tok f (some t) pid uid ip ua now false).2.2 = some t := by
  refine ⟨?_, ?_, encrypt_db_none _ _ _ _ _ _ _ _ _ _ _ _,
    decrypt_db_none _ _ _ _ _ _ _ _ _ _,
    encrypt_rollback _ _ _ _ _ _ _ _ _ _ _ _, decrypt_rollback _ _ _ _ _ _ _ _ _ _⟩
  · cases hg : (get_cipher env svc).1 with
    | ok kb =>
      refine ⟨⟨uid, pid, "encrypt", f, (get_cipher env svc).2.current_key_version,
        true, none, ip, ua, now⟩, ?_, rfl, rfl, ?_, fun _ => rfl, ?_⟩
      · unfold encrypt_field
        simp only [hg]
        rfl
      · rw [encrypt_field_fst_ok _ _ _ _ _ _ _ _ _ _ _ _ _ _ hg]
        rfl
      · intro hfalse
        exact Bool.noConfusion hfalse
    | error e =>
      refine ⟨⟨uid, pid, "encrypt", f, (get_cipher env svc).2.current_key_version,
        false, some ("Encryption failed: " ++ e), ip, ua, now⟩, ?_, rfl, rfl, ?_,
        ?_, ?_⟩
      · unfold encrypt_field
        simp only [hg]
        rfl
      · rw [encrypt_field_fst_err _ _ _ _ _ _ _ _ _ _ _ _ _ _ hg]
        rfl
      · intro htrue
        exact Bool.noConfusion htrue
      · intro _
        refine ⟨"Encryption failed: " ++ e, rfl, ?_⟩
        rw [String.length_append]
        have h19 : 0 < "Encryption failed: ".length := by decide
        omega
  · cases hg : (get_cipher env svc).1 with
    | ok kb =>
      cases hfd : fernetDecrypt kb tok with
      | some pt =>
        cases hud : utf8Decode pt with
        | some text =>
          refine ⟨⟨uid, pid, "decrypt", f,
            (get_cipher env svc).2.current_key_version, true, none, ip, ua, now⟩,
            ?_, rfl, rfl, ?_, fun _ => rfl, ?_⟩
          · unfold decrypt_field
            simp only [hg, hfd, hud]
            rfl
          · rw [decrypt_field_fst_ok_some _ _ _ _ _ _ _ _ _ _ _ _ _ _ hg hfd hud]
            rfl
          · intro hfalse
            exact Bool.noConfusion hfalse
        | none =>
          refine ⟨⟨uid, pid, "decrypt", f,
            (get_cipher env svc).2.current_key_version, false,
            some "Decryption failed: invalid utf-8", ip, ua, now⟩,
            ?_, rfl, rfl, ?_, ?_, ?_⟩
          · unfold decrypt_field
            simp only [hg, hfd, hud]
            rfl
          · rw [decrypt_field_fst_badutf _ _ _ _ _ _ _ _ _ _ _ _ _ hg hfd hud]
            rfl
          · intro htrue
            exact Bool.noConfusion htrue
          · intro _
            exact ⟨"Decryption failed: invalid utf-8", rfl, by decide⟩
      | none =>
        refine ⟨⟨uid, pid, "decrypt", f,
          (get_cipher env svc).2.current_key_version, false,
          some "Decryption failed: InvalidToken", ip, ua, now⟩,
          ?_, rfl, rfl, ?_, ?_, ?_⟩
        · unfold decrypt_field
          simp only [hg, hfd]
          rfl
        · rw [decrypt_field_fst_badtok _ _ _ _ _ _ _ _ _ _ _ _ hg hfd]
          rfl
        · intro htrue
          exact Bool.noConfusion htrue
        · intro _
          exact ⟨"Decryption failed: InvalidToken", rfl, by decide⟩
    | error e =>
      refine ⟨⟨uid, pid, "decrypt", f, (get_cipher env svc).2.current_key_version,
        false, some ("Decryption failed: " ++ e), ip, ua, now⟩, ?_, rfl, rfl, ?_,
        ?_, ?_⟩
      · unfold decrypt_field
        simp only [hg]
        rfl
      · rw [decrypt_field_fst_err _ _ _ _ _ _ _ _ _ _ _ _ hg]
        rfl
      · intro htrue
        exact Bool.noConfusion htrue
      · intro _
        refine ⟨"Decryption failed: " ++ e, rfl, ?_⟩
        rw [String.length_append]
        have h19 : 0 < "Decryption failed: ".length := by decide
        omega


/-- C6: whether an audit session is present and whether the audit write
succeeds has no effect on the outcome of `encrypt_field`/`decrypt_field`:
the returned value (token, plaintext, or the original cipher error - never
an audit-write error) and the resulting service state are identical for
any two choices of session and audit-write fate; and when the audit write
fails the table itself is left unchanged (the failure is swallowed and
rolled back). -/
theorem c6_audit_failure_never_alters_outcome (env : Option (List Nat))
    (svc : EncryptionService) (value tok : List Nat) (f : String)
    (db db2 : Option (List AuditRecord)) (t : List AuditRecord)
    (pid : Option String) (uid : Option Nat) (ip ua : Option String)
    (iv : List Nat) (ts now : Nat) (aok aok2 : Bool) :
    (encrypt_field env svc value f db pid uid ip ua iv ts now aok).1
      = (encrypt_field env svc value f db2 pid uid ip ua iv ts now aok2).1 ∧
    (encrypt_field env svc value f db pid uid ip ua iv ts now aok).2.1
      = (encrypt_field env svc value f db2 pid uid ip ua iv ts now aok2).2.1 ∧
    (decrypt_field env svc tok f db pid uid ip ua now aok).1
      = (decrypt_field env svc tok f db2 pid uid ip ua now aok2).1 ∧
    (decrypt_field env svc tok f db pid uid ip ua now aok).2.1
      = (decrypt_field env svc tok f db2 pid uid ip ua now aok2).2.1 ∧
    (encrypt_field env svc value f (some t) pid uid ip ua iv ts now false).2.2
      = some t ∧
    (decrypt_field env svc tok f (some t) pid uid ip ua now false).2.2 = some t := by
  refine ⟨?_, ?_, ?_, ?_, encrypt_rollback _ _ _ _ _ _ _ _ _ _ _ _,
    decrypt_rollback _ _ _ _ _ _ _ _ _ _⟩
  · cases hg : (get_cipher env svc).1 with
    | ok kb =>
      rw [encrypt_field_fst_ok _ _ _ _ _ _ _ _ _ _ _ _ _ _ hg,
        encrypt_field_fst_ok _ _ _ _ _ _ _ _ _ _ _ _ _ _ hg]
    | error e =>
      rw [encrypt_field_fst_err _ _ _ _ _ _ _ _ _ _ _ _ _ _ hg,
        encrypt_field_fst_err _ _ _ _ _ _ _ _ _ _ _ _ _ _ hg]
  · rw [encrypt_field_svc, encrypt_field_svc]
  · cases hg : (get_cipher env svc).1 with
    | ok kb =>
      cases hfd : fernetDecrypt kb tok with
      | some pt =>
        cases hud : utf8Decode pt with
        | some text =>
          rw [decrypt_field_fst_ok_some _ _ _ _ _ _ _ _ _ _ _ _ _ _ hg hfd hud,
            decrypt_field_fst_ok_some _ _ _ _ _ _ _ _ _ _ _ _ _ _ hg hfd hud]
        | none =>
          rw [decrypt_field_fst_badutf _ _ _ _ _ _ _ _ _ _ _ _ _ hg hfd hud,
            decrypt_field_fst_badutf _ _ _ _ _ _ _ _ _ _ _ _ _ hg hfd hud]
      | none =>
        rw [decrypt_field_fst_badtok _ _ _ _ _ _ _ _ _ _ _ _ hg hfd,
          decrypt_field_fst_badtok _ _ _ _ _ _ _ _ _ _ _ _ hg hfd]
    | error e =>
      rw [decrypt_field_fst_err _ _ _ _ _ _ _ _ _ _ _ _ hg,
        decrypt_field_fst_err _ _ _ _ _ _ _ _ _ _ _ _ hg]
  · rw [decrypt_field_svc, decrypt_field_svc]

theorem bulkEncryptGo_cons (env : Option (List Nat)) (svc : EncryptionService)
    (f : String) (restE : List String) (data : List (String × List Nat))
    (db : Option (List AuditRecord)) (pid : Option String) (uid : Option Nat)
    (ip ua : Option String) (iv : List Nat) (ts now : Nat) (aok : Bool)
    (acc : List (String × List Nat)) :
    bulkEncryptGo env svc (f :: restE) data db pid uid ip ua iv ts now aok acc
      = match dictGet f data with
        | none => bulkEncryptGo env svc restE data db pid uid ip ua iv ts now aok acc
        | some v =>
          match encrypt_field env svc v f db pid uid ip ua iv ts now aok with
          | (.ok tok, svc1, db1) =>
            bulkEncryptGo env svc1 restE data db1 pid uid ip ua iv ts now aok
              (acc ++ [(f ++ "_encrypted", tok)])
          | (.error e, svc1, db1) => (.error e, svc1, db1) := rfl

theorem bulkDecryptGo_cons (env : Option (List Nat)) (svc : EncryptionService)
    (encf plainf : String) (restD : List (String × String))
    (data : List (String × List Nat)) (db : Option (List AuditRecord))
    (pid : Option String) (uid : Option Nat) (ip ua : Option String) (now : Nat)
    (aok : Bool) (acc : List (String × List Nat)) :
    bulkDecryptGo env svc ((encf, plainf) :: restD) data db pid uid ip ua now aok acc
      = match dictGet encf data with
        | none => bulkDecryptGo env svc restD data db pid uid ip ua now aok acc
        | some v =>
          match decrypt_field env svc v plainf db pid uid ip ua now aok with
          | (.ok text, svc1, db1) =>
            bulkDecryptGo env svc1 restD data db1 pid uid ip ua now aok
              (acc ++ [(plainf, text)])
          | (.error e, svc1, db1) => (.error e, svc1, db1) := rfl

/-- C4 fails: the bulk loops have no per-field exception handling, so when
an earlier field's transform raises, the whole call aborts with that error
and the partial dictionary is discarded - here the second field's token is
perfectly decryptable (second conjunct) yet the bulk decrypt of the mapping
returns only the first field's error and no dictionary at all. -/
theorem c4_bulk_abort_on_first_failure :
    (bulk_decrypt_patient_data (some sampleKey) newEncryptionService sampleData
        none none none none none 0 true).1
      = .error "Decryption failed: InvalidToken" ∧
    (decrypt_field (some sampleKey) newEncryptionService sampleTok "last_name" none
        none none none none 0 true).1 = .ok [104, 105] := by
  constructor
  · rfl
  · exact decrypt_field_of_fernet sampleKey [104, 105] (List.replicate 16 0) 0
      newEncryptionService "last_name" none none none none none 0 true (by decide)
      (validText_small _ (by decide)) (Or.inl rfl)
      (validText_small _ (by decide)) (by decide) (bytes_small _ (by decide))

/-- C4 amended: the bulk loops process the mapping sequentially - a field
absent from the input is skipped, a field whose transform succeeds has its
result appended to the accumulated dictionary and processing continues with
the updated service and session, and a field whose transform raises aborts
the whole call immediately, returning that error and discarding the
accumulated results of the sibling fields. -/
theorem c4_bulk_sequential_abort_semantics (env : Option (List Nat))
    (svc : EncryptionService) (f encf plainf : String) (restE : List String)
    (restD : List (String × String)) (data : List (String × List Nat))
    (db : Option (List AuditRecord)) (pid : Option String) (uid : Option Nat)
    (ip ua : Option String) (iv : List Nat) (ts now : Nat) (aok : Bool)
    (acc : List (String × List Nat)) :
    (dictGet f data = none →
      bulkEncryptGo env svc (f :: restE) data db pid uid ip ua iv ts now aok acc
        = bulkEncryptGo env svc restE data db pid uid ip ua iv ts now aok acc) ∧
    (∀ v tok svc1 db1, dictGet f data = some v →
      encrypt_field env svc v f db pid uid ip ua iv ts now aok
        = (.ok tok, svc1, db1) →
      bulkEncryptGo env svc (f :: restE) data db pid uid ip ua iv ts now aok acc
        = bulkEncryptGo env svc1 restE data db1 pid uid ip ua iv ts now aok
            (acc ++ [(f ++ "_encrypted", tok)])) ∧
    (∀ v e svc1 db1, dictGet f data = some v →
      encrypt_field env svc v f db pid uid ip ua iv ts now aok
        = (.error e, svc1, db1) →
      bulkEncryptGo env svc (f :: restE) data db pid uid ip ua iv ts now aok acc
        = (.error e, svc1, db1)) ∧
    (dictGet encf data = none →
      bulkDecryptGo env svc ((encf, plainf) :: restD) data db pid uid ip ua now aok
          acc
        = bulkDecryptGo env svc restD data db pid uid ip ua now aok acc) ∧
    (∀ v text svc1 db1, dictGet encf data = some v →
      decrypt_field env svc v plainf db pid uid ip ua now aok
        = (.ok text, svc1, db1) →
      bulkDecryptGo env svc ((encf, plainf) :: restD) data db pid uid ip ua now aok
          acc
        = bulkDecryptGo env svc1 restD data db1 pid uid ip ua now aok
            (acc ++ [(plainf, text)])) ∧
    (∀ v e svc1 db1, dictGet encf data = some v →
      decrypt_field env svc v plainf db pid uid ip ua now aok
        = (.error e, svc1, db1) →
      bulkDecryptGo env svc ((encf, plainf) :: restD) data db pid uid ip ua now aok
          acc
        = (.error e, svc1, db1)) := by
  refine ⟨?_, ?_, ?_, ?_, ?_, ?_⟩
  · intro h
    rw [bulkEncryptGo_cons]
    simp only [h]
  · intro v tok svc1 db1 h1 h2
    rw [bulkEncryptGo_cons]
    simp only [h1, h2]
  · intro v e svc1 db1 h1 h2
    rw [bulkEncryptGo_cons]
    simp only [h1, h2]
  · intro h
    rw [bulkDecryptGo_cons]
    simp only [h]
  · intro v text svc1 db1 h1 h2
    rw [bulkDecryptGo_cons]
    simp only [h1, h2]
  · intro v e svc1 db1 h1 h2
    rw [bulkDecryptGo_cons]
    simp only [h1, h2]

theorem c4_bulk_sequential_abort_semantics_witness :
    dictGet "first_name_encrypted" sampleData = some [33] ∧
    decrypt_field (some sampleKey) newEncryptionService [33] "first_name" none none
        none none none 0 true
      = (.error "Decryption failed: InvalidToken",
          ⟨"v1.0", some sampleKb⟩, none) ∧
    bulkDecryptGo (some sampleKey) newEncryptionService
        [("first_name_encrypted", "first_name"), ("last_name_encrypted", "last_name")]
        sampleData none none none none none 0 true []
      = (.error "Decryption failed: InvalidToken",
          ⟨"v1.0", some sampleKb⟩, none) := by
  refine ⟨rfl, rfl, ?_⟩
  exact (c4_bulk_sequential_abort_semantics (some sampleKey) newEncryptionService
    "x" "first_name_encrypted" "first_name" [] [("last_name_encrypted", "last_name")]
    sampleData none none none none none [] 0 0 true []).2.2.2.2.2 [33]
    "Decryption failed: InvalidToken" ⟨"v1.0", some sampleKb⟩ none rfl rfl

end HC
